import Mathlib

/-!
# SimpleInliner (creduce): a shallow embedding of `SimpleInliner.cpp`

The clang syntax tree is modelled by inductive types whose constructors carry the
clang class names that the pass dispatches on.  Node addresses (`CallExpr *`,
`FunctionDecl *`) are natural numbers stored in a `ptr` field.  The mutable members
of the `SimpleInliner` consumer and of its three visitors form one record that is
threaded through the functions; `TransAssert` failures and `std::out_of_range` are
the `Except.error` results.  Requests sent to the rewriter are appended to an edit
log, so that "the source buffer is unchanged" reads "the log is empty".

Counters (`NumStmts`, `ValidInstanceNum`, `NamePostfix`) are natural numbers: they
count syntax-tree nodes of one translation unit and are incremented by one, so they
stay far below the 32-bit range of the C++ fields.
-/

namespace SimpleInliner

/-! ## Syntax tree -/

/-- A `std::string`: a sequence of characters. -/
abbrev Text := List Char

/-- A clang `QualType`, reduced to what the pass reads: its printed spelling and
whether it is the void type. -/
structure QualType where
  spelling : Text
  isVoidType : Bool
  deriving DecidableEq

/-- Expressions, one constructor per clang statement class (`getStmtClass`).
`OtherExpr` stands for every expression class not listed. -/
inductive Expr where
  | FloatingLiteral (text : Text)
  | StringLiteral (text : Text)
  | IntegerLiteral (value : Nat)
  | GNUNullExpr
  | CharacterLiteral (value : Nat)
  | ParenExpr (sub : Expr)
  | ImplicitCastExpr (sub : Expr)
  | CStyleCastExpr (type : QualType) (sub : Expr)
  | CXXStaticCastExpr (type : QualType) (sub : Expr)
  | MemberExpr (base : Expr) (member : Text)
  | ArraySubscriptExpr (base : Expr) (idx : Expr)
  | DeclRefExpr (name : Text) (isParmVar : Bool)
  | UnaryOperator (sub : Expr)
  | BinaryOperator (lhs : Expr) (rhs : Expr)
  | ConditionalOperator (cond : Expr) (lhs : Expr) (rhs : Expr)
  | CallExpr (ptr : Nat) (calleeDecl : Option Nat) (type : QualType)
      (fn : Expr) (args : List Expr)
  | OtherExpr (children : List Expr)

/-- A `CallExpr` node as the pass holds it (`CallExpr *`): `ptr` is the node
address, `calleeDecl` the address of the directly referenced `FunctionDecl` (none
for an indirect call), `type` the call's result type (`getCallReturnType`). -/
structure CallExpr where
  ptr : Nat
  calleeDecl : Option Nat
  type : QualType
  fn : Expr
  args : List Expr

/-- The call node seen as an expression. -/
def CallExpr.toExpr (CE : CallExpr) : Expr :=
  Expr.CallExpr CE.ptr CE.calleeDecl CE.type CE.fn CE.args

/-! ## Argument check (`isValidArgExpr`, `hasValidArgExprs`) -/

/-- Models `SimpleInliner::isValidArgExpr`: the switch over `E->getStmtClass()`. -/
def isValidArgExpr : Expr → Bool
  | Expr.FloatingLiteral _ => true
  | Expr.StringLiteral _ => true
  | Expr.IntegerLiteral _ => true
  | Expr.GNUNullExpr => true
  | Expr.CharacterLiteral _ => true
  | Expr.ParenExpr sub => isValidArgExpr sub
  | Expr.ImplicitCastExpr sub => isValidArgExpr sub
  | Expr.CStyleCastExpr _ sub => isValidArgExpr sub
  | Expr.MemberExpr _ _ => true
  | Expr.ArraySubscriptExpr _ idx => isValidArgExpr idx
  | Expr.DeclRefExpr _ _ => true
  | _ => false

/-- The argument loop of `hasValidArgExprs`: false at the first rejected argument. -/
def hasValidArgs : List Expr → Bool
  | [] => true
  | I :: rest => if !isValidArgExpr I then false else hasValidArgs rest

/-- Models `SimpleInliner::hasValidArgExprs`. -/
def hasValidArgExprs (CE : CallExpr) : Bool :=
  hasValidArgs CE.args

/-! ## Statements and declarations -/

/-- A variable declared by a `DeclStmt`, with its optional initializer. -/
structure VarDecl where
  name : Text
  type : QualType
  init : Option Expr

/-- Statements, one constructor per clang statement class.  An expression in
statement position is `ExprStmt`.  `ReturnStmt` carries the offset of its first
character in the source buffer (`getLocStart`) and the type of its value. -/
inductive Stmt where
  | ExprStmt (e : Expr)
  | NullStmt
  | BreakStmt
  | ContinueStmt
  | GotoStmt (label : Text)
  | IndirectGotoStmt (target : Expr)
  | CompoundStmt (body : List Stmt)
  | DeclStmt (decls : List VarDecl)
  | DoStmt (body : Stmt) (cond : Expr)
  | ForStmt (init : Option Stmt) (cond : Option Expr) (inc : Option Expr) (body : Stmt)
  | IfStmt (cond : Expr) (thenB : Stmt) (elseB : Option Stmt)
  | ReturnStmt (loc : Nat) (retValue : Option Expr) (valueType : QualType)
  | CaseStmt (lhs : Expr) (sub : Stmt)
  | DefaultStmt (sub : Stmt)
  | SwitchStmt (cond : Expr) (body : Stmt)
  | WhileStmt (cond : Expr) (body : Stmt)
  | LabelStmt (name : Text) (sub : Stmt)

/-- A `ReturnStmt` node as the pass holds it (`ReturnStmt *`). -/
structure ReturnStmt where
  loc : Nat
  retValue : Option Expr
  valueType : QualType

/-- A formal parameter. -/
structure ParmVarDecl where
  name : Text
  type : QualType
  deriving DecidableEq

/-- One declaration of a function.  `ptr` is the address of this declaration and
`canonical` the address of the canonical declaration of the function
(`getCanonicalDecl`).  `body` is present exactly when this declaration is a
definition; `bodyLoc` and `bodyText` are the offset of the body's first character
in the source buffer and the body's source text (`getStmtString`). -/
structure FunctionDecl where
  ptr : Nat
  canonical : Nat
  isVariadic : Bool
  resultType : QualType
  params : List ParmVarDecl
  body : Option Stmt
  bodyLoc : Nat
  bodyText : Text

/-- Models `FunctionDecl::isThisDeclarationADefinition`. -/
def FunctionDecl.isThisDeclarationADefinition (FD : FunctionDecl) : Bool :=
  FD.body.isSome

/-- Models `FunctionDecl::getCanonicalDecl`, as an address. -/
def FunctionDecl.getCanonicalDecl (FD : FunctionDecl) : Nat :=
  FD.canonical

instance : Inhabited FunctionDecl :=
  ⟨{ ptr := 0, canonical := 0, isVariadic := false, resultType := ⟨[], false⟩,
     params := [], body := none, bodyLoc := 0, bodyText := [] }⟩

/-- A top-level declaration: a function declaration, or anything else. -/
inductive Decl where
  | Function (FD : FunctionDecl)
  | Other

/-- Models `dyn_cast<FunctionDecl>`. -/
def Decl.asFunctionDecl : Decl → Option FunctionDecl
  | Decl.Function FD => some FD
  | Decl.Other => none

/-- What the pass reads from its collaborators (parser, source manager,
`RewriteUtils`, diagnostics): the top-level declaration groups of the translation
unit in the order the parser hands them over, every identifier of the unit, the
reserved name prefix `RewriteUtils::getTmpVarNamePrefix()`, the source text of an
expression (`RewriteUtils::getExprString`), and whether the diagnostics engine
reports an error after the edits. -/
structure ASTContext where
  TranslationUnit : List (List Decl)
  Identifiers : List Text
  TmpVarNamePrefix : Text
  getExprString : Expr → Text
  hasErrorOccurred : Bool

/-- Every function declaration of the unit, in source order. -/
def ASTContext.functionDecls (Ctx : ASTContext) : List FunctionDecl :=
  Ctx.TranslationUnit.flatten.filterMap Decl.asFunctionDecl

/-- The declaration a `FunctionDecl *` points to.  Every such pointer of a parsed
unit points to one of its declarations; an address that is not one yields a
body-less dummy. -/
def ASTContext.getDecl (Ctx : ASTContext) (p : Nat) : FunctionDecl :=
  (Ctx.functionDecls.find? (fun d => d.ptr == p)).getD default

/-- Models `CallExpr::getDirectCallee`: null for an indirect call. -/
def getDirectCallee (Ctx : ASTContext) (CE : CallExpr) : Option FunctionDecl :=
  CE.calleeDecl.map Ctx.getDecl

/-- Models `FunctionDecl::getFirstDeclaration`: the first declaration of the function in
the unit. -/
def getFirstDeclaration (Ctx : ASTContext) (FD : FunctionDecl) : FunctionDecl :=
  (Ctx.functionDecls.find? (fun d => d.canonical == FD.canonical)).getD FD

/-- The range `redecls_begin() .. redecls_end()` started at a first declaration:
the declaration itself, then the other declarations of the function from the most
recent one back to the second. -/
def redecls (Ctx : ASTContext) (FD : FunctionDecl) : List FunctionDecl :=
  match Ctx.functionDecls.filter (fun d => d.canonical == FD.canonical) with
  | [] => [FD]
  | First :: Later => First :: Later.reverse

/-! ## State of the pass -/

/-- How a run stops early: a failed `TransAssert`, a null pointer that is
dereferenced, or `std::out_of_range` thrown by a string operation. -/
inductive Abort where
  | TransAssert (msg : String)
  | NullPointer
  | OutOfRange
  deriving DecidableEq

/-- Models `TransformationError`. -/
inductive TransformationError where
  | TransSuccess
  | TransInternalError
  | TransMaxInstanceError
  deriving DecidableEq

/-- A request sent to the rewriter through `RewriteUtils`. -/
inductive Edit where
  | addLocalVarToFunc (VarStr : Text) (FD : Option FunctionDecl)
  | addStringBeforeStmt (S : Option Stmt) (Str : Text) (NeedParen : Bool)
  | replaceExprNotInclude (E : Option CallExpr) (Str : Text)

/-- The members of `SimpleInliner` (with those inherited from `Transformation`),
the counter of the collection visitor (`NumStmts`), the two members of the
statement visitor (`CurrentStmt`, `VisitorNeedParen`) and the rewriter's log. -/
structure State where
  TransformationCounter : Nat
  ValidInstanceNum : Nat
  QueryInstanceOnly : Bool
  TransError : TransformationError
  MaxNumStmts : Nat
  AllCallExprs : List CallExpr
  CalleeToCallerMap : List (Nat × Option FunctionDecl)
  ValidFunctionDecls : List Nat
  CurrentFD : Option FunctionDecl
  TheCaller : Option FunctionDecl
  TheCallExpr : Option CallExpr
  TheStmt : Option Stmt
  NeedParen : Bool
  TmpVarName : Text
  NamePostfix : Nat
  ParmStrings : List Text
  ReturnStmts : List ReturnStmt
  ParmRefs : List Text
  NumStmts : Nat
  CurrentStmt : Option Stmt
  VisitorNeedParen : Bool
  Edits : List Edit

/-- Modelled from the spec: the consumer as its constructor leaves it (the class
is declared in `SimpleInliner.h` and `Transformation.h`, outside this file).  The
count of valid instances starts at zero, pointers are null, containers and strings
are empty; the driver supplies the target ordinal, the query-only flag and the
size threshold. -/
def State.initial (Counter : Nat) (QueryOnly : Bool) (MaxNumStmts : Nat) : State :=
  { TransformationCounter := Counter, ValidInstanceNum := 0,
    QueryInstanceOnly := QueryOnly, TransError := TransformationError.TransSuccess,
    MaxNumStmts := MaxNumStmts, AllCallExprs := [], CalleeToCallerMap := [],
    ValidFunctionDecls := [], CurrentFD := none, TheCaller := none,
    TheCallExpr := none, TheStmt := none, NeedParen := false, TmpVarName := [],
    NamePostfix := 0, ParmStrings := [], ReturnStmts := [], ParmRefs := [],
    NumStmts := 0, CurrentStmt := none, VisitorNeedParen := false, Edits := [] }

/-! ## Recursive traversal

`RecursiveASTVisitor` visits a node (`WalkUpFrom...`, which runs the `Visit*`
methods of the visitor) and then traverses its children in order.  For a visitor
whose `Visit*` methods all return true the traversal is the fold below; `VisitE` and
`VisitS` are the visitor's methods, dispatched on the node class. -/

mutual
/-- Models `TraverseStmt` on an expression. -/
def TraverseExpr (VisitE : Expr → State → State) : Expr → State → State
  | Expr.FloatingLiteral t, s => VisitE (Expr.FloatingLiteral t) s
  | Expr.StringLiteral t, s => VisitE (Expr.StringLiteral t) s
  | Expr.IntegerLiteral v, s => VisitE (Expr.IntegerLiteral v) s
  | Expr.GNUNullExpr, s => VisitE Expr.GNUNullExpr s
  | Expr.CharacterLiteral v, s => VisitE (Expr.CharacterLiteral v) s
  | Expr.ParenExpr sub, s => TraverseExpr VisitE sub (VisitE (Expr.ParenExpr sub) s)
  | Expr.ImplicitCastExpr sub, s =>
    TraverseExpr VisitE sub (VisitE (Expr.ImplicitCastExpr sub) s)
  | Expr.CStyleCastExpr t sub, s =>
    TraverseExpr VisitE sub (VisitE (Expr.CStyleCastExpr t sub) s)
  | Expr.CXXStaticCastExpr t sub, s =>
    TraverseExpr VisitE sub (VisitE (Expr.CXXStaticCastExpr t sub) s)
  | Expr.MemberExpr base m, s =>
    TraverseExpr VisitE base (VisitE (Expr.MemberExpr base m) s)
  | Expr.ArraySubscriptExpr base idx, s =>
    TraverseExpr VisitE idx
      (TraverseExpr VisitE base (VisitE (Expr.ArraySubscriptExpr base idx) s))
  | Expr.DeclRefExpr n b, s => VisitE (Expr.DeclRefExpr n b) s
  | Expr.UnaryOperator sub, s =>
    TraverseExpr VisitE sub (VisitE (Expr.UnaryOperator sub) s)
  | Expr.BinaryOperator lhs rhs, s =>
    TraverseExpr VisitE rhs
      (TraverseExpr VisitE lhs (VisitE (Expr.BinaryOperator lhs rhs) s))
  | Expr.ConditionalOperator cond lhs rhs, s =>
    TraverseExpr VisitE rhs
      (TraverseExpr VisitE lhs
        (TraverseExpr VisitE cond (VisitE (Expr.ConditionalOperator cond lhs rhs) s)))
  | Expr.CallExpr ptr calleeDecl type fn args, s =>
    TraverseExprs VisitE args
      (TraverseExpr VisitE fn (VisitE (Expr.CallExpr ptr calleeDecl type fn args) s))
  | Expr.OtherExpr children, s =>
    TraverseExprs VisitE children (VisitE (Expr.OtherExpr children) s)
/-- The children of a node, left to right. -/
def TraverseExprs (VisitE : Expr → State → State) : List Expr → State → State
  | [], s => s
  | E :: rest, s => TraverseExprs VisitE rest (TraverseExpr VisitE E s)
end

/-- A null child is skipped. -/
def TraverseOptExpr (VisitE : Expr → State → State) : Option Expr → State → State
  | none, s => s
  | some E, s => TraverseExpr VisitE E s

/-- The variables of a declaration statement: each initializer is traversed. -/
def TraverseVarDecls (VisitE : Expr → State → State) : List VarDecl → State → State
  | [], s => s
  | D :: rest, s => TraverseVarDecls VisitE rest (TraverseOptExpr VisitE D.init s)

mutual
/-- Models `TraverseStmt` on a statement. -/
def TraverseStmt (VisitE : Expr → State → State) (VisitS : Stmt → State → State) :
    Stmt → State → State
  | Stmt.ExprStmt e, s => TraverseExpr VisitE e s
  | Stmt.NullStmt, s => VisitS Stmt.NullStmt s
  | Stmt.BreakStmt, s => VisitS Stmt.BreakStmt s
  | Stmt.ContinueStmt, s => VisitS Stmt.ContinueStmt s
  | Stmt.GotoStmt l, s => VisitS (Stmt.GotoStmt l) s
  | Stmt.IndirectGotoStmt target, s =>
    TraverseExpr VisitE target (VisitS (Stmt.IndirectGotoStmt target) s)
  | Stmt.CompoundStmt body, s =>
    TraverseStmts VisitE VisitS body (VisitS (Stmt.CompoundStmt body) s)
  | Stmt.DeclStmt decls, s =>
    TraverseVarDecls VisitE decls (VisitS (Stmt.DeclStmt decls) s)
  | Stmt.DoStmt body cond, s =>
    TraverseExpr VisitE cond
      (TraverseStmt VisitE VisitS body (VisitS (Stmt.DoStmt body cond) s))
  | Stmt.ForStmt init cond inc body, s =>
    TraverseStmt VisitE VisitS body
      (TraverseOptExpr VisitE inc
        (TraverseOptExpr VisitE cond
          (TraverseOptStmt VisitE VisitS init (VisitS (Stmt.ForStmt init cond inc body) s))))
  | Stmt.IfStmt cond thenB elseB, s =>
    TraverseOptStmt VisitE VisitS elseB
      (TraverseStmt VisitE VisitS thenB
        (TraverseExpr VisitE cond (VisitS (Stmt.IfStmt cond thenB elseB) s)))
  | Stmt.ReturnStmt loc retValue t, s =>
    TraverseOptExpr VisitE retValue (VisitS (Stmt.ReturnStmt loc retValue t) s)
  | Stmt.CaseStmt lhs sub, s =>
    TraverseStmt VisitE VisitS sub
      (TraverseExpr VisitE lhs (VisitS (Stmt.CaseStmt lhs sub) s))
  | Stmt.DefaultStmt sub, s =>
    TraverseStmt VisitE VisitS sub (VisitS (Stmt.DefaultStmt sub) s)
  | Stmt.SwitchStmt cond body, s =>
    TraverseStmt VisitE VisitS body
      (TraverseExpr VisitE cond (VisitS (Stmt.SwitchStmt cond body) s))
  | Stmt.WhileStmt cond body, s =>
    TraverseStmt VisitE VisitS body
      (TraverseExpr VisitE cond (VisitS (Stmt.WhileStmt cond body) s))
  | Stmt.LabelStmt n sub, s =>
    TraverseStmt VisitE VisitS sub (VisitS (Stmt.LabelStmt n sub) s)
/-- The statements of a block, in order. -/
def TraverseStmts (VisitE : Expr → State → State) (VisitS : Stmt → State → State) :
    List Stmt → State → State
  | [], s => s
  | S :: rest, s => TraverseStmts VisitE VisitS rest (TraverseStmt VisitE VisitS S s)
/-- A null child is skipped. -/
def TraverseOptStmt (VisitE : Expr → State → State) (VisitS : Stmt → State → State) :
    Option Stmt → State → State
  | none, s => s
  | some S, s => TraverseStmt VisitE VisitS S s
end

/-- Models `TraverseDecl` on a function declaration: its body, when it has one. -/
def TraverseDecl (VisitE : Expr → State → State) (VisitS : Stmt → State → State)
    (FD : FunctionDecl) (s : State) : State :=
  TraverseOptStmt VisitE VisitS FD.body s

/-! ## Collection visitor -/

/-- Models `SimpleInlinerCollectionVisitor::VisitCallExpr`. -/
def CollectionVisitor.VisitCallExpr (CE : CallExpr) (s : State) : State :=
  match CE.calleeDecl with
  | none => s
  | some _ =>
    { s with AllCallExprs := s.AllCallExprs ++ [CE],
             CalleeToCallerMap := (CE.ptr, s.CurrentFD) :: s.CalleeToCallerMap,
             NumStmts := s.NumStmts + 1 }

/-- The body shared by the other fourteen `Visit*` methods of the collection
visitor (`VisitBreakStmt`, `VisitCompoundStmt`, `VisitContinueStmt`,
`VisitDeclStmt`, `VisitDoStmt`, `VisitForStmt`, `VisitGotoStmt`, `VisitIfStmt`,
`VisitIndirectGotoStmt`, `VisitReturnStmt`, `VisitSwitchCase`, `VisitSwitchStmt`,
`VisitWhileStmt`, `VisitBinaryOperator`): `NumStmts++`. -/
def CollectionVisitor.VisitCounted (s : State) : State :=
  { s with NumStmts := s.NumStmts + 1 }

/-- The `Visit*` methods of the collection visitor that apply to an expression. -/
def CollectionVisitor.VisitExpr : Expr → State → State
  | Expr.CallExpr ptr calleeDecl type fn args, s =>
    CollectionVisitor.VisitCallExpr ⟨ptr, calleeDecl, type, fn, args⟩ s
  | Expr.BinaryOperator _ _, s => CollectionVisitor.VisitCounted s
  | _, s => s

/-- The `Visit*` methods of the collection visitor that apply to a statement. -/
def CollectionVisitor.VisitStmt : Stmt → State → State
  | Stmt.BreakStmt, s => CollectionVisitor.VisitCounted s
  | Stmt.CompoundStmt _, s => CollectionVisitor.VisitCounted s
  | Stmt.ContinueStmt, s => CollectionVisitor.VisitCounted s
  | Stmt.DeclStmt _, s => CollectionVisitor.VisitCounted s
  | Stmt.DoStmt _ _, s => CollectionVisitor.VisitCounted s
  | Stmt.ForStmt _ _ _ _, s => CollectionVisitor.VisitCounted s
  | Stmt.GotoStmt _, s => CollectionVisitor.VisitCounted s
  | Stmt.IfStmt _ _ _, s => CollectionVisitor.VisitCounted s
  | Stmt.IndirectGotoStmt _, s => CollectionVisitor.VisitCounted s
  | Stmt.ReturnStmt _ _ _, s => CollectionVisitor.VisitCounted s
  | Stmt.CaseStmt _ _, s => CollectionVisitor.VisitCounted s
  | Stmt.DefaultStmt _, s => CollectionVisitor.VisitCounted s
  | Stmt.SwitchStmt _ _, s => CollectionVisitor.VisitCounted s
  | Stmt.WhileStmt _ _, s => CollectionVisitor.VisitCounted s
  | _, s => s

/-- Models `CollectionVisitor->TraverseDecl(FD)`. -/
def CollectionVisitor.TraverseDecl (FD : FunctionDecl) (s : State) : State :=
  SimpleInliner.TraverseDecl CollectionVisitor.VisitExpr CollectionVisitor.VisitStmt FD s

/-! ## Eligibility (`HandleTopLevelDecl`) -/

/-- One iteration of the loop of `HandleTopLevelDecl`. -/
def HandleDecl (s : State) (D : Decl) : State :=
  match D.asFunctionDecl with
  | none => s
  | some FD =>
    if !FD.isThisDeclarationADefinition then s
    else
      let s1 := { s with CurrentFD := some FD }
      let s2 := { s1 with NumStmts := 0 }
      let s3 := CollectionVisitor.TraverseDecl FD s2
      if s3.NumStmts ≤ s3.MaxNumStmts && !FD.isVariadic then
        { s3 with ValidFunctionDecls := s3.ValidFunctionDecls.insert FD.getCanonicalDecl }
      else s3

/-- Models `SimpleInliner::HandleTopLevelDecl`. -/
def HandleTopLevelDecl (s : State) (D : List Decl) : State :=
  D.foldl HandleDecl s

/-- The parser hands every top-level declaration group to the consumer, in order. -/
def HandleAllTopLevelDecls (Ctx : ASTContext) (s : State) : State :=
  Ctx.TranslationUnit.foldl HandleTopLevelDecl s

/-! ## Instance selection (`doAnalysis`) -/

/-- The redeclaration walk of `doAnalysis`: a callee that is not a definition is
replaced by the first declaration of its chain that is one (by the first
declaration of the function when none is). -/
def resolveCallee (Ctx : ASTContext) (CalleeDecl : FunctionDecl) : FunctionDecl :=
  if !CalleeDecl.isThisDeclarationADefinition then
    let First := getFirstDeclaration Ctx CalleeDecl
    match (redecls Ctx First).find? (fun RI => RI.isThisDeclarationADefinition) with
    | some RI => RI
    | none => First
  else CalleeDecl

/-- Models `CalleeToCallerMap[CE]`: null when the map has no entry for the call. -/
def lookupCaller (s : State) (CE : CallExpr) : Option FunctionDecl :=
  (s.CalleeToCallerMap.lookup CE.ptr).getD none

/-- One iteration of the loop of `doAnalysis`. -/
def doAnalysisStep (Ctx : ASTContext) (s : State) (CI : CallExpr) : Except Abort State :=
  match getDirectCallee Ctx CI with
  | none => Except.error (Abort.TransAssert "Bad CalleeDecl!")
  | some CalleeDecl =>
    let CanonicalDecl := CalleeDecl.getCanonicalDecl
    if !s.ValidFunctionDecls.contains CanonicalDecl then Except.ok s
    else if !hasValidArgExprs CI then Except.ok s
    else
      let s1 := { s with ValidInstanceNum := s.ValidInstanceNum + 1 }
      if s1.TransformationCounter == s1.ValidInstanceNum then
        let Resolved := resolveCallee Ctx CalleeDecl
        if !Resolved.isThisDeclarationADefinition then
          Except.error (Abort.TransAssert "Bad CalleeDecl!")
        else
          let s2 := { s1 with CurrentFD := some Resolved, TheCaller := lookupCaller s1 CI }
          match s2.TheCaller with
          | none => Except.error (Abort.TransAssert "NULL TheCaller!")
          | some _ => Except.ok { s2 with TheCallExpr := some CI }
      else Except.ok s1

/-- The loop of `doAnalysis` over a range of call expressions. -/
def doAnalysisLoop (Ctx : ASTContext) : List CallExpr → State → Except Abort State
  | [], s => Except.ok s
  | CI :: rest, s =>
    match doAnalysisStep Ctx s CI with
    | Except.error e => Except.error e
    | Except.ok s1 => doAnalysisLoop Ctx rest s1

/-- Models `SimpleInliner::doAnalysis`. -/
def doAnalysis (Ctx : ASTContext) (s : State) : Except Abort State :=
  doAnalysisLoop Ctx s.AllCallExprs s

/-! ## Name allocation -/

/-- The value of a non-empty string of decimal digits. -/
def parseDecimal (cs : Text) : Option Nat :=
  if cs ≠ [] ∧ cs.all Char.isDigit = true then
    some (cs.foldl (fun acc c => 10 * acc + (c.toNat - 48)) 0)
  else none

/-- The numeric suffix of an identifier that starts with the reserved name. -/
def numericSuffix (Reserved : Text) (Name : Text) : Option Nat :=
  if Reserved.isPrefixOf Name then parseDecimal (Name.drop Reserved.length) else none

/-- Modelled from the spec: `TransNameQueryWrap::getMaxNamePostfix` after the
traversal of the unit (the class is declared outside `SimpleInliner.cpp`).  It
"scans every identifier name already visible in the translation unit that shares a
fixed reserved prefix, tracks the maximum trailing numeric suffix found". -/
def getMaxNamePostfix (Ctx : ASTContext) : Nat :=
  (Ctx.Identifiers.filterMap (numericSuffix Ctx.TmpVarNamePrefix)).foldl max 0

/-- Models `SimpleInliner::getNewTmpName`: the stream receives the reserved name and the
counter in decimal; the counter is then incremented. -/
def getNewTmpName (Ctx : ASTContext) (s : State) : Text × State :=
  (Ctx.TmpVarNamePrefix ++ Nat.toDigits 10 s.NamePostfix,
   { s with NamePostfix := s.NamePostfix + 1 })

/-! ## Body synthesis -/

/-- Models `QualType::getAsStringInternal` on the name held in `Str`: the type's spelling,
a space, the name. -/
def getAsStringInternal (T : QualType) (Str : Text) : Text :=
  T.spelling ++ ' ' :: Str

/-- Models `SimpleInliner::createReturnVar`. -/
def createReturnVar (Ctx : ASTContext) (s : State) : Except Abort State :=
  match s.CurrentFD, s.TheCallExpr with
  | some FD, some CE =>
    if FD.resultType.isVoidType && CE.type.isVoidType then Except.ok s
    else
      let r := getNewTmpName Ctx s
      let s1 := { r.2 with TmpVarName := r.1 }
      let VarStr := getAsStringInternal FD.resultType s1.TmpVarName ++ [';']
      Except.ok { s1 with Edits := s1.Edits ++ [Edit.addLocalVarToFunc VarStr s1.TheCaller] }
  | _, _ => Except.error Abort.NullPointer

/-- The loop of `generateParamStrings`, from parameter index `Idx` on. -/
def generateParamStringsLoop (Ctx : ASTContext) (CE : CallExpr) :
    List ParmVarDecl → Nat → List Text
  | [], _ => []
  | PD :: rest, Idx =>
    let ParmStr := getAsStringInternal PD.type PD.name
    let ParmStr1 :=
      if h : Idx < CE.args.length then
        ParmStr ++ [' ', '=', ' '] ++ Ctx.getExprString (CE.args[Idx])
      else ParmStr
    (ParmStr1 ++ [';', '\n']) :: generateParamStringsLoop Ctx CE rest (Idx + 1)

/-- Models `SimpleInliner::generateParamStrings`. -/
def generateParamStrings (Ctx : ASTContext) (s : State) : Except Abort State :=
  match s.TheCallExpr with
  | none => Except.error Abort.NullPointer
  | some CE =>
    match getDirectCallee Ctx CE with
    | none => Except.error Abort.NullPointer
    | some FD =>
      Except.ok { s with ParmStrings :=
        s.ParmStrings ++ generateParamStringsLoop Ctx CE FD.params 0 }

/-- The scan of `insertReturnStmt` over a non-empty vector: the pair goes before
the first element with a larger offset, at the end when there is none. -/
def insertBeforeLarger (RS : ReturnStmt) (Off : Int) :
    List (ReturnStmt × Int) → List (ReturnStmt × Int)
  | [] => [(RS, Off)]
  | I :: rest =>
    if Off < I.2 then (RS, Off) :: I :: rest else I :: insertBeforeLarger RS Off rest

/-- Models `SimpleInliner::insertReturnStmt`. -/
def insertReturnStmt (SortedReturnStmts : List (ReturnStmt × Int)) (RS : ReturnStmt)
    (Off : Int) : List (ReturnStmt × Int) :=
  if SortedReturnStmts.isEmpty then SortedReturnStmts ++ [(RS, Off)]
  else insertBeforeLarger RS Off SortedReturnStmts

/-- Models `SimpleInliner::sortReturnStmtsByOffs`, over a range of `ReturnStmts`.
`StartBuf` is the offset of the body's first character. -/
def sortReturnStmtsByOffs (StartBuf : Nat) :
    List ReturnStmt → List (ReturnStmt × Int) → Except Abort (List (ReturnStmt × Int))
  | [], Sorted => Except.ok Sorted
  | RS :: rest, Sorted =>
    let Off : Int := (RS.loc : Int) - (StartBuf : Int)
    if Off < 0 then Except.error (Abort.TransAssert "Bad Offset!")
    else sortReturnStmtsByOffs StartBuf rest (insertReturnStmt Sorted RS Off)

/-- Models `std::string::insert(pos, str)`. -/
def stringInsert (Str : Text) (Pos : Int) (S : Text) : Except Abort Text :=
  if Pos < 0 ∨ (Str.length : Int) < Pos then Except.error Abort.OutOfRange
  else Except.ok (Str.take Pos.toNat ++ S ++ Str.drop Pos.toNat)

/-- Models `std::string::replace(pos, len, str)`. -/
def stringReplace (Str : Text) (Pos : Int) (Len : Nat) (S : Text) : Except Abort Text :=
  if Pos < 0 ∨ (Str.length : Int) < Pos then Except.error Abort.OutOfRange
  else Except.ok (Str.take Pos.toNat ++ S ++ Str.drop (Pos.toNat + Len))

/-- The first loop of `copyFunctionBody`: the parameter strings are inserted one
after the other at `Delta`, which advances by the length of each. -/
def insertParmStrings : List Text → Text → Int → Except Abort (Text × Int)
  | [], FuncBodyStr, Delta => Except.ok (FuncBodyStr, Delta)
  | PStr :: rest, FuncBodyStr, Delta =>
    match stringInsert FuncBodyStr Delta PStr with
    | Except.error e => Except.error e
    | Except.ok Str1 => insertParmStrings rest Str1 (Delta + PStr.length)

/-- The second loop of `copyFunctionBody`: each `return` keyword (six characters at
its offset plus the running `Delta`) is replaced by `TmpVarStr` when the statement
has a value of non-void type, and erased otherwise. -/
def rewriteReturnStmts (TmpVarStr : Text) :
    List (ReturnStmt × Int) → Text → Int → Except Abort Text
  | [], FuncBodyStr, _ => Except.ok FuncBodyStr
  | I :: rest, FuncBodyStr, Delta =>
    let Off := I.2 + Delta
    if I.1.retValue.isSome && !I.1.valueType.isVoidType then
      match stringReplace FuncBodyStr Off 6 TmpVarStr with
      | Except.error e => Except.error e
      | Except.ok Str1 =>
        rewriteReturnStmts TmpVarStr rest Str1 (Delta + ((TmpVarStr.length : Int) - 6))
    else
      match stringReplace FuncBodyStr Off 6 [] with
      | Except.error e => Except.error e
      | Except.ok Str1 => rewriteReturnStmts TmpVarStr rest Str1 (Delta - 6)

/-- Models `SimpleInliner::copyFunctionBody`. -/
def copyFunctionBody (s : State) : Except Abort State :=
  match s.CurrentFD with
  | none => Except.error Abort.NullPointer
  | some FD =>
    match FD.body with
    | none => Except.error (Abort.TransAssert "NULL Body!")
    | some _ =>
      match FD.bodyText with
      | '{' :: BodyRest =>
        match sortReturnStmtsByOffs FD.bodyLoc s.ReturnStmts [] with
        | Except.error e => Except.error e
        | Except.ok SortedReturnStmts =>
          match insertParmStrings s.ParmStrings ('{' :: BodyRest) 1 with
          | Except.error e => Except.error e
          | Except.ok (Str1, Delta) =>
            let TmpVarStr := s.TmpVarName ++ [' ', '=', ' ']
            match rewriteReturnStmts TmpVarStr SortedReturnStmts Str1 (Delta - 1) with
            | Except.error e => Except.error e
            | Except.ok FuncBodyStr =>
              Except.ok { s with Edits :=
                s.Edits ++ [Edit.addStringBeforeStmt s.TheStmt FuncBodyStr s.NeedParen] }
      | _ => Except.error (Abort.TransAssert "FuncBodyStr does not start with an opening brace")

/-- Models `SimpleInliner::replaceCallExpr`. -/
def replaceCallExpr (Ctx : ASTContext) (s : State) : Except Abort State :=
  match createReturnVar Ctx s with
  | Except.error e => Except.error e
  | Except.ok s1 =>
    match generateParamStrings Ctx s1 with
    | Except.error e => Except.error e
    | Except.ok s2 =>
      match copyFunctionBody s2 with
      | Except.error e => Except.error e
      | Except.ok s3 =>
        Except.ok { s3 with Edits :=
          s3.Edits ++ [Edit.replaceExprNotInclude s3.TheCallExpr s3.TmpVarName] }

/-! ## Function visitor -/

/-- Models `SimpleInlinerFunctionVisitor::VisitReturnStmt`. -/
def FunctionVisitor.VisitReturnStmt (RS : ReturnStmt) (s : State) : State :=
  { s with ReturnStmts := s.ReturnStmts ++ [RS] }

/-- Models `SimpleInlinerFunctionVisitor::VisitDeclRefExpr`: a reference to a parameter is
recorded (by name). -/
def FunctionVisitor.VisitDeclRefExpr (name : Text) (isParmVar : Bool) (s : State) : State :=
  if isParmVar then { s with ParmRefs := s.ParmRefs ++ [name] } else s

/-- The `Visit*` methods of the function visitor that apply to an expression. -/
def FunctionVisitor.VisitExpr : Expr → State → State
  | Expr.DeclRefExpr name isParmVar, s => FunctionVisitor.VisitDeclRefExpr name isParmVar s
  | _, s => s

/-- The `Visit*` methods of the function visitor that apply to a statement. -/
def FunctionVisitor.VisitStmt : Stmt → State → State
  | Stmt.ReturnStmt loc retValue t, s => FunctionVisitor.VisitReturnStmt ⟨loc, retValue, t⟩ s
  | _, s => s

/-- Models `FunctionVisitor->TraverseDecl(CurrentFD)`. -/
def FunctionVisitor.TraverseDecl (FD : FunctionDecl) (s : State) : State :=
  SimpleInliner.TraverseDecl FunctionVisitor.VisitExpr FunctionVisitor.VisitStmt FD s

/-! ## Statement visitor

Its `Visit*` methods return false, which stops the traversal that called them, and
they traverse sub-statements themselves; so every traversal returns the state
together with the boolean result of `TraverseStmt`. -/

/-- Models `TRY_TO`: the traversal goes on only while the result is true. -/
def andThen (r : State × Bool) (f : State → State × Bool) : State × Bool :=
  if r.2 then f r.1 else r

/-- Models `SimpleInlinerStmtVisitor::VisitCallExpr`; the comparison is of node addresses. -/
def StmtVisitor.VisitCallExpr (CallE : CallExpr) (s : State) : State × Bool :=
  match s.TheCallExpr with
  | none => (s, true)
  | some The =>
    if The.ptr == CallE.ptr then
      ({ s with TheStmt := s.CurrentStmt, NeedParen := s.VisitorNeedParen }, false)
    else (s, true)

mutual
/-- Models `TraverseStmt` of the statement visitor on an expression. -/
def StmtVisitor.TraverseExpr : Expr → State → State × Bool
  | Expr.FloatingLiteral _, s => (s, true)
  | Expr.StringLiteral _, s => (s, true)
  | Expr.IntegerLiteral _, s => (s, true)
  | Expr.GNUNullExpr, s => (s, true)
  | Expr.CharacterLiteral _, s => (s, true)
  | Expr.ParenExpr sub, s => StmtVisitor.TraverseExpr sub s
  | Expr.ImplicitCastExpr sub, s => StmtVisitor.TraverseExpr sub s
  | Expr.CStyleCastExpr _ sub, s => StmtVisitor.TraverseExpr sub s
  | Expr.CXXStaticCastExpr _ sub, s => StmtVisitor.TraverseExpr sub s
  | Expr.MemberExpr base _, s => StmtVisitor.TraverseExpr base s
  | Expr.ArraySubscriptExpr base idx, s =>
    andThen (StmtVisitor.TraverseExpr base s) (StmtVisitor.TraverseExpr idx)
  | Expr.DeclRefExpr _ _, s => (s, true)
  | Expr.UnaryOperator sub, s => StmtVisitor.TraverseExpr sub s
  | Expr.BinaryOperator lhs rhs, s =>
    andThen (StmtVisitor.TraverseExpr lhs s) (StmtVisitor.TraverseExpr rhs)
  | Expr.ConditionalOperator cond lhs rhs, s =>
    andThen (andThen (StmtVisitor.TraverseExpr cond s) (StmtVisitor.TraverseExpr lhs))
      (StmtVisitor.TraverseExpr rhs)
  | Expr.CallExpr ptr calleeDecl type fn args, s =>
    andThen
      (andThen (StmtVisitor.VisitCallExpr ⟨ptr, calleeDecl, type, fn, args⟩ s)
        (StmtVisitor.TraverseExpr fn))
      (StmtVisitor.TraverseExprs args)
  | Expr.OtherExpr children, s => StmtVisitor.TraverseExprs children s
/-- The children of a node, left to right. -/
def StmtVisitor.TraverseExprs : List Expr → State → State × Bool
  | [], s => (s, true)
  | E :: rest, s => andThen (StmtVisitor.TraverseExpr E s) (StmtVisitor.TraverseExprs rest)
end

/-- A null child is skipped. -/
def StmtVisitor.TraverseOptExpr : Option Expr → State → State × Bool
  | none, s => (s, true)
  | some E, s => StmtVisitor.TraverseExpr E s

/-- The variables of a declaration statement: each initializer is traversed. -/
def StmtVisitor.TraverseVarDecls : List VarDecl → State → State × Bool
  | [], s => (s, true)
  | D :: rest, s =>
    andThen (StmtVisitor.TraverseOptExpr D.init s) (StmtVisitor.TraverseVarDecls rest)

/-- Models `SimpleInlinerStmtVisitor::visitNonCompoundStmt` on a non-null statement.
`Traverse` is `TraverseStmt(S)`; on a compound statement it runs
`VisitCompoundStmt(CS)` and nothing else, which is the call the source makes. -/
def StmtVisitor.visitNonCompoundStmt (S : Stmt) (Traverse : State → State × Bool)
    (s : State) : State :=
  match S with
  | Stmt.CompoundStmt _ => (Traverse s).1
  | _ =>
    let s1 := { s with CurrentStmt := some S }
    let s2 := { s1 with VisitorNeedParen := true }
    let s3 := (Traverse s2).1
    { s3 with VisitorNeedParen := false }

mutual
/-- Models `TraverseStmt` of the statement visitor on a statement.  The cases of
compound, if, for, while, do, case and default statements are the bodies of the
visitor's `Visit*` methods followed by their `return false`. -/
def StmtVisitor.TraverseStmt : Stmt → State → State × Bool
  | Stmt.ExprStmt e, s => StmtVisitor.TraverseExpr e s
  | Stmt.NullStmt, s => (s, true)
  | Stmt.BreakStmt, s => (s, true)
  | Stmt.ContinueStmt, s => (s, true)
  | Stmt.GotoStmt _, s => (s, true)
  | Stmt.IndirectGotoStmt target, s => StmtVisitor.TraverseExpr target s
  | Stmt.CompoundStmt body, s => (StmtVisitor.VisitCompoundStmt body s, false)
  | Stmt.DeclStmt decls, s => StmtVisitor.TraverseVarDecls decls s
  | Stmt.DoStmt body cond, s =>
    let s1 := (StmtVisitor.TraverseExpr cond s).1
    (StmtVisitor.visitNonCompoundStmt body (StmtVisitor.TraverseStmt body) s1, false)
  | Stmt.ForStmt init cond inc body, s =>
    let s1 := match init with
      | none => s
      | some Init => (StmtVisitor.TraverseStmt Init s).1
    let s2 := (StmtVisitor.TraverseOptExpr cond s1).1
    let s3 := (StmtVisitor.TraverseOptExpr inc s2).1
    (StmtVisitor.visitNonCompoundStmt body (StmtVisitor.TraverseStmt body) s3, false)
  | Stmt.IfStmt cond thenB elseB, s =>
    let s1 := (StmtVisitor.TraverseExpr cond s).1
    let s2 := StmtVisitor.visitNonCompoundStmt thenB (StmtVisitor.TraverseStmt thenB) s1
    let s3 := match elseB with
      | none => s2
      | some ElseB =>
        StmtVisitor.visitNonCompoundStmt ElseB (StmtVisitor.TraverseStmt ElseB) s2
    (s3, false)
  | Stmt.ReturnStmt _ retValue _, s => StmtVisitor.TraverseOptExpr retValue s
  | Stmt.CaseStmt _ sub, s =>
    (StmtVisitor.visitNonCompoundStmt sub (StmtVisitor.TraverseStmt sub) s, false)
  | Stmt.DefaultStmt sub, s =>
    (StmtVisitor.visitNonCompoundStmt sub (StmtVisitor.TraverseStmt sub) s, false)
  | Stmt.SwitchStmt cond body, s =>
    andThen (StmtVisitor.TraverseExpr cond s) (StmtVisitor.TraverseStmt body)
  | Stmt.WhileStmt cond body, s =>
    let s1 := (StmtVisitor.TraverseExpr cond s).1
    (StmtVisitor.visitNonCompoundStmt body (StmtVisitor.TraverseStmt body) s1, false)
  | Stmt.LabelStmt _ sub, s => StmtVisitor.TraverseStmt sub s
/-- Models `SimpleInlinerStmtVisitor::VisitCompoundStmt`, the loop over the block. -/
def StmtVisitor.VisitCompoundStmt : List Stmt → State → State
  | [], s => s
  | I :: rest, s =>
    StmtVisitor.VisitCompoundStmt rest
      (StmtVisitor.TraverseStmt I { s with CurrentStmt := some I }).1
end

/-- Models `StmtVisitor->TraverseDecl(TheCaller)`: the body of the caller; nothing for a
null declaration or a declaration without body. -/
def StmtVisitor.TraverseDecl (FD : Option FunctionDecl) (s : State) : State :=
  match FD with
  | none => s
  | some Caller =>
    match Caller.body with
    | none => s
    | some Body => (StmtVisitor.TraverseStmt Body s).1

/-! ## The pass -/

/-- Models `SimpleInliner::HandleTranslationUnit`. -/
def HandleTranslationUnit (Ctx : ASTContext) (s : State) : Except Abort State :=
  match doAnalysis Ctx s with
  | Except.error e => Except.error e
  | Except.ok s1 =>
    if s1.QueryInstanceOnly then Except.ok s1
    else if s1.TransformationCounter > s1.ValidInstanceNum then
      Except.ok { s1 with TransError := TransformationError.TransMaxInstanceError }
    else
      match s1.CurrentFD, s1.TheCallExpr with
      | none, _ => Except.error (Abort.TransAssert "NULL CurrentFD!")
      | some _, none => Except.error (Abort.TransAssert "NULL TheCallExpr!")
      | some FD, some _ =>
        let s2 := { s1 with NamePostfix := getMaxNamePostfix Ctx + 1 }
        let s3 := FunctionVisitor.TraverseDecl FD s2
        let s4 := StmtVisitor.TraverseDecl s3.TheCaller s3
        match s4.TheStmt with
        | none => Except.error (Abort.TransAssert "NULL TheStmt!")
        | some _ =>
          match replaceCallExpr Ctx s4 with
          | Except.error e => Except.error e
          | Except.ok s5 =>
            if Ctx.hasErrorOccurred then
              Except.ok { s5 with TransError := TransformationError.TransInternalError }
            else Except.ok s5

/-- The state of the consumer when the parser has handed over the whole unit. -/
def collected (Ctx : ASTContext) (Counter : Nat) (QueryOnly : Bool) (MaxNumStmts : Nat) :
    State :=
  HandleAllTopLevelDecls Ctx (State.initial Counter QueryOnly MaxNumStmts)

/-- The whole run of the pass on a unit: the consumer is constructed, receives
every top-level declaration group, then the translation unit. -/
def run (Ctx : ASTContext) (Counter : Nat) (QueryOnly : Bool) (MaxNumStmts : Nat) :
    Except Abort State :=
  HandleTranslationUnit Ctx (collected Ctx Counter QueryOnly MaxNumStmts)

/-! ## Notions of the specification

The definitions below are not taken from the source: they state, in the words of
the specification, what the functions above are compared with. -/

/-- The acceptance rule in the words of the specification, an explicit cast being
any cast written in the source (a C-style cast or a C++ named cast). -/
inductive ClaimedAccepted : Expr → Prop where
  | floating (t : Text) : ClaimedAccepted (Expr.FloatingLiteral t)
  | string (t : Text) : ClaimedAccepted (Expr.StringLiteral t)
  | integer (v : Nat) : ClaimedAccepted (Expr.IntegerLiteral v)
  | null : ClaimedAccepted Expr.GNUNullExpr
  | character (v : Nat) : ClaimedAccepted (Expr.CharacterLiteral v)
  | member (base : Expr) (m : Text) : ClaimedAccepted (Expr.MemberExpr base m)
  | variable (n : Text) (b : Bool) : ClaimedAccepted (Expr.DeclRefExpr n b)
  | subscript (base idx : Expr) : ClaimedAccepted idx →
      ClaimedAccepted (Expr.ArraySubscriptExpr base idx)
  | paren (sub : Expr) : ClaimedAccepted sub → ClaimedAccepted (Expr.ParenExpr sub)
  | implicitCast (sub : Expr) : ClaimedAccepted sub →
      ClaimedAccepted (Expr.ImplicitCastExpr sub)
  | cStyleCast (t : QualType) (sub : Expr) : ClaimedAccepted sub →
      ClaimedAccepted (Expr.CStyleCastExpr t sub)
  | namedCast (t : QualType) (sub : Expr) : ClaimedAccepted sub →
      ClaimedAccepted (Expr.CXXStaticCastExpr t sub)

/-- The acceptance rule with the explicit cast restricted to the C-style cast. -/
inductive Accepted : Expr → Prop where
  | floating (t : Text) : Accepted (Expr.FloatingLiteral t)
  | string (t : Text) : Accepted (Expr.StringLiteral t)
  | integer (v : Nat) : Accepted (Expr.IntegerLiteral v)
  | null : Accepted Expr.GNUNullExpr
  | character (v : Nat) : Accepted (Expr.CharacterLiteral v)
  | member (base : Expr) (m : Text) : Accepted (Expr.MemberExpr base m)
  | variable (n : Text) (b : Bool) : Accepted (Expr.DeclRefExpr n b)
  | subscript (base idx : Expr) : Accepted idx → Accepted (Expr.ArraySubscriptExpr base idx)
  | paren (sub : Expr) : Accepted sub → Accepted (Expr.ParenExpr sub)
  | implicitCast (sub : Expr) : Accepted sub → Accepted (Expr.ImplicitCastExpr sub)
  | cStyleCast (t : QualType) (sub : Expr) : Accepted sub →
      Accepted (Expr.CStyleCastExpr t sub)

mutual
/-- Whether an expression is or contains a call expression.  With `intoBases` the
search covers every sub-expression; without it the base of a member access and the
base of an array subscript are left out. -/
def hasCall (intoBases : Bool) : Expr → Bool
  | Expr.FloatingLiteral _ => false
  | Expr.StringLiteral _ => false
  | Expr.IntegerLiteral _ => false
  | Expr.GNUNullExpr => false
  | Expr.CharacterLiteral _ => false
  | Expr.ParenExpr sub => hasCall intoBases sub
  | Expr.ImplicitCastExpr sub => hasCall intoBases sub
  | Expr.CStyleCastExpr _ sub => hasCall intoBases sub
  | Expr.CXXStaticCastExpr _ sub => hasCall intoBases sub
  | Expr.MemberExpr base _ => intoBases && hasCall intoBases base
  | Expr.ArraySubscriptExpr base idx =>
    (intoBases && hasCall intoBases base) || hasCall intoBases idx
  | Expr.DeclRefExpr _ _ => false
  | Expr.UnaryOperator sub => hasCall intoBases sub
  | Expr.BinaryOperator lhs rhs => hasCall intoBases lhs || hasCall intoBases rhs
  | Expr.ConditionalOperator cond lhs rhs =>
    hasCall intoBases cond || hasCall intoBases lhs || hasCall intoBases rhs
  | Expr.CallExpr _ _ _ _ _ => true
  | Expr.OtherExpr children => hasCallAny intoBases children
/-- Whether one of the expressions is or contains a call expression. -/
def hasCallAny (intoBases : Bool) : List Expr → Bool
  | [] => false
  | E :: rest => hasCall intoBases E || hasCallAny intoBases rest
end

/-- An expression that is a call expression, directly or wrapped only in
parentheses and casts. -/
def wrapsCall : Expr → Bool
  | Expr.CallExpr _ _ _ _ _ => true
  | Expr.ParenExpr sub => wrapsCall sub
  | Expr.ImplicitCastExpr sub => wrapsCall sub
  | Expr.CStyleCastExpr _ sub => wrapsCall sub
  | Expr.CXXStaticCastExpr _ sub => wrapsCall sub
  | _ => false

mutual
/-- The number of nodes of an expression that the scoring rule lists: binary
operators and call expressions, every call expression when `everyCall` is set and
only the calls with a direct callee otherwise. -/
def countExpr (everyCall : Bool) : Expr → Nat
  | Expr.FloatingLiteral _ => 0
  | Expr.StringLiteral _ => 0
  | Expr.IntegerLiteral _ => 0
  | Expr.GNUNullExpr => 0
  | Expr.CharacterLiteral _ => 0
  | Expr.ParenExpr sub => countExpr everyCall sub
  | Expr.ImplicitCastExpr sub => countExpr everyCall sub
  | Expr.CStyleCastExpr _ sub => countExpr everyCall sub
  | Expr.CXXStaticCastExpr _ sub => countExpr everyCall sub
  | Expr.MemberExpr base _ => countExpr everyCall base
  | Expr.ArraySubscriptExpr base idx => countExpr everyCall base + countExpr everyCall idx
  | Expr.DeclRefExpr _ _ => 0
  | Expr.UnaryOperator sub => countExpr everyCall sub
  | Expr.BinaryOperator lhs rhs => 1 + countExpr everyCall lhs + countExpr everyCall rhs
  | Expr.ConditionalOperator cond lhs rhs =>
    countExpr everyCall cond + countExpr everyCall lhs + countExpr everyCall rhs
  | Expr.CallExpr _ calleeDecl _ fn args =>
    (if everyCall || calleeDecl.isSome then 1 else 0) + countExpr everyCall fn
      + countExprs everyCall args
  | Expr.OtherExpr children => countExprs everyCall children
/-- The listed nodes of a sequence of expressions. -/
def countExprs (everyCall : Bool) : List Expr → Nat
  | [] => 0
  | E :: rest => countExpr everyCall E + countExprs everyCall rest
end

/-- The listed nodes of an optional expression. -/
def countOptExpr (everyCall : Bool) : Option Expr → Nat
  | none => 0
  | some E => countExpr everyCall E

/-- The listed nodes of the initializers of declared variables. -/
def countVarDecls (everyCall : Bool) : List VarDecl → Nat
  | [] => 0
  | D :: rest => countOptExpr everyCall D.init + countVarDecls everyCall rest

mutual
/-- The number of nodes of a statement that the scoring rule lists, one per
occurrence: call expression, break, continue, goto, indirect goto, compound block,
declaration statement, do, for, if, return, case or default label, switch, while,
binary operator. -/
def countStmt (everyCall : Bool) : Stmt → Nat
  | Stmt.ExprStmt e => countExpr everyCall e
  | Stmt.NullStmt => 0
  | Stmt.BreakStmt => 1
  | Stmt.ContinueStmt => 1
  | Stmt.GotoStmt _ => 1
  | Stmt.IndirectGotoStmt target => 1 + countExpr everyCall target
  | Stmt.CompoundStmt body => 1 + countStmts everyCall body
  | Stmt.DeclStmt decls => 1 + countVarDecls everyCall decls
  | Stmt.DoStmt body cond => 1 + countStmt everyCall body + countExpr everyCall cond
  | Stmt.ForStmt init cond inc body =>
    1 + countOptStmt everyCall init + countOptExpr everyCall cond
      + countOptExpr everyCall inc + countStmt everyCall body
  | Stmt.IfStmt cond thenB elseB =>
    1 + countExpr everyCall cond + countStmt everyCall thenB + countOptStmt everyCall elseB
  | Stmt.ReturnStmt _ retValue _ => 1 + countOptExpr everyCall retValue
  | Stmt.CaseStmt lhs sub => 1 + countExpr everyCall lhs + countStmt everyCall sub
  | Stmt.DefaultStmt sub => 1 + countStmt everyCall sub
  | Stmt.SwitchStmt cond body => 1 + countExpr everyCall cond + countStmt everyCall body
  | Stmt.WhileStmt cond body => 1 + countExpr everyCall cond + countStmt everyCall body
  | Stmt.LabelStmt _ sub => countStmt everyCall sub
/-- The listed nodes of a block. -/
def countStmts (everyCall : Bool) : List Stmt → Nat
  | [] => 0
  | S :: rest => countStmt everyCall S + countStmts everyCall rest
/-- The listed nodes of an optional statement. -/
def countOptStmt (everyCall : Bool) : Option Stmt → Nat
  | none => 0
  | some S => countStmt everyCall S
end

/-- The complexity score of a function: what the collection visitor leaves in
`NumStmts` when it traverses the function after the reset `setNumStmts(0)`. -/
def complexityScore (FD : FunctionDecl) : Nat :=
  (CollectionVisitor.TraverseDecl FD (State.initial 0 false 0)).NumStmts

/-- A valid call site: the canonical declaration of its direct callee is in
`Valid`, and every argument passes `isValidArgExpr`. -/
def isValidInstance (Ctx : ASTContext) (Valid : List Nat) (CI : CallExpr) : Bool :=
  (match getDirectCallee Ctx CI with
    | none => false
    | some CalleeDecl => decide (CalleeDecl.getCanonicalDecl ∈ Valid))
  && CI.args.all isValidArgExpr

/-- The valid call sites of a state, in encounter order. -/
def validCallExprs (Ctx : ASTContext) (s : State) : List CallExpr :=
  s.AllCallExprs.filter (isValidInstance Ctx s.ValidFunctionDecls)

/-- The names returned by `n` successive calls of `getNewTmpName`. -/
def successiveTmpNames (Ctx : ASTContext) : Nat → State → List Text
  | 0, _ => []
  | n + 1, s => (getNewTmpName Ctx s).1 :: successiveTmpNames Ctx n (getNewTmpName Ctx s).2

/-! ## Two small units

`unitAdd` is `int add(int a,int b){return a+b;} int main(){int x=add(1,2)+3;}` and
`unitNested` is `int g(void){return 1;} int f(int a){return a;} int main(){f(g());}`,
with the offsets of their bodies and `return` keywords in the source buffer. -/

/-- The type `int`. -/
def Example.int : QualType := ⟨['i', 'n', 't'], false⟩

/-- The source text of a decimal literal; a placeholder for other expressions. -/
def Example.getExprString : Expr → Text
  | Expr.IntegerLiteral v => Nat.toDigits 10 v
  | _ => ['_']

/-- The definition of `add`. -/
def Example.add : FunctionDecl :=
  { ptr := 1, canonical := 1, isVariadic := false, resultType := Example.int,
    params := [⟨['a'], Example.int⟩, ⟨['b'], Example.int⟩],
    body := some (Stmt.CompoundStmt [Stmt.ReturnStmt 21
      (some (Expr.BinaryOperator (Expr.ImplicitCastExpr (Expr.DeclRefExpr ['a'] true))
        (Expr.ImplicitCastExpr (Expr.DeclRefExpr ['b'] true)))) Example.int]),
    bodyLoc := 20,
    bodyText := ['{', 'r', 'e', 't', 'u', 'r', 'n', ' ', 'a', '+', 'b', ';', '}'] }

/-- The call `add(1,2)`. -/
def Example.addCall : CallExpr :=
  { ptr := 100, calleeDecl := some 1, type := Example.int,
    fn := Expr.ImplicitCastExpr (Expr.DeclRefExpr ['a', 'd', 'd'] false),
    args := [Expr.IntegerLiteral 1, Expr.IntegerLiteral 2] }

/-- The statement `int x=add(1,2)+3;`. -/
def Example.addUse : Stmt :=
  Stmt.DeclStmt [⟨['x'], Example.int,
    some (Expr.BinaryOperator Example.addCall.toExpr (Expr.IntegerLiteral 3))⟩]

/-- The definition of `main` in `unitAdd`. -/
def Example.addMain : FunctionDecl :=
  { ptr := 2, canonical := 2, isVariadic := false, resultType := Example.int, params := [],
    body := some (Stmt.CompoundStmt [Example.addUse]),
    bodyLoc := 44,
    bodyText := ['{', 'i', 'n', 't', ' ', 'x', '=', 'a', 'd', 'd', '(', '1', ',', '2', ')',
      '+', '3', ';', '}'] }

/-- The unit `unitAdd`. -/
def Example.unitAdd : ASTContext :=
  { TranslationUnit := [[Decl.Function Example.add], [Decl.Function Example.addMain]],
    Identifiers := [['a', 'd', 'd'], ['a'], ['b'], ['m', 'a', 'i', 'n'], ['x']],
    TmpVarNamePrefix := ['_', '_', 't', 'r', 'a', 'n', 's', '_', 't', 'm', 'p', '_'],
    getExprString := Example.getExprString,
    hasErrorOccurred := false }

/-- The call `g()`. -/
def Example.innerCall : CallExpr :=
  { ptr := 200, calleeDecl := some 1, type := Example.int,
    fn := Expr.ImplicitCastExpr (Expr.DeclRefExpr ['g'] false), args := [] }

/-- The call `f(g())`. -/
def Example.outerCall : CallExpr :=
  { ptr := 201, calleeDecl := some 2, type := Example.int,
    fn := Expr.ImplicitCastExpr (Expr.DeclRefExpr ['f'] false),
    args := [Example.innerCall.toExpr] }

/-- The unit `unitNested`. -/
def Example.unitNested : ASTContext :=
  { TranslationUnit :=
      [[Decl.Function
          { ptr := 1, canonical := 1, isVariadic := false, resultType := Example.int,
            params := [],
            body := some (Stmt.CompoundStmt
              [Stmt.ReturnStmt 12 (some (Expr.IntegerLiteral 1)) Example.int]),
            bodyLoc := 11,
            bodyText := ['{', 'r', 'e', 't', 'u', 'r', 'n', ' ', '1', ';', '}'] }],
       [Decl.Function
          { ptr := 2, canonical := 2, isVariadic := false, resultType := Example.int,
            params := [⟨['a'], Example.int⟩],
            body := some (Stmt.CompoundStmt
              [Stmt.ReturnStmt 35
                (some (Expr.ImplicitCastExpr (Expr.DeclRefExpr ['a'] true))) Example.int]),
            bodyLoc := 34,
            bodyText := ['{', 'r', 'e', 't', 'u', 'r', 'n', ' ', 'a', ';', '}'] }],
       [Decl.Function
          { ptr := 3, canonical := 3, isVariadic := false, resultType := Example.int,
            params := [],
            body := some (Stmt.CompoundStmt [Stmt.ExprStmt Example.outerCall.toExpr]),
            bodyLoc := 56,
            bodyText := ['{', 'f', '(', 'g', '(', ')', ')', ';', '}'] }]],
    Identifiers := [['g'], ['f'], ['a'], ['m', 'a', 'i', 'n']],
    TmpVarNamePrefix := ['_', '_', 't', 'r', 'a', 'n', 's', '_', 't', 'm', 'p', '_'],
    getExprString := Example.getExprString,
    hasErrorOccurred := false }

/-- The unit `unitAdd` with two more identifiers, `__trans_tmp_4` and
`__trans_tmp_x`. -/
def Example.unitTmp : ASTContext :=
  { Example.unitAdd with
    Identifiers :=
      [['a', 'd', 'd'], ['_', '_', 't', 'r', 'a', 'n', 's', '_', 't', 'm', 'p', '_', '4'],
       ['m', 'a', 'i', 'n'], ['_', '_', 't', 'r', 'a', 'n', 's', '_', 't', 'm', 'p', '_', 'x']] }

/-! ## Invariants of the scan -/

/-- Every collected call has a direct callee and a recorded caller. -/
def CallsRecorded (s : State) : Prop :=
  ∀ CI ∈ s.AllCallExprs, CI.calleeDecl.isSome = true ∧ (lookupCaller s CI).isSome = true

/-- Every declaration in `ValidFunctionDecls` is the canonical declaration of a
definition of the unit. -/
def ValidDeclsDefined (Ctx : ASTContext) (s : State) : Prop :=
  ∀ c ∈ s.ValidFunctionDecls, ∃ FD ∈ Ctx.functionDecls,
    FD.getCanonicalDecl = c ∧ FD.isThisDeclarationADefinition = true



/-! ## Reference for the rewriting of the body text -/

/-- The text that takes the place of a `return` keyword: the assignment to the
temporary variable when the statement has a value of non-void type, nothing
otherwise. -/
def returnReplacement (TmpVarStr : Text) (RS : ReturnStmt) : Text :=
  if RS.retValue.isSome && !RS.valueType.isVoidType then TmpVarStr else []

/-- One edit of the reference: the six characters at the offset of the statement,
taken in the text it is applied to, are replaced. -/
def applyReturnEdit (TmpVarStr : Text) (Str : Text) (I : ReturnStmt × Nat) : Text :=
  Str.take I.2 ++ returnReplacement TmpVarStr I.1 ++ Str.drop (I.2 + 6)

/-- Reference of the specification for `copyFunctionBody`: the edits are applied
independently to the original text, from the highest offset to the lowest, all
offsets being those of the original text; the parameter strings, in order, go right
after the opening brace. -/
def referenceBody (TmpVarStr : Text) (ParmStrings : List Text) (Body : Text)
    (Returns : List (ReturnStmt × Nat)) : Text :=
  let HighToLow := Returns.insertionSort (fun a b => b.2 ≤ a.2)
  let Str1 := HighToLow.foldl (applyReturnEdit TmpVarStr) Body
  Str1.take 1 ++ ParmStrings.flatten ++ Str1.drop 1

/-- The original text from position `From` on, with the `return` keywords of the
statements (ascending offsets) replaced: the characters between two keywords are
copied. -/
def spliceReturns (TmpVarStr : Text) (Body : Text) : List (ReturnStmt × Nat) → Nat → Text
  | [], From => Body.drop From
  | I :: rest, From =>
    (Body.drop From).take (I.2 - From) ++ returnReplacement TmpVarStr I.1
      ++ spliceReturns TmpVarStr Body rest (I.2 + 6)

/-- The calls of `std::string::replace` that the second loop of `copyFunctionBody`
makes, one for each element of the sorted vector: the statement, the position and
the replacement text. -/
def returnEdits (TmpVarStr : Text) :
    List (ReturnStmt × Int) → Int → List (ReturnStmt × Int × Text)
  | [], _ => []
  | I :: rest, Delta =>
    (I.1, I.2 + Delta, returnReplacement TmpVarStr I.1)
      :: returnEdits TmpVarStr rest
          (Delta + (((returnReplacement TmpVarStr I.1).length : Int) - 6))

/-- The edits are applied one after the other, each replacing six characters. -/
def applyEdits : List (ReturnStmt × Int × Text) → Text → Except Abort Text
  | [], Str => Except.ok Str
  | E :: rest, Str =>
    match stringReplace Str E.2.1 6 E.2.2 with
    | Except.error e => Except.error e
    | Except.ok Str1 => applyEdits rest Str1

/-- The statements (ascending offsets) lie in the text of length `n` from position
`From` on, and no keyword overlaps the next. -/
def Spaced (n : Nat) : Nat → List (ReturnStmt × Nat) → Prop
  | _, [] => True
  | From, I :: rest => From ≤ I.2 ∧ I.2 + 6 ≤ n ∧ Spaced n (I.2 + 6) rest

mutual
/-- The return statements present in a statement, in the order of the source. -/
def returnStmtsOf : Stmt → List ReturnStmt
  | Stmt.ExprStmt _ => []
  | Stmt.NullStmt => []
  | Stmt.BreakStmt => []
  | Stmt.ContinueStmt => []
  | Stmt.GotoStmt _ => []
  | Stmt.IndirectGotoStmt _ => []
  | Stmt.CompoundStmt body => returnStmtsOfList body
  | Stmt.DeclStmt _ => []
  | Stmt.DoStmt body _ => returnStmtsOf body
  | Stmt.ForStmt init _ _ body => returnStmtsOfOpt init ++ returnStmtsOf body
  | Stmt.IfStmt _ thenB elseB => returnStmtsOf thenB ++ returnStmtsOfOpt elseB
  | Stmt.ReturnStmt loc retValue t => [⟨loc, retValue, t⟩]
  | Stmt.CaseStmt _ sub => returnStmtsOf sub
  | Stmt.DefaultStmt sub => returnStmtsOf sub
  | Stmt.SwitchStmt _ body => returnStmtsOf body
  | Stmt.WhileStmt _ body => returnStmtsOf body
  | Stmt.LabelStmt _ sub => returnStmtsOf sub
/-- The return statements of the statements of a block. -/
def returnStmtsOfList : List Stmt → List ReturnStmt
  | [] => []
  | S :: rest => returnStmtsOf S ++ returnStmtsOfList rest
/-- The return statements of an optional statement. -/
def returnStmtsOfOpt : Option Stmt → List ReturnStmt
  | none => []
  | some S => returnStmtsOf S
end

/-! ## Writes of the selection in `doAnalysis` -/

/-- The iteration of `doAnalysis` on `CI` in state `s` passes both `continue`
tests, increments `ValidInstanceNum` and finds `TransformationCounter` equal to
it: it enters the branch that writes `CurrentFD`, `TheCaller` and `TheCallExpr`. -/
def reachesSelection (Ctx : ASTContext) (s : State) (CI : CallExpr) : Bool :=
  match getDirectCallee Ctx CI with
  | none => false
  | some CalleeDecl =>
    s.ValidFunctionDecls.contains CalleeDecl.getCanonicalDecl && hasValidArgExprs CI
      && (s.TransformationCounter == s.ValidInstanceNum + 1)

/-- The number of iterations of the loop of `doAnalysis` that write the selection:
the loop is run with `doAnalysisStep` and the iterations that enter the branch are
counted, up to the end of the range or to the iteration that aborts. -/
def selectionWrites (Ctx : ASTContext) : List CallExpr → State → Nat
  | [], _ => 0
  | CI :: rest, s =>
    match doAnalysisStep Ctx s CI with
    | Except.error _ => 0
    | Except.ok s1 =>
      (if reachesSelection Ctx s CI then 1 else 0) + selectionWrites Ctx rest s1

/-! ## Position of a call in a caller body -/

mutual
/-- The number of call nodes at address `p` in an expression. -/
def countCallE (p : Nat) : Expr → Nat
  | Expr.FloatingLiteral _ => 0
  | Expr.StringLiteral _ => 0
  | Expr.IntegerLiteral _ => 0
  | Expr.GNUNullExpr => 0
  | Expr.CharacterLiteral _ => 0
  | Expr.ParenExpr sub => countCallE p sub
  | Expr.ImplicitCastExpr sub => countCallE p sub
  | Expr.CStyleCastExpr _ sub => countCallE p sub
  | Expr.CXXStaticCastExpr _ sub => countCallE p sub
  | Expr.MemberExpr base _ => countCallE p base
  | Expr.ArraySubscriptExpr base idx => countCallE p base + countCallE p idx
  | Expr.DeclRefExpr _ _ => 0
  | Expr.UnaryOperator sub => countCallE p sub
  | Expr.BinaryOperator lhs rhs => countCallE p lhs + countCallE p rhs
  | Expr.ConditionalOperator cond lhs rhs =>
    countCallE p cond + countCallE p lhs + countCallE p rhs
  | Expr.CallExpr ptr _ _ fn args =>
    (if ptr = p then 1 else 0) + countCallE p fn + countCallEs p args
  | Expr.OtherExpr children => countCallEs p children
/-- The number of call nodes at address `p` in a list of expressions. -/
def countCallEs (p : Nat) : List Expr → Nat
  | [] => 0
  | E :: rest => countCallE p E + countCallEs p rest
end

/-- The number of call nodes at address `p` in an optional expression. -/
def countCallOptE (p : Nat) : Option Expr → Nat
  | none => 0
  | some E => countCallE p E

/-- The number of call nodes at address `p` in the initializers of a declaration
statement. -/
def countCallDecls (p : Nat) : List VarDecl → Nat
  | [] => 0
  | D :: rest => countCallOptE p D.init + countCallDecls p rest

mutual
/-- The number of call nodes at address `p` in a statement, the labels of its case
statements included. -/
def countCallS (p : Nat) : Stmt → Nat
  | Stmt.ExprStmt e => countCallE p e
  | Stmt.NullStmt => 0
  | Stmt.BreakStmt => 0
  | Stmt.ContinueStmt => 0
  | Stmt.GotoStmt _ => 0
  | Stmt.IndirectGotoStmt target => countCallE p target
  | Stmt.CompoundStmt body => countCallSs p body
  | Stmt.DeclStmt decls => countCallDecls p decls
  | Stmt.DoStmt body cond => countCallE p cond + countCallS p body
  | Stmt.ForStmt init cond inc body =>
    countCallOptS p init + countCallOptE p cond + countCallOptE p inc + countCallS p body
  | Stmt.IfStmt cond thenB elseB =>
    countCallE p cond + countCallS p thenB + countCallOptS p elseB
  | Stmt.ReturnStmt _ retValue _ => countCallOptE p retValue
  | Stmt.CaseStmt lhs sub => countCallE p lhs + countCallS p sub
  | Stmt.DefaultStmt sub => countCallS p sub
  | Stmt.SwitchStmt cond body => countCallE p cond + countCallS p body
  | Stmt.WhileStmt cond body => countCallE p cond + countCallS p body
  | Stmt.LabelStmt _ sub => countCallS p sub
/-- The number of call nodes at address `p` in the statements of a block. -/
def countCallSs (p : Nat) : List Stmt → Nat
  | [] => 0
  | S :: rest => countCallS p S + countCallSs p rest
/-- The number of call nodes at address `p` in an optional statement. -/
def countCallOptS (p : Nat) : Option Stmt → Nat
  | none => 0
  | some S => countCallS p S
end

/-- A statement without sub-statements. -/
def isSimpleStmt : Stmt → Bool
  | Stmt.ExprStmt _ => true
  | Stmt.NullStmt => true
  | Stmt.DeclStmt _ => true
  | _ => false

/-- The call at address `p` lies in the statement outside every compound block,
every branch (then, else, loop body, sub-statement of a case or default) and every
case label of it: in the expression of an expression, return or indirect goto
statement, in an initializer of a declaration statement, in the condition of an if,
while, do or switch, in the init, condition or increment of a for, or so in the body
of a switch or in the sub-statement of a label. -/
def directStmt (p : Nat) : Stmt → Bool
  | Stmt.ExprStmt e => decide (0 < countCallE p e)
  | Stmt.IndirectGotoStmt target => decide (0 < countCallE p target)
  | Stmt.DeclStmt decls => decide (0 < countCallDecls p decls)
  | Stmt.ReturnStmt _ retValue _ => decide (0 < countCallOptE p retValue)
  | Stmt.IfStmt cond _ _ => decide (0 < countCallE p cond)
  | Stmt.WhileStmt cond _ => decide (0 < countCallE p cond)
  | Stmt.DoStmt _ cond => decide (0 < countCallE p cond)
  | Stmt.ForStmt none cond inc _ =>
    decide (0 < countCallOptE p cond + countCallOptE p inc)
  | Stmt.ForStmt (some Init) cond inc _ =>
    isSimpleStmt Init
      && decide (0 < countCallS p Init + countCallOptE p cond + countCallOptE p inc)
  | Stmt.SwitchStmt cond body => decide (0 < countCallE p cond) || directStmt p body
  | Stmt.LabelStmt _ sub => directStmt p sub
  | _ => false

mutual
/-- The number of call nodes at address `p` in the labels of the case statements
of a statement. -/
def countLabelS (p : Nat) : Stmt → Nat
  | Stmt.ExprStmt _ => 0
  | Stmt.NullStmt => 0
  | Stmt.BreakStmt => 0
  | Stmt.ContinueStmt => 0
  | Stmt.GotoStmt _ => 0
  | Stmt.IndirectGotoStmt _ => 0
  | Stmt.CompoundStmt body => countLabelSs p body
  | Stmt.DeclStmt _ => 0
  | Stmt.DoStmt body _ => countLabelS p body
  | Stmt.ForStmt init _ _ body => countLabelOptS p init + countLabelS p body
  | Stmt.IfStmt _ thenB elseB => countLabelS p thenB + countLabelOptS p elseB
  | Stmt.ReturnStmt _ _ _ => 0
  | Stmt.CaseStmt lhs sub => countCallE p lhs + countLabelS p sub
  | Stmt.DefaultStmt sub => countLabelS p sub
  | Stmt.SwitchStmt _ body => countLabelS p body
  | Stmt.WhileStmt _ body => countLabelS p body
  | Stmt.LabelStmt _ sub => countLabelS p sub
/-- The same count over the statements of a block. -/
def countLabelSs (p : Nat) : List Stmt → Nat
  | [] => 0
  | S :: rest => countLabelS p S + countLabelSs p rest
/-- The same count for an optional statement. -/
def countLabelOptS (p : Nat) : Option Stmt → Nat
  | none => 0
  | some S => countLabelS p S
end

mutual
/-- The init of every for statement of the statement is absent, an expression
statement, a null statement or a declaration statement, as the grammar of the
language has it. -/
def simpleInits : Stmt → Bool
  | Stmt.ExprStmt _ => true
  | Stmt.NullStmt => true
  | Stmt.BreakStmt => true
  | Stmt.ContinueStmt => true
  | Stmt.GotoStmt _ => true
  | Stmt.IndirectGotoStmt _ => true
  | Stmt.CompoundStmt body => simpleInitsList body
  | Stmt.DeclStmt _ => true
  | Stmt.DoStmt body _ => simpleInits body
  | Stmt.ForStmt none _ _ body => simpleInits body
  | Stmt.ForStmt (some Init) _ _ body => isSimpleStmt Init && simpleInits body
  | Stmt.IfStmt _ thenB none => simpleInits thenB
  | Stmt.IfStmt _ thenB (some ElseB) => simpleInits thenB && simpleInits ElseB
  | Stmt.ReturnStmt _ _ _ => true
  | Stmt.CaseStmt _ sub => simpleInits sub
  | Stmt.DefaultStmt sub => simpleInits sub
  | Stmt.SwitchStmt _ body => simpleInits body
  | Stmt.WhileStmt _ body => simpleInits body
  | Stmt.LabelStmt _ sub => simpleInits sub
/-- The same for the statements of a block. -/
def simpleInitsList : List Stmt → Bool
  | [] => true
  | S :: rest => simpleInits S && simpleInitsList rest
end

/-- A compound statement. -/
def isCompoundStmt : Stmt → Bool
  | Stmt.CompoundStmt _ => true
  | _ => false

/-- Smallest enclosing statement, in the words of the specification.
`Locates p S Cand b T b2`: the call at address `p` lies in `S`, outside the case
labels; `Cand` is the innermost statement around `S` (or `S` itself) that is an
immediate child of a compound block or a branch of an if, for, while, do, case or
default, and `b` tells that it is a non-compound branch; `T` is the innermost such
statement around the call, and `b2` tells that it is a non-compound branch. -/
inductive Locates (p : Nat) : Stmt → Stmt → Bool → Stmt → Bool → Prop where
  | direct (S Cand : Stmt) (b : Bool) :
    directStmt p S = true → Locates p S Cand b Cand b
  | child (body : List Stmt) (I Cand : Stmt) (b : Bool) (T : Stmt) (b2 : Bool) :
    I ∈ body → Locates p I I false T b2 → Locates p (Stmt.CompoundStmt body) Cand b T b2
  | thenBranch (cond : Expr) (thenB : Stmt) (elseB : Option Stmt) (Cand : Stmt) (b : Bool)
      (T : Stmt) (b2 : Bool) :
    Locates p thenB thenB true T b2 → Locates p (Stmt.IfStmt cond thenB elseB) Cand b T b2
  | elseBranch (cond : Expr) (thenB ElseB : Stmt) (Cand : Stmt) (b : Bool)
      (T : Stmt) (b2 : Bool) :
    Locates p ElseB ElseB true T b2 →
      Locates p (Stmt.IfStmt cond thenB (some ElseB)) Cand b T b2
  | forBody (init : Option Stmt) (cond inc : Option Expr) (body Cand : Stmt) (b : Bool)
      (T : Stmt) (b2 : Bool) :
    Locates p body body true T b2 → Locates p (Stmt.ForStmt init cond inc body) Cand b T b2
  | whileBody (cond : Expr) (body Cand : Stmt) (b : Bool) (T : Stmt) (b2 : Bool) :
    Locates p body body true T b2 → Locates p (Stmt.WhileStmt cond body) Cand b T b2
  | doBody (body : Stmt) (cond : Expr) (Cand : Stmt) (b : Bool) (T : Stmt) (b2 : Bool) :
    Locates p body body true T b2 → Locates p (Stmt.DoStmt body cond) Cand b T b2
  | caseSub (lhs : Expr) (sub Cand : Stmt) (b : Bool) (T : Stmt) (b2 : Bool) :
    Locates p sub sub true T b2 → Locates p (Stmt.CaseStmt lhs sub) Cand b T b2
  | defaultSub (sub Cand : Stmt) (b : Bool) (T : Stmt) (b2 : Bool) :
    Locates p sub sub true T b2 → Locates p (Stmt.DefaultStmt sub) Cand b T b2
  | switchBody (cond : Expr) (body Cand : Stmt) (b : Bool) (T : Stmt) (b2 : Bool) :
    Locates p body Cand b T b2 → Locates p (Stmt.SwitchStmt cond body) Cand b T b2
  | labelSub (name : Text) (sub Cand : Stmt) (b : Bool) (T : Stmt) (b2 : Bool) :
    Locates p sub Cand b T b2 → Locates p (Stmt.LabelStmt name sub) Cand b T b2

/-- The call selected by `doAnalysis` is the node at address `p`. -/
def Selected (p : Nat) (s : State) : Prop :=
  ∃ The, s.TheCallExpr = some The ∧ The.ptr = p

/-- The state when `VisitCallExpr` has recorded the current statement and flag. -/
def recorded (s : State) : State :=
  { s with TheStmt := s.CurrentStmt, NeedParen := s.VisitorNeedParen }

/-- The statement `T` is recorded, with flag true when `b` is true. -/
def Found (T : Stmt) (b : Bool) (t : State) : Prop :=
  t.TheStmt = some T ∧ (b = true → t.NeedParen = true)

/-- Only the visitor's own members (`CurrentStmt`, `NeedParen`) differ. -/
def VisitorFrame (s t : State) : Prop :=
  ∃ (C : Option Stmt) (b : Bool), t = { s with CurrentStmt := C, VisitorNeedParen := b }

/-! ## A callee with two return statements

`pick` is `int pick(int a,int b){if(a)return a;return b;}`: its body starts at
offset 21 of the buffer, its `return` keywords are at offsets 27 and 36. -/

/-- The definition of `pick`. -/
def Example.pick : FunctionDecl :=
  { ptr := 1, canonical := 1, isVariadic := false, resultType := Example.int,
    params := [⟨['a'], Example.int⟩, ⟨['b'], Example.int⟩],
    body := some (Stmt.CompoundStmt
      [Stmt.IfStmt (Expr.ImplicitCastExpr (Expr.DeclRefExpr ['a'] true))
        (Stmt.ReturnStmt 27 (some (Expr.ImplicitCastExpr (Expr.DeclRefExpr ['a'] true)))
          Example.int) none,
       Stmt.ReturnStmt 36 (some (Expr.ImplicitCastExpr (Expr.DeclRefExpr ['b'] true)))
          Example.int]),
    bodyLoc := 21,
    bodyText := ['{', 'i', 'f', '(', 'a', ')', 'r', 'e', 't', 'u', 'r', 'n', ' ', 'a', ';',
      'r', 'e', 't', 'u', 'r', 'n', ' ', 'b', ';', '}'] }

/-- The consumer when `pick` is the callee of the selected call `pick(1,2)`, before
the function visitor runs: the temporary variable is `t` and the parameter strings
are those of the call. -/
def Example.pickSelected : State :=
  { State.initial 1 false 10 with
    CurrentFD := some Example.pick,
    TmpVarName := ['t'],
    ParmStrings := [['i', 'n', 't', ' ', 'a', ' ', '=', ' ', '1', ';', '\n'],
      ['i', 'n', 't', ' ', 'b', ' ', '=', ' ', '2', ';', '\n']] }

/-- The consumer in `unitAdd` when the call `add(1,2)` is selected and the function
visitor has collected the return statement of `add`. -/
def Example.addSelected : State :=
  { State.initial 1 false 10 with
    CurrentFD := some Example.add,
    TheCaller := some Example.addMain,
    TheCallExpr := some Example.addCall,
    TheStmt := some Example.addUse,
    TmpVarName := ['t'],
    ReturnStmts := [⟨21, some (Expr.BinaryOperator
      (Expr.ImplicitCastExpr (Expr.DeclRefExpr ['a'] true))
      (Expr.ImplicitCastExpr (Expr.DeclRefExpr ['b'] true))), Example.int⟩] }

/-! ## A unit with a prototype

`unitProto` is
`int foo(int m);int main(void){return foo(1);}int foo(int n){return n;}`: the call
in `main` refers to the prototype, whose parameter is named `m`; the definition
comes later and names its parameter `n`. -/

/-- The prototype `int foo(int m);`, the first declaration of `foo`. -/
def Example.fooProto : FunctionDecl :=
  { ptr := 1, canonical := 1, isVariadic := false, resultType := Example.int,
    params := [⟨['m'], Example.int⟩], body := none, bodyLoc := 0, bodyText := [] }

/-- The call `foo(1)` in `main`. -/
def Example.fooCall : CallExpr :=
  { ptr := 300, calleeDecl := some 1, type := Example.int,
    fn := Expr.ImplicitCastExpr (Expr.DeclRefExpr ['f', 'o', 'o'] false),
    args := [Expr.IntegerLiteral 1] }

/-- The statement `return foo(1);`. -/
def Example.fooUse : Stmt :=
  Stmt.ReturnStmt 30 (some Example.fooCall.toExpr) Example.int

/-- The definition of `main` in `unitProto`. -/
def Example.protoMain : FunctionDecl :=
  { ptr := 2, canonical := 2, isVariadic := false, resultType := Example.int, params := [],
    body := some (Stmt.CompoundStmt [Example.fooUse]),
    bodyLoc := 29,
    bodyText := ['{', 'r', 'e', 't', 'u', 'r', 'n', ' ', 'f', 'o', 'o', '(', '1', ')', ';',
      '}'] }

/-- The definition `int foo(int n){return n;}`. -/
def Example.fooDef : FunctionDecl :=
  { ptr := 3, canonical := 1, isVariadic := false, resultType := Example.int,
    params := [⟨['n'], Example.int⟩],
    body := some (Stmt.CompoundStmt
      [Stmt.ReturnStmt 60 (some (Expr.ImplicitCastExpr (Expr.DeclRefExpr ['n'] true)))
        Example.int]),
    bodyLoc := 59,
    bodyText := ['{', 'r', 'e', 't', 'u', 'r', 'n', ' ', 'n', ';', '}'] }

/-- The unit `unitProto`. -/
def Example.unitProto : ASTContext :=
  { TranslationUnit := [[Decl.Function Example.fooProto], [Decl.Function Example.protoMain],
      [Decl.Function Example.fooDef]],
    Identifiers := [['f', 'o', 'o'], ['m'], ['m', 'a', 'i', 'n'], ['n']],
    TmpVarNamePrefix := ['_', '_', 't', 'r', 'a', 'n', 's', '_', 't', 'm', 'p', '_'],
    getExprString := Example.getExprString,
    hasErrorOccurred := false }

/-! ## Callers for the statement locator

`unitCaller Body Text` is `int f(int a){return a;}` followed by
`void m(int c,int x)` with the given block as body; `f(x)` is the only call of the
units below.

* `bodyLoop` is `{if(c)while(x){f(x);}}`;
* `bodyCase` is `{switch(x){case sizeof(f(x)):x=0;}}`;
* `bodyCases` is `{switch(x){case 1:case sizeof(f(x)):x=0;}}`;
* `bodyIf` is `{if(c)f(x);}`. -/

/-- The type `void`. -/
def Example.void : QualType := ⟨['v', 'o', 'i', 'd'], true⟩

/-- The definition `int f(int a){return a;}`. -/
def Example.f : FunctionDecl :=
  { ptr := 1, canonical := 1, isVariadic := false, resultType := Example.int,
    params := [⟨['a'], Example.int⟩],
    body := some (Stmt.CompoundStmt
      [Stmt.ReturnStmt 13 (some (Expr.ImplicitCastExpr (Expr.DeclRefExpr ['a'] true)))
        Example.int]),
    bodyLoc := 12,
    bodyText := ['{', 'r', 'e', 't', 'u', 'r', 'n', ' ', 'a', ';', '}'] }

/-- The call `f(x)`. -/
def Example.fCall : CallExpr :=
  { ptr := 400, calleeDecl := some 1, type := Example.int,
    fn := Expr.ImplicitCastExpr (Expr.DeclRefExpr ['f'] false),
    args := [Expr.ImplicitCastExpr (Expr.DeclRefExpr ['x'] true)] }

/-- The definition of `m` with the given block as body. -/
def Example.caller (Body : List Stmt) (BodyText : Text) : FunctionDecl :=
  { ptr := 2, canonical := 2, isVariadic := false, resultType := Example.void,
    params := [⟨['c'], Example.int⟩, ⟨['x'], Example.int⟩],
    body := some (Stmt.CompoundStmt Body), bodyLoc := 42, bodyText := BodyText }

/-- The unit made of `f` and of `m` with the given body. -/
def Example.unitCaller (Body : List Stmt) (BodyText : Text) : ASTContext :=
  { TranslationUnit := [[Decl.Function Example.f],
      [Decl.Function (Example.caller Body BodyText)]],
    Identifiers := [['f'], ['a'], ['m'], ['c'], ['x']],
    TmpVarNamePrefix := ['_', '_', 't', 'r', 'a', 'n', 's', '_', 't', 'm', 'p', '_'],
    getExprString := fun _ => ['x'],
    hasErrorOccurred := false }

/-- The statement `f(x);`. -/
def Example.fStmt : Stmt := Stmt.ExprStmt Example.fCall.toExpr

/-- The statement `x=0;`. -/
def Example.assignStmt : Stmt :=
  Stmt.ExprStmt (Expr.BinaryOperator (Expr.DeclRefExpr ['x'] true) (Expr.IntegerLiteral 0))

/-- The statement `case sizeof(f(x)):x=0;`. -/
def Example.caseStmt : Stmt :=
  Stmt.CaseStmt (Expr.OtherExpr [Example.fCall.toExpr]) Example.assignStmt

/-- The block `{if(c)while(x){f(x);}}`. -/
def Example.bodyLoop : List Stmt :=
  [Stmt.IfStmt (Expr.ImplicitCastExpr (Expr.DeclRefExpr ['c'] true))
    (Stmt.WhileStmt (Expr.ImplicitCastExpr (Expr.DeclRefExpr ['x'] true))
      (Stmt.CompoundStmt [Example.fStmt])) none]

/-- The text of `bodyLoop`. -/
def Example.textLoop : Text :=
  ['{', 'i', 'f', '(', 'c', ')', 'w', 'h', 'i', 'l', 'e', '(', 'x', ')', '{', 'f', '(', 'x',
    ')', ';', '}', '}']

/-- The block `{switch(x){case sizeof(f(x)):x=0;}}`. -/
def Example.bodyCase : List Stmt :=
  [Stmt.SwitchStmt (Expr.ImplicitCastExpr (Expr.DeclRefExpr ['x'] true))
    (Stmt.CompoundStmt [Example.caseStmt])]

/-- The text of `bodyCase`. -/
def Example.textCase : Text :=
  ['{', 's', 'w', 'i', 't', 'c', 'h', '(', 'x', ')', '{', 'c', 'a', 's', 'e', ' ', 's', 'i',
    'z', 'e', 'o', 'f', '(', 'f', '(', 'x', ')', ')', ':', 'x', '=', '0', ';', '}', '}']

/-- The block `{switch(x){case 1:case sizeof(f(x)):x=0;}}`. -/
def Example.bodyCases : List Stmt :=
  [Stmt.SwitchStmt (Expr.ImplicitCastExpr (Expr.DeclRefExpr ['x'] true))
    (Stmt.CompoundStmt [Stmt.CaseStmt (Expr.IntegerLiteral 1) Example.caseStmt])]

/-- The text of `bodyCases`. -/
def Example.textCases : Text :=
  ['{', 's', 'w', 'i', 't', 'c', 'h', '(', 'x', ')', '{', 'c', 'a', 's', 'e', ' ', '1', ':',
    'c', 'a', 's', 'e', ' ', 's', 'i', 'z', 'e', 'o', 'f', '(', 'f', '(', 'x', ')', ')', ':',
    'x', '=', '0', ';', '}', '}']

/-- The block `{if(c)f(x);}`. -/
def Example.bodyIf : List Stmt :=
  [Stmt.IfStmt (Expr.ImplicitCastExpr (Expr.DeclRefExpr ['c'] true)) Example.fStmt none]

/-- The text of `bodyIf`. -/
def Example.textIf : Text :=
  ['{', 'i', 'f', '(', 'c', ')', 'f', '(', 'x', ')', ';', '}']


/-! # Properties -/

/-! ## Argument check -/

theorem accepted_of_isValidArgExpr : ∀ E : Expr, isValidArgExpr E = true → Accepted E
  | Expr.FloatingLiteral t, _ => Accepted.floating t
  | Expr.StringLiteral t, _ => Accepted.string t
  | Expr.IntegerLiteral v, _ => Accepted.integer v
  | Expr.GNUNullExpr, _ => Accepted.null
  | Expr.CharacterLiteral v, _ => Accepted.character v
  | Expr.ParenExpr sub, h =>
    Accepted.paren sub (accepted_of_isValidArgExpr sub (by simpa [isValidArgExpr] using h))
  | Expr.ImplicitCastExpr sub, h =>
    Accepted.implicitCast sub
      (accepted_of_isValidArgExpr sub (by simpa [isValidArgExpr] using h))
  | Expr.CStyleCastExpr t sub, h =>
    Accepted.cStyleCast t sub
      (accepted_of_isValidArgExpr sub (by simpa [isValidArgExpr] using h))
  | Expr.CXXStaticCastExpr _ _, h => by simp [isValidArgExpr] at h
  | Expr.MemberExpr base m, _ => Accepted.member base m
  | Expr.ArraySubscriptExpr base idx, h =>
    Accepted.subscript base idx
      (accepted_of_isValidArgExpr idx (by simpa [isValidArgExpr] using h))
  | Expr.DeclRefExpr n b, _ => Accepted.variable n b
  | Expr.UnaryOperator _, h => by simp [isValidArgExpr] at h
  | Expr.BinaryOperator _ _, h => by simp [isValidArgExpr] at h
  | Expr.ConditionalOperator _ _ _, h => by simp [isValidArgExpr] at h
  | Expr.CallExpr _ _ _ _ _, h => by simp [isValidArgExpr] at h
  | Expr.OtherExpr _, h => by simp [isValidArgExpr] at h

theorem isValidArgExpr_of_accepted {E : Expr} (h : Accepted E) :
    isValidArgExpr E = true := by
  induction h <;> simp_all [isValidArgExpr]

theorem hasValidArgs_eq_all (args : List Expr) :
    hasValidArgs args = args.all isValidArgExpr := by
  induction args with
  | nil => simp [hasValidArgs]
  | cons I rest ih => cases hI : isValidArgExpr I <;> simp [hasValidArgs, hI, ih]

theorem hasCall_false_of_accepted {E : Expr} (h : Accepted E) : hasCall false E = false := by
  induction h <;> simp_all [hasCall]

theorem isValidArgExpr_false_of_wrapsCall :
    ∀ E : Expr, wrapsCall E = true → isValidArgExpr E = false
  | Expr.FloatingLiteral _, h => by simp [wrapsCall] at h
  | Expr.StringLiteral _, h => by simp [wrapsCall] at h
  | Expr.IntegerLiteral _, h => by simp [wrapsCall] at h
  | Expr.GNUNullExpr, h => by simp [wrapsCall] at h
  | Expr.CharacterLiteral _, h => by simp [wrapsCall] at h
  | Expr.ParenExpr sub, h => by
    simpa [isValidArgExpr] using
      isValidArgExpr_false_of_wrapsCall sub (by simpa [wrapsCall] using h)
  | Expr.ImplicitCastExpr sub, h => by
    simpa [isValidArgExpr] using
      isValidArgExpr_false_of_wrapsCall sub (by simpa [wrapsCall] using h)
  | Expr.CStyleCastExpr _ sub, h => by
    simpa [isValidArgExpr] using
      isValidArgExpr_false_of_wrapsCall sub (by simpa [wrapsCall] using h)
  | Expr.CXXStaticCastExpr _ _, _ => by simp [isValidArgExpr]
  | Expr.MemberExpr _ _, h => by simp [wrapsCall] at h
  | Expr.ArraySubscriptExpr _ _, h => by simp [wrapsCall] at h
  | Expr.DeclRefExpr _ _, h => by simp [wrapsCall] at h
  | Expr.UnaryOperator _, _ => by simp [isValidArgExpr]
  | Expr.BinaryOperator _ _, _ => by simp [isValidArgExpr]
  | Expr.ConditionalOperator _ _ _, _ => by simp [isValidArgExpr]
  | Expr.CallExpr _ _ _ _ _, _ => by simp [isValidArgExpr]
  | Expr.OtherExpr _, _ => by simp [isValidArgExpr]

/-- C4, as stated, fails: with `x` a variable, the argument `static_cast<int>(x)` is an
explicitly cast expression whose operand is accepted, and `isValidArgExpr` rejects
it. -/
theorem C4_static_cast_rejected :
    ClaimedAccepted
        (Expr.CXXStaticCastExpr ⟨['i', 'n', 't'], false⟩ (Expr.DeclRefExpr ['x'] false)) ∧
      isValidArgExpr
        (Expr.CXXStaticCastExpr ⟨['i', 'n', 't'], false⟩ (Expr.DeclRefExpr ['x'] false))
        = false :=
  ⟨ClaimedAccepted.namedCast _ _ (ClaimedAccepted.variable _ _), rfl⟩

/-- C4, amended: `isValidArgExpr` accepts exactly the literals (integer, floating,
character, string, GNU null), member accesses, bare declaration references, array
subscripts whose index is accepted, and parenthesised, implicitly cast or C-style
cast expressions whose operand is accepted; every other expression kind, a C++
named cast included, is rejected.  `hasValidArgExprs` holds exactly when every
argument of the call is accepted. -/
theorem C4_isValidArgExpr_accepts_exactly (E : Expr) (CE : CallExpr) :
    (isValidArgExpr E = true ↔ Accepted E) ∧
      (hasValidArgExprs CE = true ↔ ∀ Arg ∈ CE.args, isValidArgExpr Arg = true) := by
  refine ⟨⟨accepted_of_isValidArgExpr E, isValidArgExpr_of_accepted⟩, ?_⟩
  simp [hasValidArgExprs, hasValidArgs_eq_all]

/-- C5, as stated, fails: the argument `f().x` is accepted by `isValidArgExpr` and
contains the call `f()` in the base of the member access. -/
theorem C5_member_of_call_accepted :
    isValidArgExpr
        (Expr.MemberExpr (Expr.CallExpr 7 (some 3) ⟨['S'], false⟩ (Expr.DeclRefExpr ['f'] false) [])
          ['x']) = true ∧
      hasCall true
        (Expr.MemberExpr (Expr.CallExpr 7 (some 3) ⟨['S'], false⟩ (Expr.DeclRefExpr ['f'] false) [])
          ['x']) = true :=
  ⟨rfl, rfl⟩

/-- C5, amended: an argument accepted by `isValidArgExpr` contains no call
expression outside the base of a member access and the base of an array subscript
(these two positions are not examined); equivalently, an argument with a call
expression outside these positions fails the check. -/
theorem C5_accepted_has_no_call_outside_bases (E : Expr) :
    (isValidArgExpr E = true → hasCall false E = false) ∧
      (hasCall false E = true → isValidArgExpr E = false) := by
  have h1 : isValidArgExpr E = true → hasCall false E = false :=
    fun h => hasCall_false_of_accepted (accepted_of_isValidArgExpr E h)
  refine ⟨h1, fun h => ?_⟩
  cases hv : isValidArgExpr E
  · rfl
  · rw [h1 hv] at h; cases h


/-! ## Traversal -/

mutual
theorem TraverseExpr_rel (R : State → State → Prop) (VisitE : Expr → State → State)
    (hE : ∀ E s t, R s t → R (VisitE E s) (VisitE E t)) :
    ∀ (E : Expr) (s t : State), R s t → R (TraverseExpr VisitE E s) (TraverseExpr VisitE E t)
  | Expr.FloatingLiteral _, s, t, h => by simpa [TraverseExpr] using hE _ s t h
  | Expr.StringLiteral _, s, t, h => by simpa [TraverseExpr] using hE _ s t h
  | Expr.IntegerLiteral _, s, t, h => by simpa [TraverseExpr] using hE _ s t h
  | Expr.GNUNullExpr, s, t, h => by simpa [TraverseExpr] using hE _ s t h
  | Expr.CharacterLiteral _, s, t, h => by simpa [TraverseExpr] using hE _ s t h
  | Expr.ParenExpr sub, s, t, h => by
    simpa [TraverseExpr] using TraverseExpr_rel R VisitE hE sub _ _ (hE _ s t h)
  | Expr.ImplicitCastExpr sub, s, t, h => by
    simpa [TraverseExpr] using TraverseExpr_rel R VisitE hE sub _ _ (hE _ s t h)
  | Expr.CStyleCastExpr _ sub, s, t, h => by
    simpa [TraverseExpr] using TraverseExpr_rel R VisitE hE sub _ _ (hE _ s t h)
  | Expr.CXXStaticCastExpr _ sub, s, t, h => by
    simpa [TraverseExpr] using TraverseExpr_rel R VisitE hE sub _ _ (hE _ s t h)
  | Expr.MemberExpr base _, s, t, h => by
    simpa [TraverseExpr] using TraverseExpr_rel R VisitE hE base _ _ (hE _ s t h)
  | Expr.ArraySubscriptExpr base idx, s, t, h => by
    simpa [TraverseExpr] using
      TraverseExpr_rel R VisitE hE idx _ _
        (TraverseExpr_rel R VisitE hE base _ _ (hE _ s t h))
  | Expr.DeclRefExpr _ _, s, t, h => by simpa [TraverseExpr] using hE _ s t h
  | Expr.UnaryOperator sub, s, t, h => by
    simpa [TraverseExpr] using TraverseExpr_rel R VisitE hE sub _ _ (hE _ s t h)
  | Expr.BinaryOperator lhs rhs, s, t, h => by
    simpa [TraverseExpr] using
      TraverseExpr_rel R VisitE hE rhs _ _
        (TraverseExpr_rel R VisitE hE lhs _ _ (hE _ s t h))
  | Expr.ConditionalOperator cond lhs rhs, s, t, h => by
    simpa [TraverseExpr] using
      TraverseExpr_rel R VisitE hE rhs _ _
        (TraverseExpr_rel R VisitE hE lhs _ _
          (TraverseExpr_rel R VisitE hE cond _ _ (hE _ s t h)))
  | Expr.CallExpr _ _ _ fn args, s, t, h => by
    simpa [TraverseExpr] using
      TraverseExprs_rel R VisitE hE args _ _
        (TraverseExpr_rel R VisitE hE fn _ _ (hE _ s t h))
  | Expr.OtherExpr children, s, t, h => by
    simpa [TraverseExpr] using TraverseExprs_rel R VisitE hE children _ _ (hE _ s t h)
theorem TraverseExprs_rel (R : State → State → Prop) (VisitE : Expr → State → State)
    (hE : ∀ E s t, R s t → R (VisitE E s) (VisitE E t)) :
    ∀ (Es : List Expr) (s t : State), R s t →
      R (TraverseExprs VisitE Es s) (TraverseExprs VisitE Es t)
  | [], s, t, h => by simpa [TraverseExprs] using h
  | E :: rest, s, t, h => by
    simpa [TraverseExprs] using
      TraverseExprs_rel R VisitE hE rest _ _ (TraverseExpr_rel R VisitE hE E s t h)
end

theorem TraverseOptExpr_rel (R : State → State → Prop) (VisitE : Expr → State → State)
    (hE : ∀ E s t, R s t → R (VisitE E s) (VisitE E t)) (E : Option Expr) (s t : State)
    (h : R s t) : R (TraverseOptExpr VisitE E s) (TraverseOptExpr VisitE E t) := by
  cases E with
  | none => simpa [TraverseOptExpr] using h
  | some E => simpa [TraverseOptExpr] using TraverseExpr_rel R VisitE hE E s t h

theorem TraverseVarDecls_rel (R : State → State → Prop) (VisitE : Expr → State → State)
    (hE : ∀ E s t, R s t → R (VisitE E s) (VisitE E t)) :
    ∀ (Ds : List VarDecl) (s t : State), R s t →
      R (TraverseVarDecls VisitE Ds s) (TraverseVarDecls VisitE Ds t)
  | [], s, t, h => by simpa [TraverseVarDecls] using h
  | D :: rest, s, t, h => by
    simpa [TraverseVarDecls] using
      TraverseVarDecls_rel R VisitE hE rest _ _ (TraverseOptExpr_rel R VisitE hE D.init s t h)

mutual
theorem TraverseStmt_rel (R : State → State → Prop) (VisitE : Expr → State → State)
    (VisitS : Stmt → State → State)
    (hE : ∀ E s t, R s t → R (VisitE E s) (VisitE E t))
    (hS : ∀ S s t, R s t → R (VisitS S s) (VisitS S t)) :
    ∀ (S : Stmt) (s t : State), R s t →
      R (TraverseStmt VisitE VisitS S s) (TraverseStmt VisitE VisitS S t)
  | Stmt.ExprStmt e, s, t, h => by
    simpa [TraverseStmt] using TraverseExpr_rel R VisitE hE e s t h
  | Stmt.NullStmt, s, t, h => by simpa [TraverseStmt] using hS _ s t h
  | Stmt.BreakStmt, s, t, h => by simpa [TraverseStmt] using hS _ s t h
  | Stmt.ContinueStmt, s, t, h => by simpa [TraverseStmt] using hS _ s t h
  | Stmt.GotoStmt _, s, t, h => by simpa [TraverseStmt] using hS _ s t h
  | Stmt.IndirectGotoStmt target, s, t, h => by
    simpa [TraverseStmt] using TraverseExpr_rel R VisitE hE target _ _ (hS _ s t h)
  | Stmt.CompoundStmt body, s, t, h => by
    simpa [TraverseStmt] using TraverseStmts_rel R VisitE VisitS hE hS body _ _ (hS _ s t h)
  | Stmt.DeclStmt decls, s, t, h => by
    simpa [TraverseStmt] using TraverseVarDecls_rel R VisitE hE decls _ _ (hS _ s t h)
  | Stmt.DoStmt body cond, s, t, h => by
    simpa [TraverseStmt] using
      TraverseExpr_rel R VisitE hE cond _ _
        (TraverseStmt_rel R VisitE VisitS hE hS body _ _ (hS _ s t h))
  | Stmt.ForStmt init cond inc body, s, t, h => by
    simpa [TraverseStmt] using
      TraverseStmt_rel R VisitE VisitS hE hS body _ _
        (TraverseOptExpr_rel R VisitE hE inc _ _
          (TraverseOptExpr_rel R VisitE hE cond _ _
            (TraverseOptStmt_rel R VisitE VisitS hE hS init _ _ (hS _ s t h))))
  | Stmt.IfStmt cond thenB elseB, s, t, h => by
    simpa [TraverseStmt] using
      TraverseOptStmt_rel R VisitE VisitS hE hS elseB _ _
        (TraverseStmt_rel R VisitE VisitS hE hS thenB _ _
          (TraverseExpr_rel R VisitE hE cond _ _ (hS _ s t h)))
  | Stmt.ReturnStmt _ retValue _, s, t, h => by
    simpa [TraverseStmt] using TraverseOptExpr_rel R VisitE hE retValue _ _ (hS _ s t h)
  | Stmt.CaseStmt lhs sub, s, t, h => by
    simpa [TraverseStmt] using
      TraverseStmt_rel R VisitE VisitS hE hS sub _ _
        (TraverseExpr_rel R VisitE hE lhs _ _ (hS _ s t h))
  | Stmt.DefaultStmt sub, s, t, h => by
    simpa [TraverseStmt] using TraverseStmt_rel R VisitE VisitS hE hS sub _ _ (hS _ s t h)
  | Stmt.SwitchStmt cond body, s, t, h => by
    simpa [TraverseStmt] using
      TraverseStmt_rel R VisitE VisitS hE hS body _ _
        (TraverseExpr_rel R VisitE hE cond _ _ (hS _ s t h))
  | Stmt.WhileStmt cond body, s, t, h => by
    simpa [TraverseStmt] using
      TraverseStmt_rel R VisitE VisitS hE hS body _ _
        (TraverseExpr_rel R VisitE hE cond _ _ (hS _ s t h))
  | Stmt.LabelStmt _ sub, s, t, h => by
    simpa [TraverseStmt] using TraverseStmt_rel R VisitE VisitS hE hS sub _ _ (hS _ s t h)
theorem TraverseStmts_rel (R : State → State → Prop) (VisitE : Expr → State → State)
    (VisitS : Stmt → State → State)
    (hE : ∀ E s t, R s t → R (VisitE E s) (VisitE E t))
    (hS : ∀ S s t, R s t → R (VisitS S s) (VisitS S t)) :
    ∀ (Ss : List Stmt) (s t : State), R s t →
      R (TraverseStmts VisitE VisitS Ss s) (TraverseStmts VisitE VisitS Ss t)
  | [], s, t, h => by simpa [TraverseStmts] using h
  | S :: rest, s, t, h => by
    simpa [TraverseStmts] using
      TraverseStmts_rel R VisitE VisitS hE hS rest _ _
        (TraverseStmt_rel R VisitE VisitS hE hS S s t h)
theorem TraverseOptStmt_rel (R : State → State → Prop) (VisitE : Expr → State → State)
    (VisitS : Stmt → State → State)
    (hE : ∀ E s t, R s t → R (VisitE E s) (VisitE E t))
    (hS : ∀ S s t, R s t → R (VisitS S s) (VisitS S t)) :
    ∀ (S : Option Stmt) (s t : State), R s t →
      R (TraverseOptStmt VisitE VisitS S s) (TraverseOptStmt VisitE VisitS S t)
  | none, s, t, h => by simpa [TraverseOptStmt] using h
  | some S, s, t, h => by
    simpa [TraverseOptStmt] using TraverseStmt_rel R VisitE VisitS hE hS S s t h
end


/-! ## Complexity score -/

mutual
theorem NumStmts_TraverseExpr :
    ∀ (E : Expr) (s : State),
      (TraverseExpr CollectionVisitor.VisitExpr E s).NumStmts = s.NumStmts + countExpr false E
  | Expr.FloatingLiteral _, s => by simp [TraverseExpr, countExpr, CollectionVisitor.VisitExpr]
  | Expr.StringLiteral _, s => by simp [TraverseExpr, countExpr, CollectionVisitor.VisitExpr]
  | Expr.IntegerLiteral _, s => by simp [TraverseExpr, countExpr, CollectionVisitor.VisitExpr]
  | Expr.GNUNullExpr, s => by simp [TraverseExpr, countExpr, CollectionVisitor.VisitExpr]
  | Expr.CharacterLiteral _, s => by simp [TraverseExpr, countExpr, CollectionVisitor.VisitExpr]
  | Expr.ParenExpr sub, s => by
    simp [TraverseExpr, countExpr, CollectionVisitor.VisitExpr, NumStmts_TraverseExpr sub]
  | Expr.ImplicitCastExpr sub, s => by
    simp [TraverseExpr, countExpr, CollectionVisitor.VisitExpr, NumStmts_TraverseExpr sub]
  | Expr.CStyleCastExpr _ sub, s => by
    simp [TraverseExpr, countExpr, CollectionVisitor.VisitExpr, NumStmts_TraverseExpr sub]
  | Expr.CXXStaticCastExpr _ sub, s => by
    simp [TraverseExpr, countExpr, CollectionVisitor.VisitExpr, NumStmts_TraverseExpr sub]
  | Expr.MemberExpr base _, s => by
    simp [TraverseExpr, countExpr, CollectionVisitor.VisitExpr, NumStmts_TraverseExpr base]
  | Expr.ArraySubscriptExpr base idx, s => by
    simp [TraverseExpr, countExpr, CollectionVisitor.VisitExpr, NumStmts_TraverseExpr base,
      NumStmts_TraverseExpr idx, Nat.add_assoc]
  | Expr.DeclRefExpr _ _, s => by simp [TraverseExpr, countExpr, CollectionVisitor.VisitExpr]
  | Expr.UnaryOperator sub, s => by
    simp [TraverseExpr, countExpr, CollectionVisitor.VisitExpr, NumStmts_TraverseExpr sub]
  | Expr.BinaryOperator lhs rhs, s => by
    simp [TraverseExpr, countExpr, CollectionVisitor.VisitExpr, CollectionVisitor.VisitCounted,
      NumStmts_TraverseExpr lhs, NumStmts_TraverseExpr rhs, Nat.add_assoc]
  | Expr.ConditionalOperator cond lhs rhs, s => by
    simp [TraverseExpr, countExpr, CollectionVisitor.VisitExpr, NumStmts_TraverseExpr cond,
      NumStmts_TraverseExpr lhs, NumStmts_TraverseExpr rhs, Nat.add_assoc]
  | Expr.CallExpr _ calleeDecl _ fn args, s => by
    cases calleeDecl <;>
      simp [TraverseExpr, countExpr, CollectionVisitor.VisitExpr,
        CollectionVisitor.VisitCallExpr, NumStmts_TraverseExpr fn, NumStmts_TraverseExprs args,
        Nat.add_assoc]
  | Expr.OtherExpr children, s => by
    simp [TraverseExpr, countExpr, CollectionVisitor.VisitExpr, NumStmts_TraverseExprs children]
theorem NumStmts_TraverseExprs :
    ∀ (Es : List Expr) (s : State),
      (TraverseExprs CollectionVisitor.VisitExpr Es s).NumStmts
        = s.NumStmts + countExprs false Es
  | [], s => by simp [TraverseExprs, countExprs]
  | E :: rest, s => by
    simp [TraverseExprs, countExprs, NumStmts_TraverseExpr E, NumStmts_TraverseExprs rest,
      Nat.add_assoc]
end

theorem NumStmts_TraverseOptExpr (E : Option Expr) (s : State) :
    (TraverseOptExpr CollectionVisitor.VisitExpr E s).NumStmts
      = s.NumStmts + countOptExpr false E := by
  cases E <;> simp [TraverseOptExpr, countOptExpr, NumStmts_TraverseExpr]

theorem NumStmts_TraverseVarDecls :
    ∀ (Ds : List VarDecl) (s : State),
      (TraverseVarDecls CollectionVisitor.VisitExpr Ds s).NumStmts
        = s.NumStmts + countVarDecls false Ds
  | [], s => by simp [TraverseVarDecls, countVarDecls]
  | D :: rest, s => by
    simp [TraverseVarDecls, countVarDecls, NumStmts_TraverseOptExpr,
      NumStmts_TraverseVarDecls rest, Nat.add_assoc]

mutual
theorem NumStmts_TraverseStmt :
    ∀ (S : Stmt) (s : State),
      (TraverseStmt CollectionVisitor.VisitExpr CollectionVisitor.VisitStmt S s).NumStmts
        = s.NumStmts + countStmt false S
  | Stmt.ExprStmt e, s => by simp [TraverseStmt, countStmt, NumStmts_TraverseExpr]
  | Stmt.NullStmt, s => by simp [TraverseStmt, countStmt, CollectionVisitor.VisitStmt]
  | Stmt.BreakStmt, s => by
    simp [TraverseStmt, countStmt, CollectionVisitor.VisitStmt, CollectionVisitor.VisitCounted]
  | Stmt.ContinueStmt, s => by
    simp [TraverseStmt, countStmt, CollectionVisitor.VisitStmt, CollectionVisitor.VisitCounted]
  | Stmt.GotoStmt _, s => by
    simp [TraverseStmt, countStmt, CollectionVisitor.VisitStmt, CollectionVisitor.VisitCounted]
  | Stmt.IndirectGotoStmt target, s => by
    simp [TraverseStmt, countStmt, CollectionVisitor.VisitStmt, CollectionVisitor.VisitCounted,
      NumStmts_TraverseExpr, Nat.add_assoc]
  | Stmt.CompoundStmt body, s => by
    simp [TraverseStmt, countStmt, CollectionVisitor.VisitStmt, CollectionVisitor.VisitCounted,
      NumStmts_TraverseStmts body, Nat.add_assoc]
  | Stmt.DeclStmt decls, s => by
    simp [TraverseStmt, countStmt, CollectionVisitor.VisitStmt, CollectionVisitor.VisitCounted,
      NumStmts_TraverseVarDecls, Nat.add_assoc]
  | Stmt.DoStmt body cond, s => by
    simp [TraverseStmt, countStmt, CollectionVisitor.VisitStmt, CollectionVisitor.VisitCounted,
      NumStmts_TraverseExpr, NumStmts_TraverseStmt body, Nat.add_assoc]
  | Stmt.ForStmt init cond inc body, s => by
    simp [TraverseStmt, countStmt, CollectionVisitor.VisitStmt, CollectionVisitor.VisitCounted,
      NumStmts_TraverseOptExpr, NumStmts_TraverseStmt body, NumStmts_TraverseOptStmt init,
      Nat.add_assoc]
  | Stmt.IfStmt cond thenB elseB, s => by
    simp [TraverseStmt, countStmt, CollectionVisitor.VisitStmt, CollectionVisitor.VisitCounted,
      NumStmts_TraverseExpr, NumStmts_TraverseStmt thenB, NumStmts_TraverseOptStmt elseB,
      Nat.add_assoc]
  | Stmt.ReturnStmt _ retValue _, s => by
    simp [TraverseStmt, countStmt, CollectionVisitor.VisitStmt, CollectionVisitor.VisitCounted,
      NumStmts_TraverseOptExpr, Nat.add_assoc]
  | Stmt.CaseStmt lhs sub, s => by
    simp [TraverseStmt, countStmt, CollectionVisitor.VisitStmt, CollectionVisitor.VisitCounted,
      NumStmts_TraverseExpr, NumStmts_TraverseStmt sub, Nat.add_assoc]
  | Stmt.DefaultStmt sub, s => by
    simp [TraverseStmt, countStmt, CollectionVisitor.VisitStmt, CollectionVisitor.VisitCounted,
      NumStmts_TraverseStmt sub, Nat.add_assoc]
  | Stmt.SwitchStmt cond body, s => by
    simp [TraverseStmt, countStmt, CollectionVisitor.VisitStmt, CollectionVisitor.VisitCounted,
      NumStmts_TraverseExpr, NumStmts_TraverseStmt body, Nat.add_assoc]
  | Stmt.WhileStmt cond body, s => by
    simp [TraverseStmt, countStmt, CollectionVisitor.VisitStmt, CollectionVisitor.VisitCounted,
      NumStmts_TraverseExpr, NumStmts_TraverseStmt body, Nat.add_assoc]
  | Stmt.LabelStmt _ sub, s => by
    simp [TraverseStmt, countStmt, CollectionVisitor.VisitStmt, NumStmts_TraverseStmt sub]
theorem NumStmts_TraverseStmts :
    ∀ (Ss : List Stmt) (s : State),
      (TraverseStmts CollectionVisitor.VisitExpr CollectionVisitor.VisitStmt Ss s).NumStmts
        = s.NumStmts + countStmts false Ss
  | [], s => by simp [TraverseStmts, countStmts]
  | S :: rest, s => by
    simp [TraverseStmts, countStmts, NumStmts_TraverseStmt S, NumStmts_TraverseStmts rest,
      Nat.add_assoc]
theorem NumStmts_TraverseOptStmt :
    ∀ (S : Option Stmt) (s : State),
      (TraverseOptStmt CollectionVisitor.VisitExpr CollectionVisitor.VisitStmt S s).NumStmts
        = s.NumStmts + countOptStmt false S
  | none, s => by simp [TraverseOptStmt, countOptStmt]
  | some S, s => by simp [TraverseOptStmt, countOptStmt, NumStmts_TraverseStmt S]
end

theorem NumStmts_TraverseDecl (FD : FunctionDecl) (s : State) :
    (CollectionVisitor.TraverseDecl FD s).NumStmts = s.NumStmts + countOptStmt false FD.body := by
  simp [CollectionVisitor.TraverseDecl, TraverseDecl, NumStmts_TraverseOptStmt]

theorem complexityScore_eq (FD : FunctionDecl) :
    complexityScore FD = countOptStmt false FD.body := by
  simp [complexityScore, NumStmts_TraverseDecl, State.initial]


/-! ## Collection -/

/-- C7, as stated, fails: in `void g(void) { (*fp)(); }` the block and the call are
two nodes of the listed kinds, and the visitor leaves the score 1, because a call
without direct callee is not counted. -/
theorem C7_indirect_call_not_counted :
    (CollectionVisitor.TraverseDecl
        { ptr := 1, canonical := 1, isVariadic := false, resultType := ⟨['v', 'o', 'i', 'd'], true⟩,
          params := [],
          body := some (Stmt.CompoundStmt [Stmt.ExprStmt
            (Expr.CallExpr 5 none ⟨['v', 'o', 'i', 'd'], true⟩
              (Expr.ParenExpr (Expr.UnaryOperator (Expr.DeclRefExpr ['f', 'p'] false))) [])]),
          bodyLoc := 13, bodyText := ['{', ' ', '(', '*', 'f', 'p', ')', '(', ')', ';', ' ', '}'] }
        (State.initial 1 false 10)).NumStmts = 1 ∧
      countOptStmt true
        (some (Stmt.CompoundStmt [Stmt.ExprStmt
          (Expr.CallExpr 5 none ⟨['v', 'o', 'i', 'd'], true⟩
            (Expr.ParenExpr (Expr.UnaryOperator (Expr.DeclRefExpr ['f', 'p'] false))) [])])) = 2 :=
  ⟨rfl, rfl⟩

/-- C7, amended: for every function definition, the score left by the collection
visitor after the reset to 0 is the number of nodes of the function of the listed
kinds, one per occurrence: call expression with a direct callee, break, continue,
goto, indirect goto, compound block, declaration statement, do, for, if, return,
case or default label, switch, while, binary operator; nodes of any other kind
contribute 0. -/
theorem C7_score_counts_listed_nodes (FD : FunctionDecl) (s : State) :
    (CollectionVisitor.TraverseDecl FD { s with NumStmts := 0 }).NumStmts
      = countOptStmt false FD.body := by
  simp [NumStmts_TraverseDecl]

theorem CollectionVisitor_TraverseDecl_rel (R : State → State → Prop)
    (hCall : ∀ CE s t, R s t →
      R (CollectionVisitor.VisitCallExpr CE s) (CollectionVisitor.VisitCallExpr CE t))
    (hCount : ∀ s t, R s t →
      R (CollectionVisitor.VisitCounted s) (CollectionVisitor.VisitCounted t))
    (FD : FunctionDecl) (s t : State) (h : R s t) :
    R (CollectionVisitor.TraverseDecl FD s) (CollectionVisitor.TraverseDecl FD t) := by
  have hE : ∀ E s t, R s t →
      R (CollectionVisitor.VisitExpr E s) (CollectionVisitor.VisitExpr E t) := by
    intro E s t h
    cases E <;> simp only [CollectionVisitor.VisitExpr] <;> first | exact h | exact hCall _ _ _ h | exact hCount _ _ h
  have hS : ∀ S s t, R s t →
      R (CollectionVisitor.VisitStmt S s) (CollectionVisitor.VisitStmt S t) := by
    intro S s t h
    cases S <;> simp only [CollectionVisitor.VisitStmt] <;> first | exact h | exact hCount _ _ h
  exact TraverseOptStmt_rel R _ _ hE hS FD.body s t h

/-- The traversal of a function changes nothing but the call list, the caller map
and the score. -/
theorem CollectionVisitor_TraverseDecl_frame (FD : FunctionDecl) (s : State) :
    ∃ A Mp N, CollectionVisitor.TraverseDecl FD s
      = { s with AllCallExprs := A, CalleeToCallerMap := Mp, NumStmts := N } := by
  refine CollectionVisitor_TraverseDecl_rel
    (fun _ t => ∃ A Mp N, t = { s with AllCallExprs := A, CalleeToCallerMap := Mp, NumStmts := N })
    ?_ ?_ FD s s ⟨_, _, _, rfl⟩
  · rintro CE _ t ⟨A, Mp, N, rfl⟩
    unfold CollectionVisitor.VisitCallExpr
    cases CE.calleeDecl <;> exact ⟨_, _, _, rfl⟩
  · rintro _ t ⟨A, Mp, N, rfl⟩
    exact ⟨_, _, _, rfl⟩

theorem CollectionVisitor_TraverseDecl_recorded (FD : FunctionDecl) (s : State)
    (hFD : s.CurrentFD.isSome = true) (h : CallsRecorded s) :
    CallsRecorded (CollectionVisitor.TraverseDecl FD s) := by
  have key := CollectionVisitor_TraverseDecl_rel
    (fun _ t => t.CurrentFD.isSome = true ∧ CallsRecorded t) ?_ ?_ FD s s ⟨hFD, h⟩
  · exact key.2
  · rintro CE _ t ⟨h1, h2⟩
    unfold CollectionVisitor.VisitCallExpr
    cases hc : CE.calleeDecl with
    | none => exact ⟨h1, h2⟩
    | some p =>
      refine ⟨h1, ?_⟩
      intro CI hCI
      simp only [List.mem_append, List.mem_singleton] at hCI
      simp only [lookupCaller, List.lookup_cons]
      rcases hCI with hCI | rfl
      · refine ⟨(h2 CI hCI).1, ?_⟩
        cases hp : (CI.ptr == CE.ptr)
        · exact (h2 CI hCI).2
        · simpa using h1
      · refine ⟨by simp [hc], ?_⟩
        simpa using h1
  · rintro _ t ⟨h1, h2⟩
    exact ⟨h1, h2⟩


theorem HandleDecl_other (s : State) (D : Decl)
    (h : ∀ FD, D = Decl.Function FD → FD.isThisDeclarationADefinition = false) :
    HandleDecl s D = s := by
  cases D with
  | Other => simp [HandleDecl, Decl.asFunctionDecl]
  | Function FD => simp [HandleDecl, Decl.asFunctionDecl, h FD rfl]

theorem HandleDecl_definition (s : State) (FD : FunctionDecl)
    (hdef : FD.isThisDeclarationADefinition = true) :
    ∃ A Mp, HandleDecl s (Decl.Function FD)
      = { s with CurrentFD := some FD, AllCallExprs := A, CalleeToCallerMap := Mp,
                 NumStmts := complexityScore FD,
                 ValidFunctionDecls :=
                   if complexityScore FD ≤ s.MaxNumStmts ∧ FD.isVariadic = false then
                     s.ValidFunctionDecls.insert FD.getCanonicalDecl
                   else s.ValidFunctionDecls } := by
  obtain ⟨A, Mp, N, hfr⟩ :=
    CollectionVisitor_TraverseDecl_frame FD { s with CurrentFD := some FD, NumStmts := 0 }
  have hN := NumStmts_TraverseDecl FD { s with CurrentFD := some FD, NumStmts := 0 }
  rw [hfr] at hN
  simp only [Nat.zero_add] at hN
  rw [← complexityScore_eq] at hN
  subst hN
  refine ⟨A, Mp, ?_⟩
  simp only [HandleDecl, Decl.asFunctionDecl, hdef, Bool.not_true, Bool.false_eq_true,
    if_false, hfr]
  by_cases hc : complexityScore FD ≤ s.MaxNumStmts <;> cases hv : FD.isVariadic <;>
    simp [hc, hv]

theorem HandleDecl_recorded (s : State) (D : Decl) (h : CallsRecorded s) :
    CallsRecorded (HandleDecl s D) := by
  cases D with
  | Other => simpa [HandleDecl, Decl.asFunctionDecl] using h
  | Function FD =>
    cases hdef : FD.isThisDeclarationADefinition with
    | false => simpa [HandleDecl, Decl.asFunctionDecl, hdef] using h
    | true =>
      have h2 := CollectionVisitor_TraverseDecl_recorded FD
        { s with CurrentFD := some FD, NumStmts := 0 } rfl h
      simp only [HandleDecl, Decl.asFunctionDecl, hdef, Bool.not_true, Bool.false_eq_true,
        if_false]
      split
      · exact h2
      · exact h2

/-- What the scan of a range of declarations changes and leaves. -/
theorem foldl_HandleDecl_spec :
    ∀ (Ds : List Decl) (s : State),
      (∃ A Mp N V F, Ds.foldl HandleDecl s
        = { s with AllCallExprs := A, CalleeToCallerMap := Mp, NumStmts := N,
                   ValidFunctionDecls := V, CurrentFD := F }) ∧
      (CallsRecorded s → CallsRecorded (Ds.foldl HandleDecl s)) ∧
      (∀ c, c ∈ (Ds.foldl HandleDecl s).ValidFunctionDecls ↔
        c ∈ s.ValidFunctionDecls ∨
          ∃ FD, Decl.Function FD ∈ Ds ∧ FD.getCanonicalDecl = c ∧
            FD.isThisDeclarationADefinition = true ∧ FD.isVariadic = false ∧
            complexityScore FD ≤ s.MaxNumStmts)
  | [], s => by
    refine ⟨⟨_, _, _, _, _, rfl⟩, fun h => h, fun c => ?_⟩
    simp
  | D :: rest, s => by
    obtain ⟨⟨A, Mp, N, V, F, hfr⟩, hrec, hmem⟩ := foldl_HandleDecl_spec rest (HandleDecl s D)
    simp only [List.foldl_cons]
    by_cases hD : ∃ FD, D = Decl.Function FD ∧ FD.isThisDeclarationADefinition = true
    · obtain ⟨FD, rfl, hdef⟩ := hD
      obtain ⟨A1, Mp1, h1⟩ := HandleDecl_definition s FD hdef
      refine ⟨⟨A, Mp, N, V, F, ?_⟩, fun h => hrec (HandleDecl_recorded s _ h), fun c => ?_⟩
      · rw [hfr, h1]
      · rw [hmem c, h1]
        simp only [List.mem_cons, Decl.Function.injEq]
        constructor
        · rintro (hc | ⟨FD2, h2, h3⟩)
          · split at hc
            · rename_i hcond
              rcases List.mem_insert_iff.1 hc with rfl | hc
              · exact Or.inr ⟨FD, Or.inl rfl, rfl, hdef, hcond.2, hcond.1⟩
              · exact Or.inl hc
            · exact Or.inl hc
          · exact Or.inr ⟨FD2, Or.inr h2, h3⟩
        · rintro (hc | ⟨FD2, (rfl | h2), h3, h4, h5, h6⟩)
          · left
            split
            · exact List.mem_insert_iff.2 (Or.inr hc)
            · exact hc
          · left
            rw [if_pos ⟨h6, h5⟩]
            exact List.mem_insert_iff.2 (Or.inl h3.symm)
          · exact Or.inr ⟨FD2, h2, h3, h4, h5, h6⟩
    · have h1 : HandleDecl s D = s := by
        apply HandleDecl_other
        intro FD hFD
        cases hd : FD.isThisDeclarationADefinition
        · rfl
        · exact absurd ⟨FD, hFD, hd⟩ hD
      rw [h1] at hfr hrec hmem ⊢
      refine ⟨⟨A, Mp, N, V, F, hfr⟩, hrec, fun c => ?_⟩
      rw [hmem c]
      simp only [List.mem_cons]
      constructor
      · rintro (hc | ⟨FD2, h2, h3⟩)
        · exact Or.inl hc
        · exact Or.inr ⟨FD2, Or.inr h2, h3⟩
      · rintro (hc | ⟨FD2, (rfl | h2), h3, h4, h5⟩)
        · exact Or.inl hc
        · exact absurd ⟨FD2, rfl, h4⟩ hD
        · exact Or.inr ⟨FD2, h2, h3, h4, h5⟩

theorem HandleAllTopLevelDecls_eq (Ctx : ASTContext) (s : State) :
    HandleAllTopLevelDecls Ctx s = Ctx.TranslationUnit.flatten.foldl HandleDecl s := by
  unfold HandleAllTopLevelDecls
  generalize Ctx.TranslationUnit = TU
  induction TU generalizing s with
  | nil => rfl
  | cons D rest ih =>
    simp only [List.foldl_cons, List.flatten_cons, List.foldl_append]
    exact ih _

theorem mem_functionDecls (Ctx : ASTContext) (FD : FunctionDecl) :
    FD ∈ Ctx.functionDecls ↔ Decl.Function FD ∈ Ctx.TranslationUnit.flatten := by
  unfold ASTContext.functionDecls
  rw [List.mem_filterMap]
  constructor
  · rintro ⟨D, hD, h⟩
    cases D with
    | Other => simp [Decl.asFunctionDecl] at h
    | Function FD2 =>
      simp only [Decl.asFunctionDecl, Option.some.injEq] at h
      subst h
      exact hD
  · intro h
    exact ⟨_, h, rfl⟩

/-- The state after the scan of the unit. -/
theorem collected_spec (Ctx : ASTContext) (k : Nat) (q : Bool) (M : Nat) :
    (∃ A Mp N V F, collected Ctx k q M
        = { State.initial k q M with
            AllCallExprs := A, CalleeToCallerMap := Mp, NumStmts := N,
            ValidFunctionDecls := V, CurrentFD := F }) ∧
      CallsRecorded (collected Ctx k q M) ∧
      (∀ c, c ∈ (collected Ctx k q M).ValidFunctionDecls ↔
          ∃ FD ∈ Ctx.functionDecls, FD.getCanonicalDecl = c ∧
            FD.isThisDeclarationADefinition = true ∧ FD.isVariadic = false ∧
            complexityScore FD ≤ M) := by
  obtain ⟨hfr, hrec, hmem⟩ :=
    foldl_HandleDecl_spec Ctx.TranslationUnit.flatten (State.initial k q M)
  unfold collected
  rw [HandleAllTopLevelDecls_eq]
  refine ⟨hfr, hrec ?_, fun c => ?_⟩
  · intro CI hCI
    simp [State.initial] at hCI
  · rw [hmem c]
    simp only [State.initial, List.not_mem_nil, false_or, mem_functionDecls]


/-! ## Selection -/

theorem resolveCallee_isDefinition (Ctx : ASTContext) (CalleeDecl D : FunctionDecl)
    (hD : D ∈ Ctx.functionDecls) (hc : D.canonical = CalleeDecl.canonical)
    (hdef : D.isThisDeclarationADefinition = true) :
    (resolveCallee Ctx CalleeDecl).isThisDeclarationADefinition = true := by
  unfold resolveCallee
  cases hcd : CalleeDecl.isThisDeclarationADefinition with
  | true => simpa using hcd
  | false =>
    simp only [Bool.not_false, if_true]
    have hFirst : (getFirstDeclaration Ctx CalleeDecl).canonical = CalleeDecl.canonical := by
      unfold getFirstDeclaration
      cases hf : Ctx.functionDecls.find? (fun d => d.canonical == CalleeDecl.canonical) with
      | none => rfl
      | some F =>
        have := List.find?_some hf
        simpa using this
    have hmem : D ∈ redecls Ctx (getFirstDeclaration Ctx CalleeDecl) := by
      unfold redecls
      have hDf : D ∈ Ctx.functionDecls.filter
          (fun d => d.canonical == (getFirstDeclaration Ctx CalleeDecl).canonical) := by
        rw [List.mem_filter]
        exact ⟨hD, by simp [hFirst, hc]⟩
      revert hDf
      cases Ctx.functionDecls.filter
          (fun d => d.canonical == (getFirstDeclaration Ctx CalleeDecl).canonical) with
      | nil => intro h; cases h
      | cons First Later =>
        intro h
        simp only [List.mem_cons, List.mem_reverse] at h ⊢
        exact h
    cases hfind : (redecls Ctx (getFirstDeclaration Ctx CalleeDecl)).find?
        (fun RI => RI.isThisDeclarationADefinition) with
    | none =>
      rw [List.find?_eq_none] at hfind
      exact absurd hdef (hfind D hmem)
    | some RI =>
      exact List.find?_some hfind

theorem isValidInstance_iff (Ctx : ASTContext) (V : List Nat) (CI : CallExpr)
    (CalleeDecl : FunctionDecl) (h : getDirectCallee Ctx CI = some CalleeDecl) :
    isValidInstance Ctx V CI = true
      ↔ CalleeDecl.getCanonicalDecl ∈ V ∧ hasValidArgExprs CI = true := by
  simp [isValidInstance, h, hasValidArgExprs, hasValidArgs_eq_all]

theorem doAnalysisStep_invalid (Ctx : ASTContext) (s : State) (CI : CallExpr)
    (hc : CI.calleeDecl.isSome = true)
    (hv : isValidInstance Ctx s.ValidFunctionDecls CI = false) :
    doAnalysisStep Ctx s CI = Except.ok s := by
  obtain ⟨p, hp⟩ := Option.isSome_iff_exists.1 hc
  have hg : getDirectCallee Ctx CI = some (Ctx.getDecl p) := by simp [getDirectCallee, hp]
  have hiff := isValidInstance_iff Ctx s.ValidFunctionDecls CI _ hg
  rw [hv] at hiff
  unfold doAnalysisStep
  simp only [hg]
  by_cases h1 : (Ctx.getDecl p).getCanonicalDecl ∈ s.ValidFunctionDecls
  · cases h2 : hasValidArgExprs CI
    · simp
    · exact absurd (hiff.2 ⟨h1, h2⟩) (by simp)
  · simp [h1]

theorem doAnalysisStep_valid_other (Ctx : ASTContext) (s : State) (CI : CallExpr)
    (hv : isValidInstance Ctx s.ValidFunctionDecls CI = true)
    (hk : s.TransformationCounter ≠ s.ValidInstanceNum + 1) :
    doAnalysisStep Ctx s CI
      = Except.ok { s with ValidInstanceNum := s.ValidInstanceNum + 1 } := by
  cases hg : getDirectCallee Ctx CI with
  | none => simp [isValidInstance, hg] at hv
  | some CalleeDecl =>
    rw [isValidInstance_iff Ctx _ CI _ hg] at hv
    unfold doAnalysisStep
    simp [hg, hv.1, hv.2, hk]

theorem doAnalysisStep_valid_target (Ctx : ASTContext) (s : State) (CI : CallExpr)
    (hdefd : ValidDeclsDefined Ctx s) (hrec : (lookupCaller s CI).isSome = true)
    (hv : isValidInstance Ctx s.ValidFunctionDecls CI = true)
    (hk : s.TransformationCounter = s.ValidInstanceNum + 1) :
    ∃ CalleeDecl : FunctionDecl, getDirectCallee Ctx CI = some CalleeDecl ∧
      (resolveCallee Ctx CalleeDecl).isThisDeclarationADefinition = true ∧
      doAnalysisStep Ctx s CI
        = Except.ok { s with ValidInstanceNum := s.ValidInstanceNum + 1,
                             CurrentFD := some (resolveCallee Ctx CalleeDecl),
                             TheCaller := lookupCaller s CI,
                             TheCallExpr := some CI } := by
  cases hg : getDirectCallee Ctx CI with
  | none => simp [isValidInstance, hg] at hv
  | some CalleeDecl =>
    rw [isValidInstance_iff Ctx _ CI _ hg] at hv
    obtain ⟨D, hD, hDc, hDdef⟩ := hdefd _ hv.1
    have hres := resolveCallee_isDefinition Ctx CalleeDecl D hD hDc hDdef
    refine ⟨CalleeDecl, rfl, hres, ?_⟩
    obtain ⟨Caller, hCaller⟩ := Option.isSome_iff_exists.1 hrec
    unfold doAnalysisStep
    simp only [lookupCaller] at hCaller
    simp only [hg]
    simp [hv.1, hv.2, hk, hres, lookupCaller, hCaller]


/-- The result of the loop of `doAnalysis` over a range of recorded calls: the
counter advances by the number of valid calls of the range; when the target
ordinal falls on the `i`-th of them (from 0), that call is selected with its
recorded caller and a defining declaration of its callee; when the ordinal falls
outside the range, the selection is left as it was. -/
theorem doAnalysisLoop_spec (Ctx : ASTContext) :
    ∀ (L : List CallExpr) (s : State),
      (∀ CI ∈ L, CI.calleeDecl.isSome = true ∧ (lookupCaller s CI).isSome = true) →
      ValidDeclsDefined Ctx s →
      ∃ F C E,
        doAnalysisLoop Ctx L s
          = Except.ok { s with
              ValidInstanceNum :=
                s.ValidInstanceNum + (L.filter (isValidInstance Ctx s.ValidFunctionDecls)).length,
              CurrentFD := F, TheCaller := C, TheCallExpr := E } ∧
        (∀ i, s.TransformationCounter = s.ValidInstanceNum + i + 1 →
          i < (L.filter (isValidInstance Ctx s.ValidFunctionDecls)).length →
          E = (L.filter (isValidInstance Ctx s.ValidFunctionDecls))[i]? ∧
            C = E.bind (lookupCaller s) ∧ C.isSome = true ∧
            F = (E.bind (getDirectCallee Ctx)).map (resolveCallee Ctx) ∧
            F.map FunctionDecl.isThisDeclarationADefinition = some true) ∧
        ((s.TransformationCounter ≤ s.ValidInstanceNum ∨
            s.ValidInstanceNum + (L.filter (isValidInstance Ctx s.ValidFunctionDecls)).length
              < s.TransformationCounter) →
          F = s.CurrentFD ∧ C = s.TheCaller ∧ E = s.TheCallExpr)
  | [], s, _, _ => by
    refine ⟨s.CurrentFD, s.TheCaller, s.TheCallExpr, rfl, ?_, fun _ => ⟨rfl, rfl, rfl⟩⟩
    intro i _ hi
    simp at hi
  | CI :: rest, s, hrec, hdefd => by
    have hCI := hrec CI (List.mem_cons_self _ _)
    have hrest : ∀ CI2 ∈ rest,
        CI2.calleeDecl.isSome = true ∧ (lookupCaller s CI2).isSome = true :=
      fun CI2 h => hrec CI2 (List.mem_cons_of_mem _ h)
    cases hv : isValidInstance Ctx s.ValidFunctionDecls CI with
    | false =>
      obtain ⟨F, C, E, h1, h2, h3⟩ := doAnalysisLoop_spec Ctx rest s hrest hdefd
      refine ⟨F, C, E, ?_, ?_, ?_⟩
      · simp only [doAnalysisLoop, doAnalysisStep_invalid Ctx s CI hCI.1 hv, h1,
          List.filter_cons, hv, Bool.false_eq_true, if_false]
      · simpa only [List.filter_cons, hv, Bool.false_eq_true, if_false] using h2
      · simpa only [List.filter_cons, hv, Bool.false_eq_true, if_false] using h3
    | true =>
      by_cases hk : s.TransformationCounter = s.ValidInstanceNum + 1
      · obtain ⟨CalleeDecl, hg, hres, hstep⟩ :=
          doAnalysisStep_valid_target Ctx s CI hdefd hCI.2 hv hk
        obtain ⟨F, C, E, h1, _, h3⟩ := doAnalysisLoop_spec Ctx rest
          { s with ValidInstanceNum := s.ValidInstanceNum + 1,
                   CurrentFD := some (resolveCallee Ctx CalleeDecl),
                   TheCaller := lookupCaller s CI,
                   TheCallExpr := some CI } hrest hdefd
        obtain ⟨rfl, rfl, rfl⟩ := h3 (Or.inl (by simp [hk]))
        refine ⟨some (resolveCallee Ctx CalleeDecl), lookupCaller s CI, some CI, ?_, ?_, ?_⟩
        · simp only [doAnalysisLoop, hstep, h1, List.filter_cons, hv, if_true,
            List.length_cons]
          simp only [Nat.add_assoc, Nat.add_comm 1]
        · intro i hi _
          have hi0 : i = 0 := by omega
          subst hi0
          simp [List.filter_cons, hv, hg, hres, hCI.2]
        · intro h
          simp only [List.filter_cons, hv, if_true, List.length_cons] at h
          omega
      · obtain ⟨F, C, E, h1, h2, h3⟩ := doAnalysisLoop_spec Ctx rest
          { s with ValidInstanceNum := s.ValidInstanceNum + 1 } hrest hdefd
        refine ⟨F, C, E, ?_, ?_, ?_⟩
        · simp only [doAnalysisLoop, doAnalysisStep_valid_other Ctx s CI hv hk, h1,
            List.filter_cons, hv, if_true, List.length_cons]
          simp only [Nat.add_assoc, Nat.add_comm 1]
        · intro i hi hlt
          simp only [List.filter_cons, hv, if_true, List.length_cons] at hlt
          cases i with
          | zero => exact absurd hi hk
          | succ j =>
            have := h2 j (by simp only; omega) (by simpa using hlt)
            simpa [List.filter_cons, hv] using this
        · intro h
          simp only [List.filter_cons, hv, if_true, List.length_cons] at h
          exact h3 (by simp only; omega)


theorem HandleDecl_param (k : Nat) (q : Bool) (s : State) (D : Decl) :
    HandleDecl { s with TransformationCounter := k, QueryInstanceOnly := q } D
      = { HandleDecl s D with TransformationCounter := k, QueryInstanceOnly := q } := by
  cases D with
  | Other => rfl
  | Function FD =>
    cases hdef : FD.isThisDeclarationADefinition with
    | false => simp [HandleDecl, Decl.asFunctionDecl, hdef]
    | true =>
      have htr := CollectionVisitor_TraverseDecl_rel
        (fun a b => b = { a with TransformationCounter := k, QueryInstanceOnly := q })
        (by
          rintro CE a b rfl
          unfold CollectionVisitor.VisitCallExpr
          cases CE.calleeDecl <;> rfl)
        (by rintro a b rfl; rfl)
        FD { s with CurrentFD := some FD, NumStmts := 0 }
        { s with TransformationCounter := k, QueryInstanceOnly := q, CurrentFD := some FD,
                 NumStmts := 0 } rfl
      simp only [HandleDecl, Decl.asFunctionDecl, hdef, Bool.not_true, Bool.false_eq_true,
        if_false, htr]
      split <;> rfl

theorem foldl_HandleDecl_param (k : Nat) (q : Bool) :
    ∀ (Ds : List Decl) (s : State),
      Ds.foldl HandleDecl { s with TransformationCounter := k, QueryInstanceOnly := q }
        = { Ds.foldl HandleDecl s with TransformationCounter := k, QueryInstanceOnly := q }
  | [], _ => rfl
  | D :: rest, s => by
    simp only [List.foldl_cons, HandleDecl_param]
    exact foldl_HandleDecl_param k q rest (HandleDecl s D)

/-- The scan does not read the target ordinal nor the query flag. -/
theorem collected_param (Ctx : ASTContext) (k : Nat) (q : Bool) (M : Nat) :
    collected Ctx k q M
      = { collected Ctx 0 false M with TransformationCounter := k, QueryInstanceOnly := q } := by
  unfold collected
  rw [HandleAllTopLevelDecls_eq, HandleAllTopLevelDecls_eq,
    ← foldl_HandleDecl_param k q _ (State.initial 0 false M)]
  rfl

theorem validCallExprs_collected (Ctx : ASTContext) (k : Nat) (q : Bool) (M : Nat) :
    validCallExprs Ctx (collected Ctx k q M) = validCallExprs Ctx (collected Ctx 0 false M) := by
  rw [collected_param Ctx k q M]
  rfl

/-- The result of `doAnalysis` on the state left by the scan of the unit. -/
theorem doAnalysis_collected (Ctx : ASTContext) (k : Nat) (q : Bool) (M : Nat) :
    ∃ F C E,
      doAnalysis Ctx (collected Ctx k q M)
        = Except.ok { collected Ctx k q M with
            ValidInstanceNum := (validCallExprs Ctx (collected Ctx k q M)).length,
            CurrentFD := F, TheCaller := C, TheCallExpr := E } ∧
      (1 ≤ k → k ≤ (validCallExprs Ctx (collected Ctx k q M)).length →
        E = (validCallExprs Ctx (collected Ctx k q M))[k - 1]? ∧
          C = E.bind (lookupCaller (collected Ctx k q M)) ∧ C.isSome = true ∧
          F = (E.bind (getDirectCallee Ctx)).map (resolveCallee Ctx) ∧
          F.map FunctionDecl.isThisDeclarationADefinition = some true) ∧
      ((k = 0 ∨ (validCallExprs Ctx (collected Ctx k q M)).length < k) →
        F = (collected Ctx k q M).CurrentFD ∧ C = none ∧ E = none) := by
  obtain ⟨⟨A, Mp, N, V, F0, hfr⟩, hrec, hmem⟩ := collected_spec Ctx k q M
  have hk : (collected Ctx k q M).TransformationCounter = k := by rw [hfr]; rfl
  have hn : (collected Ctx k q M).ValidInstanceNum = 0 := by rw [hfr]; rfl
  have hC : (collected Ctx k q M).TheCaller = none := by rw [hfr]; rfl
  have hE : (collected Ctx k q M).TheCallExpr = none := by rw [hfr]; rfl
  have hdefd : ValidDeclsDefined Ctx (collected Ctx k q M) := by
    intro c hc
    obtain ⟨FD, h1, h2, h3, _⟩ := (hmem c).1 hc
    exact ⟨FD, h1, h2, h3⟩
  obtain ⟨F, C, E, h1, h2, h3⟩ :=
    doAnalysisLoop_spec Ctx (collected Ctx k q M).AllCallExprs (collected Ctx k q M) hrec hdefd
  rw [hk, hn] at h2 h3
  rw [hn, Nat.zero_add] at h1
  refine ⟨F, C, E, h1, ?_, ?_⟩
  · intro hk1 hk2
    have := h2 (k - 1) (by omega) (by unfold validCallExprs at hk2; omega)
    exact this
  · intro h
    have := h3 (by unfold validCallExprs at h; omega)
    rw [hC, hE] at this
    exact this


/-! ## The claims on eligibility and selection -/

/-- C3: after all top-level declarations are handled, a canonical declaration is in
`ValidFunctionDecls` exactly when the top-level declarations of the unit hold a
definition of that function that is not variadic and whose own complexity score
is at most `MaxNumStmts` (a score equal to the threshold is eligible, a variadic
function never is).  The condition names only the function itself, so eligibility
is the same in every run on a unit with the same function declarations, whatever
their order, the call sites, the target ordinal or the query flag. -/
theorem C3_eligibility (Ctx : ASTContext) (k : Nat) (q : Bool) (M : Nat) (c : Nat) :
    (c ∈ (collected Ctx k q M).ValidFunctionDecls ↔
        ∃ FD ∈ Ctx.functionDecls, FD.getCanonicalDecl = c ∧
          FD.isThisDeclarationADefinition = true ∧ FD.isVariadic = false ∧
          complexityScore FD ≤ M) ∧
      (∀ (Ctx2 : ASTContext) (k2 : Nat) (q2 : Bool),
        (∀ FD, FD ∈ Ctx2.functionDecls ↔ FD ∈ Ctx.functionDecls) →
        (c ∈ (collected Ctx2 k2 q2 M).ValidFunctionDecls ↔
          c ∈ (collected Ctx k q M).ValidFunctionDecls)) := by
  refine ⟨(collected_spec Ctx k q M).2.2 c, ?_⟩
  intro Ctx2 k2 q2 hsame
  rw [(collected_spec Ctx k q M).2.2 c, (collected_spec Ctx2 k2 q2 M).2.2 c]
  constructor
  · rintro ⟨FD, h1, h2⟩
    exact ⟨FD, (hsame FD).1 h1, h2⟩
  · rintro ⟨FD, h1, h2⟩
    exact ⟨FD, (hsame FD).2 h1, h2⟩

/-- C1: for every unit and every target ordinal `k` with `1 ≤ k ≤` the number of
valid call sites, `doAnalysis` on the collected call list completes and selects a
call site: `TheCallExpr` is the `k`-th call, in list order, among those whose
callee's canonical declaration is in `ValidFunctionDecls` and whose arguments all
pass `isValidArgExpr`, and `TheCaller` is the function the caller map records for
that call. -/
theorem C1_selects_kth_valid_call (Ctx : ASTContext) (k : Nat) (q : Bool) (M : Nat)
    (h1 : 1 ≤ k) (h2 : k ≤ (validCallExprs Ctx (collected Ctx k q M)).length) :
    ∃ s CE Caller,
      doAnalysis Ctx (collected Ctx k q M) = Except.ok s ∧
      (validCallExprs Ctx (collected Ctx k q M))[k - 1]? = some CE ∧
      s.TheCallExpr = some CE ∧
      lookupCaller (collected Ctx k q M) CE = some Caller ∧
      s.TheCaller = some Caller := by
  obtain ⟨F, C, E, hrun, hsel, _⟩ := doAnalysis_collected Ctx k q M
  obtain ⟨hE, hC, hCs, _, _⟩ := hsel h1 h2
  have hlt : k - 1 < (validCallExprs Ctx (collected Ctx k q M)).length := by omega
  obtain ⟨Caller, hCaller⟩ := Option.isSome_iff_exists.1 hCs
  refine ⟨_, (validCallExprs Ctx (collected Ctx k q M))[k - 1], Caller, hrun,
    List.getElem?_eq_getElem hlt, ?_, ?_, hCaller⟩
  · simp only [hE, List.getElem?_eq_getElem hlt]
  · rw [hE, List.getElem?_eq_getElem hlt] at hC
    rw [← hCaller, hC]
    rfl

/-- C1 at `unitAdd` with ordinal 1: the call `add(1,2)` is selected, with `main` as
its caller. -/
theorem C1_selects_kth_valid_call_witness :
    (1 ≤ 1 ∧ 1 ≤ (validCallExprs Example.unitAdd
        (collected Example.unitAdd 1 false 10)).length) ∧
      ∃ s CE Caller,
        doAnalysis Example.unitAdd (collected Example.unitAdd 1 false 10) = Except.ok s ∧
        (validCallExprs Example.unitAdd (collected Example.unitAdd 1 false 10))[1 - 1]?
          = some CE ∧
        s.TheCallExpr = some CE ∧
        lookupCaller (collected Example.unitAdd 1 false 10) CE = some Caller ∧
        s.TheCaller = some Caller :=
  ⟨⟨by decide, by decide⟩,
    C1_selects_kth_valid_call Example.unitAdd 1 false 10 (by decide) (by decide)⟩

/-- C2: for every unit, when the target ordinal is greater than the number of valid
call sites, `HandleTranslationUnit` in non-query mode completes, reports
`TransMaxInstanceError` and sends nothing to the rewriter: no declaration of a
temporary variable, no inserted body and no replaced call; no temporary name is
allocated and no parameter string is built. -/
theorem C2_ordinal_beyond_total (Ctx : ASTContext) (k : Nat) (M : Nat)
    (h : (validCallExprs Ctx (collected Ctx k false M)).length < k) :
    ∃ s, run Ctx k false M = Except.ok s ∧
      s.TransError = TransformationError.TransMaxInstanceError ∧
      s.Edits = [] ∧ s.TmpVarName = [] ∧ s.ParmStrings = [] ∧ s.TheStmt = none ∧
      s.ValidInstanceNum = (validCallExprs Ctx (collected Ctx k false M)).length := by
  obtain ⟨F, C, E, hrun, _, _⟩ := doAnalysis_collected Ctx k false M
  obtain ⟨⟨A, Mp, N, V, F0, hfr⟩, _, _⟩ := collected_spec Ctx k false M
  have hk : (collected Ctx k false M).TransformationCounter = k := by rw [hfr]; rfl
  have hq : (collected Ctx k false M).QueryInstanceOnly = false := by rw [hfr]; rfl
  have he : (collected Ctx k false M).Edits = [] := by rw [hfr]; rfl
  have ht : (collected Ctx k false M).TmpVarName = [] := by rw [hfr]; rfl
  have hp : (collected Ctx k false M).ParmStrings = [] := by rw [hfr]; rfl
  have hs : (collected Ctx k false M).TheStmt = none := by rw [hfr]; rfl
  have hrun2 : run Ctx k false M
      = Except.ok { collected Ctx k false M with
          ValidInstanceNum := (validCallExprs Ctx (collected Ctx k false M)).length,
          CurrentFD := F, TheCaller := C, TheCallExpr := E,
          TransError := TransformationError.TransMaxInstanceError } := by
    unfold run HandleTranslationUnit
    simp only [hrun, hq, hk, Bool.false_eq_true, if_false]
    rw [if_pos (by simpa using h)]
  exact ⟨_, hrun2, rfl, he, ht, hp, hs, rfl⟩

/-- C2 at `unitAdd`, which has one valid call site, with ordinal 2. -/
theorem C2_ordinal_beyond_total_witness :
    (validCallExprs Example.unitAdd (collected Example.unitAdd 2 false 10)).length < 2 ∧
      ∃ s, run Example.unitAdd 2 false 10 = Except.ok s ∧
        s.TransError = TransformationError.TransMaxInstanceError ∧
        s.Edits = [] ∧ s.TmpVarName = [] ∧ s.ParmStrings = [] ∧ s.TheStmt = none ∧
        s.ValidInstanceNum
          = (validCallExprs Example.unitAdd (collected Example.unitAdd 2 false 10)).length :=
  ⟨by decide, C2_ordinal_beyond_total Example.unitAdd 2 10 (by decide)⟩

/-- C6: a call site with an argument that is a call expression, directly or wrapped
only in parentheses and casts, is not a valid instance whatever the set of
eligible functions, is not among the counted call sites of any run, and is not
the call site that `doAnalysis` selects, whatever the target ordinal. -/
theorem C6_call_argument_never_valid (Ctx : ASTContext) (CE : CallExpr) (Arg : Expr)
    (k : Nat) (q : Bool) (M : Nat)
    (hArg : Arg ∈ CE.args) (hw : wrapsCall Arg = true) :
    (∀ Valid, isValidInstance Ctx Valid CE = false) ∧
      CE ∉ validCallExprs Ctx (collected Ctx k q M) ∧
      ∃ s, doAnalysis Ctx (collected Ctx k q M) = Except.ok s ∧
        s.ValidInstanceNum = (validCallExprs Ctx (collected Ctx k q M)).length ∧
        s.TheCallExpr ≠ some CE := by
  have hinv : ∀ Valid, isValidInstance Ctx Valid CE = false := by
    intro Valid
    have : CE.args.all isValidArgExpr = false := by
      rw [List.all_eq_false]
      exact ⟨Arg, hArg, by simp [isValidArgExpr_false_of_wrapsCall Arg hw]⟩
    simp [isValidInstance, this]
  have hnot : CE ∉ validCallExprs Ctx (collected Ctx k q M) := by
    intro hmem
    unfold validCallExprs at hmem
    rw [List.mem_filter, hinv] at hmem
    exact absurd hmem.2 (by simp)
  obtain ⟨F, C, E, hrun, hsel, hout⟩ := doAnalysis_collected Ctx k q M
  refine ⟨hinv, hnot, _, hrun, rfl, ?_⟩
  intro hE
  simp only at hE
  by_cases hk : 1 ≤ k ∧ k ≤ (validCallExprs Ctx (collected Ctx k q M)).length
  · obtain ⟨h1, _⟩ := hsel hk.1 hk.2
    rw [hE] at h1
    exact hnot (List.getElem?_mem h1.symm)
  · obtain ⟨_, _, h3⟩ := hout (by omega)
    rw [h3] at hE
    cases hE

/-- C6 at `unitNested`, for the call `f(g())` and the ordinal 1. -/
theorem C6_call_argument_never_valid_witness :
    (Example.innerCall.toExpr ∈ Example.outerCall.args ∧
        wrapsCall Example.innerCall.toExpr = true) ∧
      (∀ Valid, isValidInstance Example.unitNested Valid Example.outerCall = false) ∧
      Example.outerCall ∉ validCallExprs Example.unitNested
        (collected Example.unitNested 1 false 10) ∧
      ∃ s, doAnalysis Example.unitNested (collected Example.unitNested 1 false 10)
          = Except.ok s ∧
        s.ValidInstanceNum
          = (validCallExprs Example.unitNested
              (collected Example.unitNested 1 false 10)).length ∧
        s.TheCallExpr ≠ some Example.outerCall :=
  ⟨⟨List.mem_singleton.2 rfl, rfl⟩,
    C6_call_argument_never_valid Example.unitNested Example.outerCall
      Example.innerCall.toExpr 1 false 10 (List.mem_singleton.2 rfl) rfl⟩

/-- The run in query-only mode: it is the run of `doAnalysis`, which changes the
counter and the selection only. -/
theorem run_query_only (Ctx : ASTContext) (k : Nat) (M : Nat) :
    ∃ F C E,
      run Ctx k true M
        = Except.ok { collected Ctx k true M with
            ValidInstanceNum := (validCallExprs Ctx (collected Ctx 0 false M)).length,
            CurrentFD := F, TheCaller := C, TheCallExpr := E } ∧
      doAnalysis Ctx (collected Ctx k true M) = run Ctx k true M := by
  obtain ⟨F, C, E, hrun, _, _⟩ := doAnalysis_collected Ctx k true M
  obtain ⟨⟨A, Mp, N, V, F0, hfr⟩, _, _⟩ := collected_spec Ctx k true M
  have hq : (collected Ctx k true M).QueryInstanceOnly = true := by rw [hfr]; rfl
  have hr : run Ctx k true M = doAnalysis Ctx (collected Ctx k true M) := by
    unfold run HandleTranslationUnit
    simp only [hrun, hq, if_true]
  refine ⟨F, C, E, ?_, hr.symm⟩
  rw [hr, hrun, validCallExprs_collected Ctx k true M]

/-- C10: in query-only mode `HandleTranslationUnit` completes with the result of
`doAnalysis` and nothing more.  `ValidInstanceNum` is then the number of valid call
sites of the collected list; the query run with any other target ordinal ends with
the same number, and so does `doAnalysis` in a normal run.  Apart from that
counter and the selection made by `doAnalysis`, the state is the one left by the
scan of the unit: no request has reached the rewriter, no enclosing statement is
recorded, and no return statement, parameter string or temporary name has been
produced. -/
theorem C10_query_only_counts (Ctx : ASTContext) (k : Nat) (M : Nat) :
    ∃ s, run Ctx k true M = Except.ok s ∧
      doAnalysis Ctx (collected Ctx k true M) = Except.ok s ∧
      s.ValidInstanceNum = (validCallExprs Ctx (collected Ctx k true M)).length ∧
      (∀ k2, ∃ s2, run Ctx k2 true M = Except.ok s2 ∧
        s2.ValidInstanceNum = s.ValidInstanceNum) ∧
      (∃ t, doAnalysis Ctx (collected Ctx k false M) = Except.ok t ∧
        t.ValidInstanceNum = s.ValidInstanceNum) ∧
      (∃ F C E, s = { collected Ctx k true M with
          ValidInstanceNum := s.ValidInstanceNum,
          CurrentFD := F, TheCaller := C, TheCallExpr := E }) ∧
      s.Edits = [] ∧ s.TheStmt = none ∧ s.ReturnStmts = [] ∧ s.ParmStrings = [] ∧
      s.TmpVarName = [] := by
  obtain ⟨F, C, E, hrun, hda⟩ := run_query_only Ctx k M
  obtain ⟨F2, C2, E2, hrun2, _, _⟩ := doAnalysis_collected Ctx k false M
  obtain ⟨⟨A, Mp, N, V, F0, hfr⟩, _, _⟩ := collected_spec Ctx k true M
  refine ⟨_, hrun, hda.trans hrun, ?_, ?_, ⟨_, hrun2, ?_⟩, ⟨F, C, E, rfl⟩, ?_, ?_, ?_, ?_, ?_⟩
  · simp only [validCallExprs_collected Ctx k true M]
  · intro k2
    obtain ⟨F3, C3, E3, hrun3, _⟩ := run_query_only Ctx k2 M
    exact ⟨_, hrun3, rfl⟩
  · simp only [validCallExprs_collected Ctx k false M]
  all_goals (simp only [hfr]; rfl)


/-! ## Temporary variable -/

theorem generateParamStrings_ok (Ctx : ASTContext) (s t : State)
    (h : generateParamStrings Ctx s = Except.ok t) :
    ∃ P, t = { s with ParmStrings := P } := by
  unfold generateParamStrings at h
  split at h
  · cases h
  · split at h
    · cases h
    · cases h
      exact ⟨_, rfl⟩

theorem copyFunctionBody_ok (s t : State) (h : copyFunctionBody s = Except.ok t) :
    ∃ Str, t = { s with Edits :=
      s.Edits ++ [Edit.addStringBeforeStmt s.TheStmt Str s.NeedParen] } := by
  unfold copyFunctionBody at h
  split at h
  · cases h
  · split at h
    · cases h
    · split at h
      · split at h
        · cases h
        · split at h
          · cases h
          · simp only at h
            split at h
            · cases h
            · cases h
              exact ⟨_, rfl⟩
      · cases h

theorem toDigits_ne_nil (n : Nat) : Nat.toDigits 10 n ≠ [] := by
  unfold Nat.toDigits Nat.toDigitsCore
  dsimp only
  split
  · simp
  · intro h
    have := congrArg List.length h
    rw [Nat.toDigitsCore_lens_eq] at this
    simp at this

/-- C8: for every selected instance (callee and call expression set, the name of
the temporary still empty as constructed), `createReturnVar` completes, and it
creates a temporary variable exactly when the callee's return type and the type
of the call expression are not both void.  When it creates one, `TmpVarName` is
the non-empty name that `getNewTmpName` returns and a declaration of the callee's
return type with that name is requested in the caller; when it creates none, the
state is unchanged.  Whenever `replaceCallExpr` completes, its last request
replaces the call expression by `TmpVarName`: the name of the temporary when one
was created, the empty string otherwise. -/
theorem C8_temp_variable_iff_not_both_void (Ctx : ASTContext) (s : State)
    (FD : FunctionDecl) (CE : CallExpr)
    (hFD : s.CurrentFD = some FD) (hCE : s.TheCallExpr = some CE)
    (hT : s.TmpVarName = []) :
    ∃ s1, createReturnVar Ctx s = Except.ok s1 ∧
      (s1.TmpVarName ≠ [] ↔ ¬ (FD.resultType.isVoidType = true ∧ CE.type.isVoidType = true)) ∧
      (s1.TmpVarName ≠ [] →
        s1.TmpVarName = (getNewTmpName Ctx s).1 ∧
        s1.Edits = s.Edits ++ [Edit.addLocalVarToFunc
          (getAsStringInternal FD.resultType s1.TmpVarName ++ [';']) s.TheCaller]) ∧
      (s1.TmpVarName = [] → s1 = s) ∧
      (∀ s3, replaceCallExpr Ctx s = Except.ok s3 →
        ∃ Before, s3.Edits
          = Before ++ [Edit.replaceExprNotInclude (some CE) s1.TmpVarName]) := by
  have hne : Ctx.TmpVarNamePrefix ++ Nat.toDigits 10 s.NamePostfix ≠ [] := by
    intro h
    exact toDigits_ne_nil _ (List.append_eq_nil.1 h).2
  have hrepl : ∀ s1, createReturnVar Ctx s = Except.ok s1 →
      s1.TheCallExpr = some CE →
      ∀ s3, replaceCallExpr Ctx s = Except.ok s3 →
        ∃ Before, s3.Edits
          = Before ++ [Edit.replaceExprNotInclude (some CE) s1.TmpVarName] := by
    intro s1 h1 hce s3 h3
    unfold replaceCallExpr at h3
    rw [h1] at h3
    simp only at h3
    split at h3
    · cases h3
    · rename_i s2 h2
      obtain ⟨P, rfl⟩ := generateParamStrings_ok Ctx s1 s2 h2
      split at h3
      · cases h3
      · rename_i s4 h4
        obtain ⟨Str, rfl⟩ := copyFunctionBody_ok _ s4 h4
        cases h3
        rw [← hce]
        exact ⟨_, rfl⟩
  by_cases hv : FD.resultType.isVoidType = true ∧ CE.type.isVoidType = true
  · have h1 : createReturnVar Ctx s = Except.ok s := by
      unfold createReturnVar
      simp [hFD, hCE, hv.1, hv.2]
    refine ⟨s, h1, ?_, ?_, fun _ => rfl, hrepl s h1 hCE⟩
    · simp [hT, hv]
    · intro h
      exact absurd hT h
  · have h1 : createReturnVar Ctx s
        = Except.ok { s with
            NamePostfix := s.NamePostfix + 1,
            TmpVarName := (getNewTmpName Ctx s).1,
            Edits := s.Edits ++ [Edit.addLocalVarToFunc
              (getAsStringInternal FD.resultType (getNewTmpName Ctx s).1 ++ [';'])
              s.TheCaller] } := by
      unfold createReturnVar
      have : (FD.resultType.isVoidType && CE.type.isVoidType) = false := by
        cases h1 : FD.resultType.isVoidType <;> cases h2 : CE.type.isVoidType <;> simp_all
      simp [hFD, hCE, this, getNewTmpName]
    refine ⟨_, h1, ?_, fun _ => ⟨rfl, rfl⟩, ?_, hrepl _ h1 hCE⟩
    · simp only [getNewTmpName, ne_eq, hne, not_false_eq_true, hv]
    · intro h
      exact absurd h hne

/-- C8 at `unitAdd` with `add(1,2)` selected: the temporary `__trans_tmp_1` is
created and replaces the call. -/
theorem C8_temp_variable_iff_not_both_void_witness :
    ∃ s1, createReturnVar Example.unitAdd
        { State.initial 1 false 10 with
          CurrentFD := some Example.add, TheCaller := some Example.addMain,
          TheCallExpr := some Example.addCall, TheStmt := some Example.addUse,
          NamePostfix := 1 } = Except.ok s1 ∧
      s1.TmpVarName = ['_', '_', 't', 'r', 'a', 'n', 's', '_', 't', 'm', 'p', '_', '1'] ∧
      (s1.TmpVarName ≠ [] ↔
        ¬ (Example.add.resultType.isVoidType = true ∧
            Example.addCall.type.isVoidType = true)) ∧
      ∃ s3 Before, replaceCallExpr Example.unitAdd
          { State.initial 1 false 10 with
            CurrentFD := some Example.add, TheCaller := some Example.addMain,
            TheCallExpr := some Example.addCall, TheStmt := some Example.addUse,
            NamePostfix := 1 } = Except.ok s3 ∧
        s3.Edits = Before ++ [Edit.replaceExprNotInclude (some Example.addCall) s1.TmpVarName] := by
  obtain ⟨s1, h1, h2, h3, _, h5⟩ := C8_temp_variable_iff_not_both_void Example.unitAdd
    { State.initial 1 false 10 with
      CurrentFD := some Example.add, TheCaller := some Example.addMain,
      TheCallExpr := some Example.addCall, TheStmt := some Example.addUse,
      NamePostfix := 1 } Example.add Example.addCall rfl rfl rfl
  have hne : s1.TmpVarName ≠ [] := h2.2 (by decide)
  refine ⟨s1, h1, (h3 hne).1, h2, ?_⟩
  have hrun : ∃ s3, replaceCallExpr Example.unitAdd
      { State.initial 1 false 10 with
        CurrentFD := some Example.add, TheCaller := some Example.addMain,
        TheCallExpr := some Example.addCall, TheStmt := some Example.addUse,
        NamePostfix := 1 } = Except.ok s3 := ⟨_, rfl⟩
  obtain ⟨s3, h3r⟩ := hrun
  obtain ⟨Before, hB⟩ := h5 s3 h3r
  exact ⟨s3, Before, h3r, hB⟩


/-! ## Names -/

theorem digitChar_value (k : Nat) (hk : k < 10) : (Nat.digitChar k).toNat - 48 = k := by
  interval_cases k <;> rfl

theorem digitChar_isDigit (k : Nat) (hk : k < 10) : (Nat.digitChar k).isDigit = true := by
  interval_cases k <;> rfl

theorem toDigitsCore_value :
    ∀ (fuel n : Nat) (ds : List Char), n < fuel →
      (Nat.toDigitsCore 10 fuel n ds).foldl (fun acc c => 10 * acc + (c.toNat - 48)) 0
        = ds.foldl (fun acc c => 10 * acc + (c.toNat - 48)) n
  | 0, n, _, h => absurd h (Nat.not_lt_zero n)
  | fuel + 1, n, ds, h => by
    unfold Nat.toDigitsCore
    dsimp only
    split
    · rename_i h0
      have hn : n < 10 := by omega
      simp only [List.foldl_cons, Nat.mul_zero, Nat.zero_add]
      rw [digitChar_value _ (Nat.mod_lt _ (by decide)), Nat.mod_eq_of_lt hn]
    · rename_i h0
      rw [toDigitsCore_value fuel (n / 10) _ (by omega)]
      simp only [List.foldl_cons]
      rw [digitChar_value _ (Nat.mod_lt _ (by decide))]
      congr 1
      omega

theorem toDigitsCore_isDigit :
    ∀ (fuel n : Nat) (ds : List Char), (∀ c ∈ ds, c.isDigit = true) →
      ∀ c ∈ Nat.toDigitsCore 10 fuel n ds, c.isDigit = true
  | 0, _, ds, h => by simpa [Nat.toDigitsCore] using h
  | fuel + 1, n, ds, h => by
    have hd : ∀ c ∈ Nat.digitChar (n % 10) :: ds, c.isDigit = true := by
      intro c hc
      rcases List.mem_cons.1 hc with rfl | hc
      · exact digitChar_isDigit _ (Nat.mod_lt _ (by decide))
      · exact h c hc
    unfold Nat.toDigitsCore
    dsimp only
    split
    · exact hd
    · exact toDigitsCore_isDigit fuel (n / 10) _ hd

/-- Reading back the decimal form of a number gives the number. -/
theorem parseDecimal_toDigits (n : Nat) : parseDecimal (Nat.toDigits 10 n) = some n := by
  unfold parseDecimal
  have h1 : Nat.toDigits 10 n ≠ [] := toDigits_ne_nil n
  have h2 : (Nat.toDigits 10 n).all Char.isDigit = true := by
    rw [List.all_eq_true]
    exact toDigitsCore_isDigit (n + 1) n [] (by simp)
  rw [if_pos ⟨h1, h2⟩]
  have := toDigitsCore_value (n + 1) n [] (Nat.lt_succ_self n)
  simp only [List.foldl_nil] at this
  exact congrArg some this

theorem toDigits_injective {a b : Nat} (h : Nat.toDigits 10 a = Nat.toDigits 10 b) : a = b := by
  have := parseDecimal_toDigits a
  rw [h, parseDecimal_toDigits] at this
  exact (Option.some.inj this).symm

theorem numericSuffix_tmpName (P : Text) (n : Nat) :
    numericSuffix P (P ++ Nat.toDigits 10 n) = some n := by
  unfold numericSuffix
  have hp : P.isPrefixOf (P ++ Nat.toDigits 10 n) = true := by
    rw [List.isPrefixOf_iff_prefix]
    exact List.prefix_append _ _
  rw [if_pos hp, List.drop_left]
  exact parseDecimal_toDigits n

theorem le_foldl_max (l : List Nat) : ∀ (m x : Nat), x = m ∨ x ∈ l → x ≤ l.foldl max m := by
  induction l with
  | nil =>
    intro m x h
    rcases h with rfl | h
    · exact Nat.le_refl _
    · cases h
  | cons a rest ih =>
    intro m x h
    simp only [List.foldl_cons]
    rcases h with rfl | h
    · exact Nat.le_trans (Nat.le_max_left _ a) (ih _ _ (Or.inl rfl))
    · rcases List.mem_cons.1 h with rfl | h
      · exact Nat.le_trans (Nat.le_max_right m _) (ih _ _ (Or.inl rfl))
      · exact ih _ _ (Or.inr h)

/-- Every numeric suffix of an identifier of the unit is at most `getMaxNamePostfix`. -/
theorem numericSuffix_le_getMaxNamePostfix (Ctx : ASTContext) (Name : Text) (n : Nat)
    (hName : Name ∈ Ctx.Identifiers)
    (hn : numericSuffix Ctx.TmpVarNamePrefix Name = some n) :
    n ≤ getMaxNamePostfix Ctx := by
  unfold getMaxNamePostfix
  exact le_foldl_max _ 0 n (Or.inr (List.mem_filterMap.2 ⟨Name, hName, hn⟩))

theorem successiveTmpNames_mem (Ctx : ASTContext) :
    ∀ (n : Nat) (s : State) (x : Text), x ∈ successiveTmpNames Ctx n s →
      ∃ i, i < n ∧ x = Ctx.TmpVarNamePrefix ++ Nat.toDigits 10 (s.NamePostfix + i)
  | 0, _, _, h => by cases h
  | n + 1, s, x, h => by
    simp only [successiveTmpNames, List.mem_cons] at h
    rcases h with rfl | h
    · exact ⟨0, Nat.succ_pos n, rfl⟩
    · obtain ⟨i, hi, hx⟩ := successiveTmpNames_mem Ctx n _ x h
      refine ⟨i + 1, Nat.succ_lt_succ hi, ?_⟩
      rw [hx]
      simp only [getNewTmpName]
      congr 2
      omega

theorem successiveTmpNames_nodup (Ctx : ASTContext) :
    ∀ (n : Nat) (s : State), (successiveTmpNames Ctx n s).Nodup
  | 0, _ => List.nodup_nil
  | n + 1, s => by
    simp only [successiveTmpNames, List.nodup_cons]
    refine ⟨?_, successiveTmpNames_nodup Ctx n _⟩
    intro h
    obtain ⟨i, _, hx⟩ := successiveTmpNames_mem Ctx n _ _ h
    simp only [getNewTmpName] at hx
    have := toDigits_injective (List.append_cancel_left hx)
    omega

/-- C9: when `NamePostfix` is initialised to `m + 1`, where `m` is at least every
numeric suffix carried by an identifier of the unit after the reserved prefix (as
the maximum of these suffixes is), the name returned by `getNewTmpName` is the
prefix followed by `m + 1` in decimal, it differs from every identifier of the
unit, and so does every name returned by further calls; the names returned by
successive calls are pairwise distinct. -/
theorem C9_tmp_names_fresh (Ctx : ASTContext) (s : State) (n m : Nat)
    (hmax : ∀ Name ∈ Ctx.Identifiers, ∀ v,
      numericSuffix Ctx.TmpVarNamePrefix Name = some v → v ≤ m)
    (h : s.NamePostfix = m + 1) :
    (getNewTmpName Ctx s).1 = Ctx.TmpVarNamePrefix ++ Nat.toDigits 10 (m + 1) ∧
      (getNewTmpName Ctx s).1 ∉ Ctx.Identifiers ∧
      (∀ x ∈ successiveTmpNames Ctx n s, x ∉ Ctx.Identifiers) ∧
      (successiveTmpNames Ctx n s).Nodup := by
  have key : ∀ i, Ctx.TmpVarNamePrefix ++ Nat.toDigits 10 (s.NamePostfix + i)
      ∉ Ctx.Identifiers := by
    intro i hmem
    have := hmax _ hmem _ (numericSuffix_tmpName _ _)
    omega
  refine ⟨by simp [getNewTmpName, h], key 0, ?_, successiveTmpNames_nodup Ctx n s⟩
  intro x hx
  obtain ⟨i, _, rfl⟩ := successiveTmpNames_mem Ctx n s x hx
  exact key i

/-- C9 at `unitTmp`, whose largest numeric suffix is 4, with `NamePostfix` set as
`HandleTranslationUnit` sets it: two successive calls return `__trans_tmp_5` and
`__trans_tmp_6`. -/
theorem C9_tmp_names_fresh_witness :
    (getMaxNamePostfix Example.unitTmp = 4 ∧
      ({ State.initial 1 false 10 with
          NamePostfix := getMaxNamePostfix Example.unitTmp + 1 } : State).NamePostfix
        = 4 + 1) ∧
      successiveTmpNames Example.unitTmp 2
          { State.initial 1 false 10 with
            NamePostfix := getMaxNamePostfix Example.unitTmp + 1 }
        = [['_', '_', 't', 'r', 'a', 'n', 's', '_', 't', 'm', 'p', '_', '5'],
           ['_', '_', 't', 'r', 'a', 'n', 's', '_', 't', 'm', 'p', '_', '6']] ∧
      (getNewTmpName Example.unitTmp
          { State.initial 1 false 10 with
            NamePostfix := getMaxNamePostfix Example.unitTmp + 1 }).1
        ∉ Example.unitTmp.Identifiers ∧
      (∀ x ∈ successiveTmpNames Example.unitTmp 2
          { State.initial 1 false 10 with
            NamePostfix := getMaxNamePostfix Example.unitTmp + 1 },
        x ∉ Example.unitTmp.Identifiers) ∧
      (successiveTmpNames Example.unitTmp 2
        { State.initial 1 false 10 with
          NamePostfix := getMaxNamePostfix Example.unitTmp + 1 }).Nodup :=
  ⟨⟨by decide, by decide⟩, by decide,
    (C9_tmp_names_fresh Example.unitTmp
      { State.initial 1 false 10 with
        NamePostfix := getMaxNamePostfix Example.unitTmp + 1 } 2 4
      (fun Name hName v hv =>
        (by decide : getMaxNamePostfix Example.unitTmp = 4) ▸
          numericSuffix_le_getMaxNamePostfix Example.unitTmp Name v hName hv)
      (by decide)).2⟩


/-! ## Sorting of the return statements -/

theorem insertReturnStmt_eq (L : List (ReturnStmt × Int)) (RS : ReturnStmt) (Off : Int) :
    insertReturnStmt L RS Off = insertBeforeLarger RS Off L := by
  cases L with
  | nil => rfl
  | cons I rest => rfl

theorem insertBeforeLarger_perm (RS : ReturnStmt) (Off : Int) :
    ∀ L : List (ReturnStmt × Int), (insertBeforeLarger RS Off L).Perm (L ++ [(RS, Off)])
  | [] => List.Perm.refl _
  | I :: rest => by
    unfold insertBeforeLarger
    split
    · exact @List.perm_append_comm _ [(RS, Off)] (I :: rest)
    · exact List.Perm.cons I (insertBeforeLarger_perm RS Off rest)

theorem insertBeforeLarger_sorted (RS : ReturnStmt) (Off : Int) :
    ∀ L : List (ReturnStmt × Int), L.Pairwise (fun a b => a.2 ≤ b.2) →
      (insertBeforeLarger RS Off L).Pairwise (fun a b => a.2 ≤ b.2)
  | [], _ => List.pairwise_singleton _ _
  | I :: rest, h => by
    unfold insertBeforeLarger
    rw [List.pairwise_cons] at h
    split
    · rename_i hlt
      refine List.pairwise_cons.2 ⟨?_, List.pairwise_cons.2 h⟩
      intro b hb
      rcases List.mem_cons.1 hb with rfl | hb
      · exact Int.le_of_lt hlt
      · exact Int.le_trans (Int.le_of_lt hlt) (h.1 b hb)
    · rename_i hge
      refine List.pairwise_cons.2 ⟨?_, insertBeforeLarger_sorted RS Off rest h.2⟩
      intro b hb
      have hb2 := (insertBeforeLarger_perm RS Off rest).mem_iff.1 hb
      rcases List.mem_append.1 hb2 with hb3 | hb3
      · exact h.1 b hb3
      · rw [List.mem_singleton.1 hb3]
        exact Int.not_lt.1 hge

theorem insertBeforeLarger_filter (RS : ReturnStmt) (Off : Int) (v : Int) :
    ∀ L : List (ReturnStmt × Int), L.Pairwise (fun a b => a.2 ≤ b.2) →
      (insertBeforeLarger RS Off L).filter (fun p => p.2 == v)
        = L.filter (fun p => p.2 == v) ++ [(RS, Off)].filter (fun p => p.2 == v)
  | [], _ => by simp [insertBeforeLarger]
  | I :: rest, h => by
    unfold insertBeforeLarger
    rw [List.pairwise_cons] at h
    split
    · rename_i hlt
      by_cases hv : Off = v
      · subst hv
        have hnone : (I :: rest).filter (fun p => p.2 == Off) = [] := by
          rw [List.filter_eq_nil_iff]
          intro b hb
          rcases List.mem_cons.1 hb with rfl | hb
          · simp; omega
          · have := h.1 b hb
            simp; omega
        rw [hnone]
        simp [List.filter_cons, hnone]
      · have : ((RS, Off).2 == v) = false := by simpa using hv
        simp [List.filter_cons, this]
    · rw [List.filter_cons, insertBeforeLarger_filter RS Off v rest h.2]
      by_cases hI : (I.2 == v) = true
      · simp [List.filter_cons, hI]
      · simp [List.filter_cons, hI]

/-- The loop of `sortReturnStmtsByOffs` started with a sorted vector. -/
theorem sortReturnStmtsByOffs_spec (StartBuf : Nat) :
    ∀ (RS : List ReturnStmt) (Acc : List (ReturnStmt × Int)),
      (∀ r ∈ RS, StartBuf ≤ r.loc) → Acc.Pairwise (fun a b => a.2 ≤ b.2) →
      ∃ Sorted, sortReturnStmtsByOffs StartBuf RS Acc = Except.ok Sorted ∧
        Sorted.Perm (Acc ++ RS.map (fun r => (r, (r.loc : Int) - (StartBuf : Int)))) ∧
        Sorted.Pairwise (fun a b => a.2 ≤ b.2) ∧
        ∀ v : Int, Sorted.filter (fun p => p.2 == v)
          = Acc.filter (fun p => p.2 == v)
            ++ (RS.map (fun r => (r, (r.loc : Int) - (StartBuf : Int)))).filter
                (fun p => p.2 == v)
  | [], Acc, _, hs => ⟨Acc, rfl, by simp, hs, by simp⟩
  | r :: rest, Acc, hpos, hs => by
    have hr : ¬ ((r.loc : Int) - (StartBuf : Int) < 0) := by
      have := hpos r (List.mem_cons_self _ _)
      omega
    obtain ⟨Sorted, h1, h2, h3, h4⟩ := sortReturnStmtsByOffs_spec StartBuf rest
      (insertBeforeLarger r ((r.loc : Int) - (StartBuf : Int)) Acc)
      (fun x hx => hpos x (List.mem_cons_of_mem _ hx))
      (insertBeforeLarger_sorted _ _ Acc hs)
    refine ⟨Sorted, ?_, ?_, h3, ?_⟩
    · unfold sortReturnStmtsByOffs
      simp only [hr, if_false, insertReturnStmt_eq]
      exact h1
    · refine h2.trans ?_
      simp only [List.map_cons]
      refine ((insertBeforeLarger_perm _ _ Acc).append_right _).trans ?_
      simp
    · intro v
      rw [h4 v, insertBeforeLarger_filter _ _ v Acc hs]
      by_cases hv : (r.loc : Int) - (StartBuf : Int) = v
      · simp [List.filter_cons, hv]
      · simp [List.filter_cons, hv]

/-- C14: for every list of return statements whose offsets from the start of the
body are non-negative, `sortReturnStmtsByOffs` completes and produces a vector that
is a permutation of the input (each statement paired with its offset, same
length), is sorted in ascending order of offset, and keeps statements of equal
offset in their original relative order. -/
theorem C14_sort_is_stable_sorted_permutation (StartBuf : Nat) (RS : List ReturnStmt)
    (h : ∀ r ∈ RS, StartBuf ≤ r.loc) :
    ∃ Sorted, sortReturnStmtsByOffs StartBuf RS [] = Except.ok Sorted ∧
      Sorted.Perm (RS.map (fun r => (r, (r.loc : Int) - (StartBuf : Int)))) ∧
      Sorted.length = RS.length ∧
      Sorted.Pairwise (fun a b => a.2 ≤ b.2) ∧
      ∀ v : Int, Sorted.filter (fun p => p.2 == v)
        = (RS.map (fun r => (r, (r.loc : Int) - (StartBuf : Int)))).filter
            (fun p => p.2 == v) := by
  obtain ⟨Sorted, h1, h2, h3, h4⟩ :=
    sortReturnStmtsByOffs_spec StartBuf RS [] h List.Pairwise.nil
  refine ⟨Sorted, h1, by simpa using h2, ?_, h3, ?_⟩
  · have := h2.length_eq
    simpa using this
  · intro v
    simpa using h4 v

/-- The hypothesis of C14 holds for three statements at offsets 15, 6 and 15 of a
body that starts at 21. -/
theorem C14_sort_is_stable_sorted_permutation_witness :
    ∃ Sorted, sortReturnStmtsByOffs 21
        [⟨36, none, Example.int⟩, ⟨27, none, Example.int⟩,
         ⟨36, some (Expr.IntegerLiteral 1), Example.int⟩] [] = Except.ok Sorted ∧
      Sorted.Perm
        (([⟨36, none, Example.int⟩, ⟨27, none, Example.int⟩,
           ⟨36, some (Expr.IntegerLiteral 1), Example.int⟩] : List ReturnStmt).map
          (fun r => (r, (r.loc : Int) - ((21 : Nat) : Int)))) ∧
      Sorted.length
        = ([⟨36, none, Example.int⟩, ⟨27, none, Example.int⟩,
            ⟨36, some (Expr.IntegerLiteral 1), Example.int⟩] : List ReturnStmt).length ∧
      Sorted.Pairwise (fun a b => a.2 ≤ b.2) ∧
      ∀ v : Int, Sorted.filter (fun p => p.2 == v)
        = (([⟨36, none, Example.int⟩, ⟨27, none, Example.int⟩,
             ⟨36, some (Expr.IntegerLiteral 1), Example.int⟩] : List ReturnStmt).map
            (fun r => (r, (r.loc : Int) - ((21 : Nat) : Int)))).filter (fun p => p.2 == v) :=
  C14_sort_is_stable_sorted_permutation 21
    [⟨36, none, Example.int⟩, ⟨27, none, Example.int⟩,
     ⟨36, some (Expr.IntegerLiteral 1), Example.int⟩] (by decide)


/-! ## Rewriting of the body text -/

theorem stringInsert_at_end (X Rest S : Text) :
    stringInsert (X ++ Rest) (X.length : Int) S = Except.ok (X ++ S ++ Rest) := by
  unfold stringInsert
  have h : ¬ (((X.length : Int) < 0) ∨ (((X ++ Rest).length : Int) < (X.length : Int))) := by
    simp only [List.length_append]
    omega
  simp only [h, if_false, Int.toNat_ofNat, List.take_left, List.drop_left,
    List.append_assoc]

theorem insertParmStrings_spec :
    ∀ (P : List Text) (X Rest : Text),
      insertParmStrings P (X ++ Rest) (X.length : Int)
        = Except.ok (X ++ P.flatten ++ Rest, (X.length : Int) + (P.flatten.length : Int))
  | [], X, Rest => by simp [insertParmStrings]
  | PStr :: rest, X, Rest => by
    unfold insertParmStrings
    rw [stringInsert_at_end]
    have h := insertParmStrings_spec rest (X ++ PStr) Rest
    simp only [List.length_append, Nat.cast_add] at h
    simp only [h]
    simp [List.flatten, add_assoc]

theorem rewriteReturnStmts_eq_applyEdits (T : Text) :
    ∀ (L : List (ReturnStmt × Int)) (Str : Text) (Delta : Int),
      rewriteReturnStmts T L Str Delta = applyEdits (returnEdits T L Delta) Str
  | [], Str, Delta => rfl
  | I :: rest, Str, Delta => by
    unfold rewriteReturnStmts returnEdits applyEdits
    by_cases hc : (I.1.retValue.isSome && !I.1.valueType.isVoidType) = true
    · simp only [hc, if_true, returnReplacement]
      cases stringReplace Str (I.2 + Delta) 6 T with
      | error e => rfl
      | ok Str1 => exact rewriteReturnStmts_eq_applyEdits T rest Str1 _
    · simp only [hc, if_false, returnReplacement, Bool.false_eq_true]
      cases stringReplace Str (I.2 + Delta) 6 [] with
      | error e => rfl
      | ok Str1 =>
        have := rewriteReturnStmts_eq_applyEdits T rest Str1 (Delta - 6)
        simpa [sub_eq_add_neg] using this

theorem returnEdits_length (T : Text) :
    ∀ (L : List (ReturnStmt × Int)) (Delta : Int), (returnEdits T L Delta).length = L.length
  | [], _ => rfl
  | I :: rest, Delta => by
    simp [returnEdits, returnEdits_length T rest]

theorem returnEdits_stmts (T : Text) :
    ∀ (L : List (ReturnStmt × Int)) (Delta : Int),
      (returnEdits T L Delta).map (fun E => E.1) = L.map (fun I => I.1)
  | [], _ => rfl
  | I :: rest, Delta => by
    simp [returnEdits, returnEdits_stmts T rest]


theorem stringReplace_splice (X Body S : Text) (c o : Nat) (Delta : Int)
    (hX : (X.length : Int) = (c : Int) + Delta) (hco : c ≤ o) (hon : o + 6 ≤ Body.length) :
    stringReplace (X ++ Body.drop c) ((o : Int) + Delta) 6 S
      = Except.ok ((X ++ (Body.drop c).take (o - c) ++ S) ++ Body.drop (o + 6)) := by
  unfold stringReplace
  have hpos : (o : Int) + Delta = ((X.length + (o - c) : Nat) : Int) := by
    push_cast
    omega
  have h : ¬ (((o : Int) + Delta < 0) ∨
      (((X ++ Body.drop c).length : Int) < (o : Int) + Delta)) := by
    rw [hpos]
    simp only [List.length_append, List.length_drop]
    omega
  simp only [h, if_false]
  rw [hpos, Int.toNat_ofNat]
  have h1 : (X ++ Body.drop c).take (X.length + (o - c)) = X ++ (Body.drop c).take (o - c) := by
    rw [List.take_append]
  have h2 : (X ++ Body.drop c).drop (X.length + (o - c) + 6) = Body.drop (o + 6) := by
    rw [show X.length + (o - c) + 6 = X.length + (o - c + 6) by omega, List.drop_append,
      List.drop_drop]
    congr 1
    omega
  rw [h1, h2]

/-- The running-delta loop on the text that has the copied prefix `X` in front of
the original text from `From` on. -/
theorem rewriteReturnStmts_splice (T Body : Text) :
    ∀ (A : List (ReturnStmt × Nat)) (c : Nat) (X : Text) (Delta : Int),
      (X.length : Int) = (c : Int) + Delta → Spaced Body.length c A →
      rewriteReturnStmts T (A.map (fun I => (I.1, (I.2 : Int)))) (X ++ Body.drop c) Delta
        = Except.ok (X ++ spliceReturns T Body A c)
  | [], c, X, Delta, _, _ => by simp [rewriteReturnStmts, spliceReturns]
  | I :: rest, c, X, Delta, hX, hsp => by
    obtain ⟨hco, hon, hrest⟩ := hsp
    simp only [List.map_cons]
    unfold rewriteReturnStmts
    by_cases hc : (I.1.retValue.isSome && !I.1.valueType.isVoidType) = true
    · simp only [hc, if_true]
      rw [stringReplace_splice X Body T c I.2 Delta hX hco hon]
      simp only
      rw [rewriteReturnStmts_splice T Body rest (I.2 + 6) _ _ ?_ hrest]
      · simp [spliceReturns, returnReplacement, hc]
      · simp only [List.length_append, List.length_take, List.length_drop]
        push_cast
        omega
    · simp only [hc, if_false, Bool.false_eq_true]
      rw [stringReplace_splice X Body [] c I.2 Delta hX hco hon]
      simp only
      rw [rewriteReturnStmts_splice T Body rest (I.2 + 6) _ _ ?_ hrest]
      · simp [spliceReturns, returnReplacement, hc]
      · simp only [List.length_append, List.length_take, List.length_drop, List.length_nil]
        push_cast
        omega

/-- The edits of the reference, applied from the last statement to the first. -/
theorem foldr_applyReturnEdit_splice (T Body : Text) :
    ∀ (A : List (ReturnStmt × Nat)) (c : Nat), Spaced Body.length c A →
      A.foldr (fun I Str => applyReturnEdit T Str I) Body
        = Body.take c ++ spliceReturns T Body A c
  | [], c, _ => by simp [spliceReturns]
  | I :: rest, c, hsp => by
    obtain ⟨hco, hon, hrest⟩ := hsp
    simp only [List.foldr_cons]
    rw [foldr_applyReturnEdit_splice T Body rest (I.2 + 6) hrest]
    unfold applyReturnEdit
    have hlen : (Body.take (I.2 + 6)).length = I.2 + 6 := by
      rw [List.length_take]; omega
    have h1 : (Body.take (I.2 + 6) ++ spliceReturns T Body rest (I.2 + 6)).take I.2
        = Body.take I.2 := by
      rw [List.take_append_of_le_length (by omega), List.take_take]
      congr 1
      omega
    have h2 : (Body.take (I.2 + 6) ++ spliceReturns T Body rest (I.2 + 6)).drop (I.2 + 6)
        = spliceReturns T Body rest (I.2 + 6) := by
      exact List.drop_left' hlen
    rw [h1, h2]
    have h3 : Body.take I.2 = Body.take c ++ (Body.drop c).take (I.2 - c) := by
      have := List.take_add Body c (I.2 - c)
      rw [show c + (I.2 - c) = I.2 by omega] at this
      exact this
    rw [h3]
    simp [spliceReturns]


theorem keyword_getElem (Body : Text) (o : Nat)
    (h : (Body.drop o).take 6 = ['r', 'e', 't', 'u', 'r', 'n']) (k : Nat) (hk : k < 6) :
    Body[o + k]? = ['r', 'e', 't', 'u', 'r', 'n'][k]? := by
  have h1 := congrArg (fun L => L[k]?) h
  simp only [List.getElem?_take, hk, if_true, List.getElem?_drop] at h1
  exact h1

theorem keyword_inside (Body : Text) (o : Nat)
    (h : (Body.drop o).take 6 = ['r', 'e', 't', 'u', 'r', 'n']) : o + 6 ≤ Body.length := by
  have h1 := congrArg List.length h
  simp only [List.length_take, List.length_drop, List.length_cons, List.length_nil] at h1
  omega

theorem keyword_apart (Body : Text) (o o2 : Nat)
    (h : (Body.drop o).take 6 = ['r', 'e', 't', 'u', 'r', 'n'])
    (h2 : (Body.drop o2).take 6 = ['r', 'e', 't', 'u', 'r', 'n']) (hlt : o < o2) :
    o + 6 ≤ o2 := by
  by_contra hcon
  have a0 := keyword_getElem Body o2 h2 0 (by decide)
  have a1 := keyword_getElem Body o2 h2 1 (by decide)
  have hd : o2 = o + 1 ∨ o2 = o + 2 ∨ o2 = o + 3 ∨ o2 = o + 4 ∨ o2 = o + 5 := by omega
  rcases hd with hd | hd | hd | hd | hd
  · have b := keyword_getElem Body o h 1 (by decide)
    rw [hd] at a0
    rw [Nat.add_zero] at a0
    rw [a0] at b
    exact absurd b (by decide)
  · have b := keyword_getElem Body o h 2 (by decide)
    rw [hd] at a0
    rw [Nat.add_zero] at a0
    rw [a0] at b
    exact absurd b (by decide)
  · have b := keyword_getElem Body o h 3 (by decide)
    rw [hd] at a0
    rw [Nat.add_zero] at a0
    rw [a0] at b
    exact absurd b (by decide)
  · have b := keyword_getElem Body o h 5 (by decide)
    rw [hd] at a1
    rw [show o + 4 + 1 = o + 5 by omega] at a1
    rw [a1] at b
    exact absurd b (by decide)
  · have b := keyword_getElem Body o h 5 (by decide)
    rw [hd] at a0
    rw [Nat.add_zero] at a0
    rw [a0] at b
    exact absurd b (by decide)

theorem spaced_of_sorted (Body : Text) :
    ∀ (A : List (ReturnStmt × Nat)) (c : Nat),
      A.Pairwise (fun a b => a.2 < b.2) →
      (∀ I ∈ A, c ≤ I.2 ∧ (Body.drop I.2).take 6 = ['r', 'e', 't', 'u', 'r', 'n']) →
      Spaced Body.length c A
  | [], _, _, _ => trivial
  | I :: rest, c, hs, hk => by
    rw [List.pairwise_cons] at hs
    have hI := hk I (List.mem_cons_self _ _)
    refine ⟨hI.1, keyword_inside Body I.2 hI.2, ?_⟩
    refine spaced_of_sorted Body rest (I.2 + 6) hs.2 ?_
    intro J hJ
    have hJ2 := hk J (List.mem_cons_of_mem _ hJ)
    exact ⟨keyword_apart Body I.2 J.2 hI.2 hJ2.2 (hs.1 J hJ), hJ2.2⟩

theorem strict_of_sorted_nodup (A : List (ReturnStmt × Nat))
    (hs : A.Pairwise (fun a b => a.2 ≤ b.2)) (hn : (A.map (fun I => I.2)).Nodup) :
    A.Pairwise (fun a b => a.2 < b.2) := by
  have hne : A.Pairwise (fun a b => a.2 ≠ b.2) := by
    have := hn
    unfold List.Nodup at this
    rw [List.pairwise_map] at this
    exact this
  exact (hs.and hne).imp (fun h => lt_of_le_of_ne h.1 h.2)

/-- With distinct offsets the descending order of the reference is the reverse of
the ascending order. -/
theorem highToLow_eq_reverse (Returns A : List (ReturnStmt × Nat))
    (hp : A.Perm Returns) (hs : A.Pairwise (fun a b => a.2 ≤ b.2))
    (hn : (Returns.map (fun I => I.2)).Nodup) :
    Returns.insertionSort (fun a b => b.2 ≤ a.2) = A.reverse := by
  haveI : IsTotal (ReturnStmt × Nat) (fun a b => b.2 ≤ a.2) := ⟨fun a b => Nat.le_total _ _⟩
  haveI : IsTrans (ReturnStmt × Nat) (fun a b => b.2 ≤ a.2) :=
    ⟨fun a b c hab hbc => Nat.le_trans hbc hab⟩
  haveI : IsAntisymm (ReturnStmt × Nat) (fun a b => b.2 < a.2) :=
    ⟨fun a b hab hba => absurd hab (Nat.lt_asymm hba)⟩
  have hnA : (A.map (fun I => I.2)).Nodup := (hp.map _).nodup_iff.2 hn
  have hA : A.Pairwise (fun a b => a.2 < b.2) := strict_of_sorted_nodup A hs hnA
  have hAr : A.reverse.Pairwise (fun a b => b.2 < a.2) := List.pairwise_reverse.2 hA
  have hD : (Returns.insertionSort (fun a b => b.2 ≤ a.2)).Pairwise (fun a b => b.2 ≤ a.2) :=
    List.sorted_insertionSort (fun a b : ReturnStmt × Nat => b.2 ≤ a.2) Returns
  have hpD : (Returns.insertionSort (fun a b => b.2 ≤ a.2)).Perm Returns :=
    List.perm_insertionSort _ _
  have hnD : ((Returns.insertionSort (fun a b => b.2 ≤ a.2)).map (fun I => I.2)).Nodup :=
    (hpD.map _).nodup_iff.2 hn
  have hD2 : (Returns.insertionSort (fun a b => b.2 ≤ a.2)).Pairwise (fun a b => b.2 < a.2) := by
    have hne : (Returns.insertionSort (fun a b => b.2 ≤ a.2)).Pairwise
        (fun a b => a.2 ≠ b.2) := by
      have := hnD
      unfold List.Nodup at this
      rw [List.pairwise_map] at this
      exact this
    exact (hD.and hne).imp (fun h => lt_of_le_of_ne h.1 (Ne.symm h.2))
  exact List.eq_of_perm_of_sorted (hpD.trans (hp.symm.trans (List.reverse_perm A).symm)) hD2 hAr


/-- The text built by `copyFunctionBody` when the return statements are at distinct
offsets, each at a `return` keyword inside the body: the opening brace, the
parameter strings, then the original text with the keywords replaced. -/
theorem copyFunctionBody_splice (s : State) (FD : FunctionDecl) (Rest : Text)
    (hFD : s.CurrentFD = some FD) (hbody : FD.body.isSome = true)
    (htext : FD.bodyText = '{' :: Rest)
    (hdistinct : (s.ReturnStmts.map (fun r => r.loc - FD.bodyLoc)).Nodup)
    (hkw : ∀ r ∈ s.ReturnStmts, FD.bodyLoc + 1 ≤ r.loc ∧
      (FD.bodyText.drop (r.loc - FD.bodyLoc)).take 6 = ['r', 'e', 't', 'u', 'r', 'n']) :
    ∃ A : List (ReturnStmt × Nat),
      A.Perm (s.ReturnStmts.map (fun r => (r, r.loc - FD.bodyLoc))) ∧
      A.Pairwise (fun a b => a.2 ≤ b.2) ∧
      Spaced FD.bodyText.length 1 A ∧
      sortReturnStmtsByOffs FD.bodyLoc s.ReturnStmts []
        = Except.ok (A.map (fun I => (I.1, (I.2 : Int)))) ∧
      insertParmStrings s.ParmStrings FD.bodyText 1
        = Except.ok ('{' :: (s.ParmStrings.flatten ++ Rest),
            1 + (s.ParmStrings.flatten.length : Int)) ∧
      rewriteReturnStmts (s.TmpVarName ++ [' ', '=', ' ']) (A.map (fun I => (I.1, (I.2 : Int))))
          ('{' :: (s.ParmStrings.flatten ++ Rest))
          (1 + (s.ParmStrings.flatten.length : Int) - 1)
        = Except.ok ('{' :: (s.ParmStrings.flatten
            ++ spliceReturns (s.TmpVarName ++ [' ', '=', ' ']) FD.bodyText A 1)) ∧
      copyFunctionBody s = Except.ok { s with Edits :=
        s.Edits ++ [Edit.addStringBeforeStmt s.TheStmt
          ('{' :: (s.ParmStrings.flatten
            ++ spliceReturns (s.TmpVarName ++ [' ', '=', ' ']) FD.bodyText A 1))
          s.NeedParen] } := by
  obtain ⟨Sorted, h1, h2, h3, _⟩ := sortReturnStmtsByOffs_spec FD.bodyLoc s.ReturnStmts []
    (fun r hr => by have := (hkw r hr).1; omega) List.Pairwise.nil
  simp only [List.nil_append] at h2
  have hmem : ∀ I ∈ Sorted, ∃ r ∈ s.ReturnStmts, I = (r, (r.loc : Int) - (FD.bodyLoc : Int)) := by
    intro I hI
    have := h2.mem_iff.1 hI
    obtain ⟨r, hr, hrI⟩ := List.mem_map.1 this
    exact ⟨r, hr, hrI.symm⟩
  have hcast : (Sorted.map (fun I => (I.1, I.2.toNat))).map (fun I => (I.1, (I.2 : Int)))
      = Sorted := by
    rw [List.map_map]
    conv_rhs => rw [← List.map_id Sorted]
    apply List.map_congr_left
    intro I hI
    obtain ⟨r, hr, rfl⟩ := hmem I hI
    have := (hkw r hr).1
    simp only [Function.comp, id]
    congr 1
    omega
  have hperm : (Sorted.map (fun I => (I.1, I.2.toNat))).Perm
      (s.ReturnStmts.map (fun r => (r, r.loc - FD.bodyLoc))) := by
    have := h2.map (fun I : ReturnStmt × Int => (I.1, I.2.toNat))
    rw [List.map_map] at this
    refine this.trans (List.Perm.of_eq ?_)
    apply List.map_congr_left
    intro r _
    simp only [Function.comp]
    congr 1
    omega
  have hsorted : (Sorted.map (fun I => (I.1, I.2.toNat))).Pairwise (fun a b => a.2 ≤ b.2) := by
    rw [List.pairwise_map]
    exact h3.imp (fun h => Int.toNat_le_toNat h)
  have hnodup : ((Sorted.map (fun I => (I.1, I.2.toNat))).map (fun I => I.2)).Nodup := by
    refine (hperm.map _).nodup_iff.2 ?_
    simpa [List.map_map, Function.comp] using hdistinct
  have hstrict := strict_of_sorted_nodup _ hsorted hnodup
  have hspaced : Spaced FD.bodyText.length 1 (Sorted.map (fun I => (I.1, I.2.toNat))) := by
    refine spaced_of_sorted FD.bodyText _ 1 hstrict ?_
    intro I hI
    have := hperm.mem_iff.1 hI
    obtain ⟨r, hr, rfl⟩ := List.mem_map.1 this
    have := hkw r hr
    exact ⟨by simp only; omega, this.2⟩
  obtain ⟨B, hB⟩ := Option.isSome_iff_exists.1 hbody
  have hins : insertParmStrings s.ParmStrings ('{' :: Rest) 1
      = Except.ok ('{' :: (s.ParmStrings.flatten ++ Rest),
          1 + (s.ParmStrings.flatten.length : Int)) := by
    have := insertParmStrings_spec s.ParmStrings ['{'] Rest
    simpa using this
  have hrw : rewriteReturnStmts (s.TmpVarName ++ [' ', '=', ' ']) Sorted
      ('{' :: (s.ParmStrings.flatten ++ Rest))
      (1 + (s.ParmStrings.flatten.length : Int) - 1)
      = Except.ok ('{' :: (s.ParmStrings.flatten
          ++ spliceReturns (s.TmpVarName ++ [' ', '=', ' ']) FD.bodyText
              (Sorted.map (fun I => (I.1, I.2.toNat))) 1)) := by
    have := rewriteReturnStmts_splice (s.TmpVarName ++ [' ', '=', ' ']) FD.bodyText
      (Sorted.map (fun I => (I.1, I.2.toNat))) 1 ('{' :: s.ParmStrings.flatten)
      (1 + (s.ParmStrings.flatten.length : Int) - 1)
      (by simp only [List.length_cons]; push_cast; omega) hspaced
    rw [hcast, htext] at this
    simpa [htext] using this
  refine ⟨_, hperm, hsorted, hspaced, by rw [hcast]; exact h1, by rw [htext]; exact hins,
    by rw [hcast]; exact hrw, ?_⟩
  unfold copyFunctionBody
  simp only [hFD, hB, htext, h1, hins, hrw]


/-! ## Return statements collected by the function visitor -/

theorem FunctionVisitor_VisitExpr_returns (E : Expr) (s : State) :
    (FunctionVisitor.VisitExpr E s).ReturnStmts = s.ReturnStmts := by
  cases E <;> simp only [FunctionVisitor.VisitExpr]
  simp only [FunctionVisitor.VisitDeclRefExpr]
  split <;> rfl

theorem FunctionVisitor_TraverseExpr_returns (E : Expr) (s : State) :
    (TraverseExpr FunctionVisitor.VisitExpr E s).ReturnStmts = s.ReturnStmts :=
  TraverseExpr_rel (fun a _ => a.ReturnStmts = s.ReturnStmts) FunctionVisitor.VisitExpr
    (fun E a _ h => (FunctionVisitor_VisitExpr_returns E a).trans h) E s s rfl

theorem FunctionVisitor_TraverseOptExpr_returns (E : Option Expr) (s : State) :
    (TraverseOptExpr FunctionVisitor.VisitExpr E s).ReturnStmts = s.ReturnStmts :=
  TraverseOptExpr_rel (fun a _ => a.ReturnStmts = s.ReturnStmts) FunctionVisitor.VisitExpr
    (fun E a _ h => (FunctionVisitor_VisitExpr_returns E a).trans h) E s s rfl

theorem FunctionVisitor_TraverseVarDecls_returns (Ds : List VarDecl) (s : State) :
    (TraverseVarDecls FunctionVisitor.VisitExpr Ds s).ReturnStmts = s.ReturnStmts :=
  TraverseVarDecls_rel (fun a _ => a.ReturnStmts = s.ReturnStmts) FunctionVisitor.VisitExpr
    (fun E a _ h => (FunctionVisitor_VisitExpr_returns E a).trans h) Ds s s rfl

mutual
theorem FunctionVisitor_TraverseStmt_returns :
    ∀ (S : Stmt) (s : State),
      (TraverseStmt FunctionVisitor.VisitExpr FunctionVisitor.VisitStmt S s).ReturnStmts
        = s.ReturnStmts ++ returnStmtsOf S
  | Stmt.ExprStmt e, s => by
    simp [TraverseStmt, returnStmtsOf, FunctionVisitor_TraverseExpr_returns]
  | Stmt.NullStmt, s => by simp [TraverseStmt, returnStmtsOf, FunctionVisitor.VisitStmt]
  | Stmt.BreakStmt, s => by simp [TraverseStmt, returnStmtsOf, FunctionVisitor.VisitStmt]
  | Stmt.ContinueStmt, s => by simp [TraverseStmt, returnStmtsOf, FunctionVisitor.VisitStmt]
  | Stmt.GotoStmt _, s => by simp [TraverseStmt, returnStmtsOf, FunctionVisitor.VisitStmt]
  | Stmt.IndirectGotoStmt target, s => by
    simp [TraverseStmt, returnStmtsOf, FunctionVisitor.VisitStmt,
      FunctionVisitor_TraverseExpr_returns]
  | Stmt.CompoundStmt body, s => by
    simp [TraverseStmt, returnStmtsOf, FunctionVisitor.VisitStmt,
      FunctionVisitor_TraverseStmts_returns body]
  | Stmt.DeclStmt decls, s => by
    simp [TraverseStmt, returnStmtsOf, FunctionVisitor.VisitStmt,
      FunctionVisitor_TraverseVarDecls_returns]
  | Stmt.DoStmt body cond, s => by
    simp [TraverseStmt, returnStmtsOf, FunctionVisitor.VisitStmt,
      FunctionVisitor_TraverseExpr_returns, FunctionVisitor_TraverseStmt_returns body]
  | Stmt.ForStmt init cond inc body, s => by
    simp [TraverseStmt, returnStmtsOf, FunctionVisitor.VisitStmt,
      FunctionVisitor_TraverseOptExpr_returns, FunctionVisitor_TraverseStmt_returns body,
      FunctionVisitor_TraverseOptStmt_returns init]
  | Stmt.IfStmt cond thenB elseB, s => by
    simp [TraverseStmt, returnStmtsOf, FunctionVisitor.VisitStmt,
      FunctionVisitor_TraverseExpr_returns, FunctionVisitor_TraverseStmt_returns thenB,
      FunctionVisitor_TraverseOptStmt_returns elseB]
  | Stmt.ReturnStmt _ retValue _, s => by
    simp [TraverseStmt, returnStmtsOf, FunctionVisitor.VisitStmt,
      FunctionVisitor.VisitReturnStmt, FunctionVisitor_TraverseOptExpr_returns]
  | Stmt.CaseStmt lhs sub, s => by
    simp [TraverseStmt, returnStmtsOf, FunctionVisitor.VisitStmt,
      FunctionVisitor_TraverseExpr_returns, FunctionVisitor_TraverseStmt_returns sub]
  | Stmt.DefaultStmt sub, s => by
    simp [TraverseStmt, returnStmtsOf, FunctionVisitor.VisitStmt,
      FunctionVisitor_TraverseStmt_returns sub]
  | Stmt.SwitchStmt cond body, s => by
    simp [TraverseStmt, returnStmtsOf, FunctionVisitor.VisitStmt,
      FunctionVisitor_TraverseExpr_returns, FunctionVisitor_TraverseStmt_returns body]
  | Stmt.WhileStmt cond body, s => by
    simp [TraverseStmt, returnStmtsOf, FunctionVisitor.VisitStmt,
      FunctionVisitor_TraverseExpr_returns, FunctionVisitor_TraverseStmt_returns body]
  | Stmt.LabelStmt _ sub, s => by
    simp [TraverseStmt, returnStmtsOf, FunctionVisitor.VisitStmt,
      FunctionVisitor_TraverseStmt_returns sub]
theorem FunctionVisitor_TraverseStmts_returns :
    ∀ (Ss : List Stmt) (s : State),
      (TraverseStmts FunctionVisitor.VisitExpr FunctionVisitor.VisitStmt Ss s).ReturnStmts
        = s.ReturnStmts ++ returnStmtsOfList Ss
  | [], s => by simp [TraverseStmts, returnStmtsOfList]
  | S :: rest, s => by
    simp [TraverseStmts, returnStmtsOfList, FunctionVisitor_TraverseStmt_returns S,
      FunctionVisitor_TraverseStmts_returns rest]
theorem FunctionVisitor_TraverseOptStmt_returns :
    ∀ (S : Option Stmt) (s : State),
      (TraverseOptStmt FunctionVisitor.VisitExpr FunctionVisitor.VisitStmt S s).ReturnStmts
        = s.ReturnStmts ++ returnStmtsOfOpt S
  | none, s => by simp [TraverseOptStmt, returnStmtsOfOpt]
  | some S, s => by
    simp [TraverseOptStmt, returnStmtsOfOpt, FunctionVisitor_TraverseStmt_returns S]
end

theorem FunctionVisitor_TraverseDecl_returns (FD : FunctionDecl) (s : State) :
    (FunctionVisitor.TraverseDecl FD s).ReturnStmts = s.ReturnStmts ++ returnStmtsOfOpt FD.body := by
  simp [FunctionVisitor.TraverseDecl, TraverseDecl, FunctionVisitor_TraverseOptStmt_returns]


/-- C13: for a body text that starts with an opening brace, any parameter strings
and return statements at pairwise distinct offsets, each at least one and at a
six-character `return` keyword inside the body, `copyFunctionBody` completes and the
text its running-delta edits produce is the reference text, in which every edit is
applied to the original text at its original offset, from the highest offset to the
lowest, and the parameter strings follow the opening brace. -/
theorem C13_running_delta_equals_reference (s : State) (FD : FunctionDecl) (Rest : Text)
    (hFD : s.CurrentFD = some FD) (hbody : FD.body.isSome = true)
    (htext : FD.bodyText = '{' :: Rest)
    (hdistinct : (s.ReturnStmts.map (fun r => r.loc - FD.bodyLoc)).Nodup)
    (hkw : ∀ r ∈ s.ReturnStmts, FD.bodyLoc + 1 ≤ r.loc ∧
      (FD.bodyText.drop (r.loc - FD.bodyLoc)).take 6 = ['r', 'e', 't', 'u', 'r', 'n']) :
    copyFunctionBody s = Except.ok { s with Edits :=
      s.Edits ++ [Edit.addStringBeforeStmt s.TheStmt
        (referenceBody (s.TmpVarName ++ [' ', '=', ' ']) s.ParmStrings FD.bodyText
          (s.ReturnStmts.map (fun r => (r, r.loc - FD.bodyLoc))))
        s.NeedParen] } := by
  obtain ⟨A, hp, hs, hsp, _, _, _, hcopy⟩ :=
    copyFunctionBody_splice s FD Rest hFD hbody htext hdistinct hkw
  have hn : ((s.ReturnStmts.map (fun r => (r, r.loc - FD.bodyLoc))).map (fun I => I.2)).Nodup := by
    simpa [List.map_map, Function.comp] using hdistinct
  have href : referenceBody (s.TmpVarName ++ [' ', '=', ' ']) s.ParmStrings FD.bodyText
      (s.ReturnStmts.map (fun r => (r, r.loc - FD.bodyLoc)))
      = '{' :: (s.ParmStrings.flatten
          ++ spliceReturns (s.TmpVarName ++ [' ', '=', ' ']) FD.bodyText A 1) := by
    unfold referenceBody
    simp only
    rw [highToLow_eq_reverse _ A hp hs hn, List.foldl_reverse,
      foldr_applyReturnEdit_splice _ _ A 1 hsp, htext]
    simp
  rw [hcopy, href]

/-- The hypotheses of C13 hold for `pick` with its two return statements
collected, and the text built is
`{int a = 1;` / `int b = 2;` / `if(a)t =  a;t =  b;}` (the blank that followed the
keyword stays). -/
theorem C13_running_delta_equals_reference_witness :
    copyFunctionBody (FunctionVisitor.TraverseDecl Example.pick Example.pickSelected)
      = Except.ok { FunctionVisitor.TraverseDecl Example.pick Example.pickSelected with
          Edits := [Edit.addStringBeforeStmt none
            (referenceBody ['t', ' ', '=', ' ']
              [['i', 'n', 't', ' ', 'a', ' ', '=', ' ', '1', ';', '\n'],
               ['i', 'n', 't', ' ', 'b', ' ', '=', ' ', '2', ';', '\n']]
              Example.pick.bodyText
              [(⟨27, some (Expr.ImplicitCastExpr (Expr.DeclRefExpr ['a'] true)), Example.int⟩, 6),
               (⟨36, some (Expr.ImplicitCastExpr (Expr.DeclRefExpr ['b'] true)), Example.int⟩,
                15)])
            false] }
      ∧ referenceBody ['t', ' ', '=', ' ']
          [['i', 'n', 't', ' ', 'a', ' ', '=', ' ', '1', ';', '\n'],
           ['i', 'n', 't', ' ', 'b', ' ', '=', ' ', '2', ';', '\n']]
          Example.pick.bodyText
          [(⟨27, some (Expr.ImplicitCastExpr (Expr.DeclRefExpr ['a'] true)), Example.int⟩, 6),
           (⟨36, some (Expr.ImplicitCastExpr (Expr.DeclRefExpr ['b'] true)), Example.int⟩, 15)]
        = ['{', 'i', 'n', 't', ' ', 'a', ' ', '=', ' ', '1', ';', '\n',
           'i', 'n', 't', ' ', 'b', ' ', '=', ' ', '2', ';', '\n',
           'i', 'f', '(', 'a', ')', 't', ' ', '=', ' ', ' ', 'a', ';',
           't', ' ', '=', ' ', ' ', 'b', ';', '}'] :=
  ⟨C13_running_delta_equals_reference
      (FunctionVisitor.TraverseDecl Example.pick Example.pickSelected) Example.pick
      _ rfl rfl rfl (by decide) (by decide),
    by decide⟩


/-- C12: for a callee body whose return statements are at distinct offsets, each at
a `return` keyword inside the body text, `copyFunctionBody` completes, the edits it
applies to the copied text as returns are as many as the return statements present
in the body, and the statements edited are exactly the return statements of the body
collected by the function visitor, each once. -/
theorem C12_each_return_edited_once (s s2 : State) (FD : FunctionDecl) (Body : Stmt)
    (Rest : Text) (hempty : s.ReturnStmts = [])
    (hRS : s2.ReturnStmts = (FunctionVisitor.TraverseDecl FD s).ReturnStmts)
    (hFD : s2.CurrentFD = some FD) (hB : FD.body = some Body)
    (htext : FD.bodyText = '{' :: Rest)
    (hdistinct : ((returnStmtsOf Body).map (fun r => r.loc - FD.bodyLoc)).Nodup)
    (hkw : ∀ r ∈ returnStmtsOf Body, FD.bodyLoc + 1 ≤ r.loc ∧
      (FD.bodyText.drop (r.loc - FD.bodyLoc)).take 6 = ['r', 'e', 't', 'u', 'r', 'n']) :
    ∃ (Sorted : List (ReturnStmt × Int)) (Str1 : Text) (Delta : Int) (FuncBodyStr : Text),
      sortReturnStmtsByOffs FD.bodyLoc s2.ReturnStmts [] = Except.ok Sorted ∧
      insertParmStrings s2.ParmStrings FD.bodyText 1 = Except.ok (Str1, Delta) ∧
      applyEdits (returnEdits (s2.TmpVarName ++ [' ', '=', ' ']) Sorted (Delta - 1)) Str1
        = Except.ok FuncBodyStr ∧
      copyFunctionBody s2 = Except.ok { s2 with Edits :=
        s2.Edits ++ [Edit.addStringBeforeStmt s2.TheStmt FuncBodyStr s2.NeedParen] } ∧
      (returnEdits (s2.TmpVarName ++ [' ', '=', ' ']) Sorted (Delta - 1)).length
        = (returnStmtsOf Body).length ∧
      ((returnEdits (s2.TmpVarName ++ [' ', '=', ' ']) Sorted (Delta - 1)).map
        (fun E => E.1)).Perm (returnStmtsOf Body) := by
  have hRS2 : s2.ReturnStmts = returnStmtsOf Body := by
    rw [hRS, FunctionVisitor_TraverseDecl_returns, hempty, hB]
    simp [returnStmtsOfOpt]
  obtain ⟨A, hp, _, _, hsort, hins, hrw, hcopy⟩ :=
    copyFunctionBody_splice s2 FD Rest hFD (by rw [hB]; rfl) htext
      (by rw [hRS2]; exact hdistinct) (by rw [hRS2]; exact hkw)
  have hstmts : ((A.map (fun I => (I.1, (I.2 : Int)))).map (fun I => I.1)).Perm
      (returnStmtsOf Body) := by
    have := hp.map (fun I => I.1)
    rw [hRS2] at this
    simpa [List.map_map, Function.comp_def] using this
  refine ⟨_, _, _, _, hsort, hins, ?_, hcopy, ?_, ?_⟩
  · rw [← rewriteReturnStmts_eq_applyEdits]
    exact hrw
  · rw [returnEdits_length]
    have := hstmts.length_eq
    simpa using this
  · rw [returnEdits_stmts]
    exact hstmts

/-- The hypotheses of C12 hold for `pick`, whose body has two return statements. -/
theorem C12_each_return_edited_once_witness :
    ∃ (Sorted : List (ReturnStmt × Int)) (Str1 : Text) (Delta : Int) (FuncBodyStr : Text),
      sortReturnStmtsByOffs 21
          (FunctionVisitor.TraverseDecl Example.pick Example.pickSelected).ReturnStmts []
        = Except.ok Sorted ∧
      insertParmStrings
          (FunctionVisitor.TraverseDecl Example.pick Example.pickSelected).ParmStrings
          Example.pick.bodyText 1 = Except.ok (Str1, Delta) ∧
      applyEdits (returnEdits
          ((FunctionVisitor.TraverseDecl Example.pick Example.pickSelected).TmpVarName
            ++ [' ', '=', ' ']) Sorted (Delta - 1)) Str1
        = Except.ok FuncBodyStr ∧
      copyFunctionBody (FunctionVisitor.TraverseDecl Example.pick Example.pickSelected)
        = Except.ok { FunctionVisitor.TraverseDecl Example.pick Example.pickSelected with
            Edits := (FunctionVisitor.TraverseDecl Example.pick Example.pickSelected).Edits
              ++ [Edit.addStringBeforeStmt
                (FunctionVisitor.TraverseDecl Example.pick Example.pickSelected).TheStmt
                FuncBodyStr
                (FunctionVisitor.TraverseDecl Example.pick Example.pickSelected).NeedParen] } ∧
      (returnEdits
          ((FunctionVisitor.TraverseDecl Example.pick Example.pickSelected).TmpVarName
            ++ [' ', '=', ' ']) Sorted (Delta - 1)).length
        = (returnStmtsOf (Stmt.CompoundStmt
            [Stmt.IfStmt (Expr.ImplicitCastExpr (Expr.DeclRefExpr ['a'] true))
              (Stmt.ReturnStmt 27
                (some (Expr.ImplicitCastExpr (Expr.DeclRefExpr ['a'] true))) Example.int) none,
             Stmt.ReturnStmt 36
                (some (Expr.ImplicitCastExpr (Expr.DeclRefExpr ['b'] true))) Example.int])).length ∧
      ((returnEdits
          ((FunctionVisitor.TraverseDecl Example.pick Example.pickSelected).TmpVarName
            ++ [' ', '=', ' ']) Sorted (Delta - 1)).map (fun E => E.1)).Perm
        (returnStmtsOf (Stmt.CompoundStmt
            [Stmt.IfStmt (Expr.ImplicitCastExpr (Expr.DeclRefExpr ['a'] true))
              (Stmt.ReturnStmt 27
                (some (Expr.ImplicitCastExpr (Expr.DeclRefExpr ['a'] true))) Example.int) none,
             Stmt.ReturnStmt 36
                (some (Expr.ImplicitCastExpr (Expr.DeclRefExpr ['b'] true))) Example.int])) :=
  C12_each_return_edited_once Example.pickSelected
    (FunctionVisitor.TraverseDecl Example.pick Example.pickSelected) Example.pick _ _
    rfl rfl rfl rfl rfl (by decide) (by decide)


/-! ## Parameter strings -/

theorem generateParamStringsLoop_length (Ctx : ASTContext) (CE : CallExpr) :
    ∀ (Ps : List ParmVarDecl) (Idx : Nat),
      (generateParamStringsLoop Ctx CE Ps Idx).length = Ps.length
  | [], _ => rfl
  | PD :: rest, Idx => by
    simp [generateParamStringsLoop, generateParamStringsLoop_length Ctx CE rest]

theorem generateParamStringsLoop_getElem (Ctx : ASTContext) (CE : CallExpr) :
    ∀ (Ps : List ParmVarDecl) (Idx i : Nat) (hi : i < Ps.length),
      (generateParamStringsLoop Ctx CE Ps Idx)[i]? = some
        (if h : Idx + i < CE.args.length then
          (Ps[i]).type.spelling ++ [' '] ++ (Ps[i]).name ++ [' ', '=', ' ']
            ++ Ctx.getExprString (CE.args[Idx + i]) ++ [';', '\n']
        else (Ps[i]).type.spelling ++ [' '] ++ (Ps[i]).name ++ [';', '\n'])
  | [], _, _, hi => absurd hi (Nat.not_lt_zero _)
  | PD :: rest, Idx, 0, _ => by
    unfold generateParamStringsLoop
    simp only [List.getElem?_cons_zero, List.getElem_cons_zero, Nat.add_zero,
      getAsStringInternal]
    split <;> simp
  | PD :: rest, Idx, i + 1, hi => by
    unfold generateParamStringsLoop
    simp only [List.getElem?_cons_succ, List.getElem_cons_succ]
    rw [generateParamStringsLoop_getElem Ctx CE rest (Idx + 1) i
      (Nat.lt_of_succ_lt_succ hi)]
    simp only [show Idx + 1 + i = Idx + (i + 1) by omega]

/-- C15: for a selected call, `generateParamStrings` completes with exactly one
string for each formal parameter of the directly referenced declaration, in
declaration order: type, name, ` = ` and the text of the argument at the same
position when the call has one, type and name alone otherwise, each ended by `;`
and a line break; `copyFunctionBody` then builds a text in which these strings, in
that order and with nothing between them, follow the opening brace of the body. -/
theorem C15_param_strings_in_order (Ctx : ASTContext) (s : State) (CE : CallExpr)
    (Callee Def : FunctionDecl) (Rest : Text)
    (hCE : s.TheCallExpr = some CE) (hCallee : getDirectCallee Ctx CE = some Callee)
    (hPS : s.ParmStrings = [])
    (hFD : s.CurrentFD = some Def) (hbody : Def.body.isSome = true)
    (htext : Def.bodyText = '{' :: Rest)
    (hdistinct : (s.ReturnStmts.map (fun r => r.loc - Def.bodyLoc)).Nodup)
    (hkw : ∀ r ∈ s.ReturnStmts, Def.bodyLoc + 1 ≤ r.loc ∧
      (Def.bodyText.drop (r.loc - Def.bodyLoc)).take 6 = ['r', 'e', 't', 'u', 'r', 'n']) :
    ∃ (s1 : State) (Tail : Text),
      generateParamStrings Ctx s = Except.ok s1 ∧
      s1.ParmStrings.length = Callee.params.length ∧
      (∀ (i : Nat) (hi : i < Callee.params.length),
        s1.ParmStrings[i]? = some
          (if h : i < CE.args.length then
            (Callee.params[i]).type.spelling ++ [' '] ++ (Callee.params[i]).name
              ++ [' ', '=', ' '] ++ Ctx.getExprString (CE.args[i]) ++ [';', '\n']
          else (Callee.params[i]).type.spelling ++ [' '] ++ (Callee.params[i]).name
              ++ [';', '\n'])) ∧
      copyFunctionBody s1 = Except.ok { s1 with Edits :=
        s1.Edits ++ [Edit.addStringBeforeStmt s1.TheStmt
          ('{' :: (s1.ParmStrings.flatten ++ Tail)) s1.NeedParen] } := by
  have hgen : generateParamStrings Ctx s = Except.ok
      { s with
        ParmStrings := s.ParmStrings ++ generateParamStringsLoop Ctx CE Callee.params 0 } := by
    unfold generateParamStrings
    simp only [hCE, hCallee]
  obtain ⟨A, _, _, _, _, _, _, hcopy⟩ := copyFunctionBody_splice
    { s with
      ParmStrings := s.ParmStrings ++ generateParamStringsLoop Ctx CE Callee.params 0 }
    Def Rest hFD hbody htext hdistinct hkw
  refine ⟨_, _, hgen, ?_, ?_, hcopy⟩
  · simp only [hPS, List.nil_append]
    exact generateParamStringsLoop_length Ctx CE Callee.params 0
  · intro i hi
    simp only [hPS, List.nil_append]
    have := generateParamStringsLoop_getElem Ctx CE Callee.params 0 i hi
    simpa only [Nat.zero_add] using this

/-- The hypotheses of C15 hold for the call `add(1,2)` of `unitAdd`. -/
theorem C15_param_strings_in_order_witness :
    ∃ (s1 : State) (Tail : Text),
      generateParamStrings Example.unitAdd Example.addSelected = Except.ok s1 ∧
      s1.ParmStrings.length = Example.add.params.length ∧
      (∀ (i : Nat) (hi : i < Example.add.params.length),
        s1.ParmStrings[i]? = some
          (if h : i < Example.addCall.args.length then
            (Example.add.params[i]).type.spelling ++ [' '] ++ (Example.add.params[i]).name
              ++ [' ', '=', ' '] ++ Example.unitAdd.getExprString (Example.addCall.args[i])
              ++ [';', '\n']
          else (Example.add.params[i]).type.spelling ++ [' '] ++ (Example.add.params[i]).name
              ++ [';', '\n'])) ∧
      copyFunctionBody s1 = Except.ok { s1 with Edits :=
        s1.Edits ++ [Edit.addStringBeforeStmt s1.TheStmt
          ('{' :: (s1.ParmStrings.flatten ++ Tail)) s1.NeedParen] } :=
  C15_param_strings_in_order Example.unitAdd Example.addSelected Example.addCall
    Example.add Example.add _ rfl rfl rfl rfl rfl rfl (by decide) (by decide)


/-! ## Writes of the selection -/

theorem doAnalysisStep_counters (Ctx : ASTContext) (s s1 : State) (CI : CallExpr)
    (h : doAnalysisStep Ctx s CI = Except.ok s1) :
    s1.TransformationCounter = s.TransformationCounter ∧
      ((reachesSelection Ctx s CI = false ∧ s.ValidInstanceNum ≤ s1.ValidInstanceNum) ∨
        (reachesSelection Ctx s CI = true ∧ s1.ValidInstanceNum = s.ValidInstanceNum + 1 ∧
          s.TransformationCounter = s.ValidInstanceNum + 1)) := by
  unfold doAnalysisStep at h
  unfold reachesSelection
  cases hg : getDirectCallee Ctx CI with
  | none => simp [hg] at h
  | some CalleeDecl =>
    simp only [hg] at h ⊢
    by_cases h1 : CalleeDecl.getCanonicalDecl ∈ s.ValidFunctionDecls
    · have h1c : s.ValidFunctionDecls.contains CalleeDecl.getCanonicalDecl = true := by
        simpa using h1
      by_cases h2 : hasValidArgExprs CI = true
      · by_cases h3 : s.TransformationCounter = s.ValidInstanceNum + 1
        · have hb : (s.TransformationCounter == s.ValidInstanceNum + 1) = true := by
            simpa using h3
          simp only [h1c, h2, hb, Bool.not_true, Bool.false_eq_true, if_false, if_true] at h
          rw [h1c, h2, hb]
          split at h
          · cases h
          · split at h
            · cases h
            · cases h
              exact ⟨rfl, Or.inr ⟨rfl, rfl, h3⟩⟩
        · have hb : (s.TransformationCounter == s.ValidInstanceNum + 1) = false := by
            simpa using h3
          simp only [h1c, h2, hb, Bool.not_true, Bool.false_eq_true, if_false] at h
          rw [h1c, h2, hb]
          cases h
          exact ⟨rfl, Or.inl ⟨rfl, Nat.le_succ _⟩⟩
      · have h2f : hasValidArgExprs CI = false := by simpa using h2
        simp only [h1c, h2f, Bool.not_true, Bool.false_eq_true, if_false, Bool.not_false,
          if_true] at h
        rw [h1c, h2f]
        cases h
        exact ⟨rfl, Or.inl ⟨rfl, Nat.le_refl _⟩⟩
    · have h1c : s.ValidFunctionDecls.contains CalleeDecl.getCanonicalDecl = false := by
        simpa using h1
      simp only [h1c, Bool.not_false, if_true] at h
      rw [h1c]
      cases h
      exact ⟨rfl, Or.inl ⟨rfl, Nat.le_refl _⟩⟩

/-- What an iteration does to the selection: it is left as it is by an iteration
that does not enter the branch, and set to the call of the iteration, its recorded
caller and the resolved callee by one that does. -/
theorem doAnalysisStep_selection (Ctx : ASTContext) (s s1 : State) (CI : CallExpr)
    (h : doAnalysisStep Ctx s CI = Except.ok s1) :
    (reachesSelection Ctx s CI = false →
      s1.CurrentFD = s.CurrentFD ∧ s1.TheCaller = s.TheCaller ∧
        s1.TheCallExpr = s.TheCallExpr) ∧
    (reachesSelection Ctx s CI = true →
      s1.TheCallExpr = some CI ∧ s1.TheCaller = lookupCaller s CI ∧
        ∃ CalleeDecl, getDirectCallee Ctx CI = some CalleeDecl ∧
          s1.CurrentFD = some (resolveCallee Ctx CalleeDecl)) := by
  unfold doAnalysisStep at h
  unfold reachesSelection
  cases hg : getDirectCallee Ctx CI with
  | none => simp [hg] at h
  | some CalleeDecl =>
    simp only [hg] at h ⊢
    by_cases h1 : CalleeDecl.getCanonicalDecl ∈ s.ValidFunctionDecls
    · have h1c : s.ValidFunctionDecls.contains CalleeDecl.getCanonicalDecl = true := by
        simpa using h1
      by_cases h2 : hasValidArgExprs CI = true
      · by_cases h3 : s.TransformationCounter = s.ValidInstanceNum + 1
        · have hb : (s.TransformationCounter == s.ValidInstanceNum + 1) = true := by
            simpa using h3
          simp only [h1c, h2, hb, Bool.not_true, Bool.false_eq_true, if_false, if_true] at h
          rw [h1c, h2, hb]
          split at h
          · cases h
          · split at h
            · cases h
            · rename_i hcaller
              cases h
              exact ⟨fun hf => (by cases hf), fun _ => ⟨rfl, rfl, CalleeDecl, rfl, rfl⟩⟩
        · have hb : (s.TransformationCounter == s.ValidInstanceNum + 1) = false := by
            simpa using h3
          simp only [h1c, h2, hb, Bool.not_true, Bool.false_eq_true, if_false] at h
          rw [h1c, h2, hb]
          cases h
          exact ⟨fun _ => ⟨rfl, rfl, rfl⟩, fun hf => by cases hf⟩
      · have h2f : hasValidArgExprs CI = false := by simpa using h2
        simp only [h1c, h2f, Bool.not_true, Bool.false_eq_true, if_false, Bool.not_false,
          if_true] at h
        rw [h1c, h2f]
        cases h
        exact ⟨fun _ => ⟨rfl, rfl, rfl⟩, fun hf => by cases hf⟩
    · have h1c : s.ValidFunctionDecls.contains CalleeDecl.getCanonicalDecl = false := by
        simpa using h1
      simp only [h1c, Bool.not_false, if_true] at h
      rw [h1c]
      cases h
      exact ⟨fun _ => ⟨rfl, rfl, rfl⟩, fun hf => by cases hf⟩

theorem selectionWrites_zero (Ctx : ASTContext) :
    ∀ (L : List CallExpr) (s : State), s.TransformationCounter ≤ s.ValidInstanceNum →
      selectionWrites Ctx L s = 0
  | [], _, _ => rfl
  | CI :: rest, s, hle => by
    unfold selectionWrites
    cases hstep : doAnalysisStep Ctx s CI with
    | error e => rfl
    | ok s1 =>
      obtain ⟨hc, h | h⟩ := doAnalysisStep_counters Ctx s s1 CI hstep
      · simp only [h.1, Bool.false_eq_true, if_false, Nat.zero_add]
        exact selectionWrites_zero Ctx rest s1 (by omega)
      · omega

theorem selectionWrites_le_one (Ctx : ASTContext) :
    ∀ (L : List CallExpr) (s : State), selectionWrites Ctx L s ≤ 1
  | [], _ => Nat.zero_le _
  | CI :: rest, s => by
    unfold selectionWrites
    cases hstep : doAnalysisStep Ctx s CI with
    | error e => exact Nat.zero_le _
    | ok s1 =>
      obtain ⟨hc, h | h⟩ := doAnalysisStep_counters Ctx s s1 CI hstep
      · simp only [h.1, Bool.false_eq_true, if_false, Nat.zero_add]
        exact selectionWrites_le_one Ctx rest s1
      · simp only [h.1, if_true]
        rw [selectionWrites_zero Ctx rest s1 (by omega)]

theorem reachesSelection_eq (Ctx : ASTContext) (s : State) (CI : CallExpr) :
    reachesSelection Ctx s CI
      = (isValidInstance Ctx s.ValidFunctionDecls CI
          && (s.TransformationCounter == s.ValidInstanceNum + 1)) := by
  unfold reachesSelection isValidInstance
  cases getDirectCallee Ctx CI with
  | none => rfl
  | some CalleeDecl => simp [hasValidArgExprs, hasValidArgs_eq_all]

theorem selectionWrites_one (Ctx : ASTContext) :
    ∀ (L : List CallExpr) (s : State),
      (∀ CI ∈ L, CI.calleeDecl.isSome = true ∧ (lookupCaller s CI).isSome = true) →
      ValidDeclsDefined Ctx s →
      s.ValidInstanceNum < s.TransformationCounter →
      s.TransformationCounter
        ≤ s.ValidInstanceNum + (L.filter (isValidInstance Ctx s.ValidFunctionDecls)).length →
      selectionWrites Ctx L s = 1
  | [], s, _, _, h1, h2 => by
    simp at h2
    omega
  | CI :: rest, s, hrec, hdefd, h1, h2 => by
    have hCI := hrec CI (List.mem_cons_self _ _)
    have hrest : ∀ CI2 ∈ rest,
        CI2.calleeDecl.isSome = true ∧ (lookupCaller s CI2).isSome = true :=
      fun CI2 h => hrec CI2 (List.mem_cons_of_mem _ h)
    unfold selectionWrites
    rw [reachesSelection_eq]
    cases hv : isValidInstance Ctx s.ValidFunctionDecls CI with
    | false =>
      simp only [doAnalysisStep_invalid Ctx s CI hCI.1 hv, Bool.false_and,
        Bool.false_eq_true, if_false, Nat.zero_add]
      simp only [List.filter_cons, hv, Bool.false_eq_true, if_false] at h2
      exact selectionWrites_one Ctx rest s hrest hdefd h1 h2
    | true =>
      simp only [List.filter_cons, hv, if_true, List.length_cons] at h2
      by_cases hk : s.TransformationCounter = s.ValidInstanceNum + 1
      · obtain ⟨CalleeDecl, _, _, hstep⟩ :=
          doAnalysisStep_valid_target Ctx s CI hdefd hCI.2 hv hk
        have hb : (s.TransformationCounter == s.ValidInstanceNum + 1) = true := by
          simpa using hk
        simp only [hstep, hb, Bool.and_self, if_true]
        rw [selectionWrites_zero Ctx rest _ (by simp [hk])]
      · have hb : (s.TransformationCounter == s.ValidInstanceNum + 1) = false := by
          simpa using hk
        simp only [doAnalysisStep_valid_other Ctx s CI hv hk, hb, Bool.and_false,
          Bool.false_eq_true, if_false, Nat.zero_add]
        exact selectionWrites_one Ctx rest
          { s with ValidInstanceNum := s.ValidInstanceNum + 1 } hrest hdefd
          (by simp only; omega) (by simp only; omega)

/-- C16: an iteration of the loop of `doAnalysis` that completes changes the
selection only when it finds the counter equal to the target ordinal, and then sets
it to its call; over any range of call sites and from any state, at most one
iteration does so; on the state left by the scan of the
unit with a target ordinal between one and the number of valid call sites, exactly
one iteration writes it, the loop completes, the final count is the number of valid
call sites and the selected call is the one of that ordinal; and once the counter
has reached the target ordinal, the iterations over the rest of the range leave the
selection as it is and add the number of valid call sites of the rest to the
count. -/
theorem C16_selection_written_at_most_once (Ctx : ASTContext) :
    (∀ (s s1 : State) (CI : CallExpr), doAnalysisStep Ctx s CI = Except.ok s1 →
      (reachesSelection Ctx s CI = false →
        s1.CurrentFD = s.CurrentFD ∧ s1.TheCaller = s.TheCaller ∧
          s1.TheCallExpr = s.TheCallExpr) ∧
      (reachesSelection Ctx s CI = true →
        s1.TheCallExpr = some CI ∧ s1.TheCaller = lookupCaller s CI ∧
          ∃ CalleeDecl, getDirectCallee Ctx CI = some CalleeDecl ∧
            s1.CurrentFD = some (resolveCallee Ctx CalleeDecl))) ∧
    (∀ (L : List CallExpr) (s : State), selectionWrites Ctx L s ≤ 1) ∧
    (∀ (k : Nat) (q : Bool) (M : Nat), 1 ≤ k →
      k ≤ (validCallExprs Ctx (collected Ctx k q M)).length →
      selectionWrites Ctx (collected Ctx k q M).AllCallExprs (collected Ctx k q M) = 1 ∧
      ∃ s1, doAnalysis Ctx (collected Ctx k q M) = Except.ok s1 ∧
        s1.ValidInstanceNum = (validCallExprs Ctx (collected Ctx k q M)).length ∧
        s1.TheCallExpr = (validCallExprs Ctx (collected Ctx k q M))[k - 1]?) ∧
    (∀ (L : List CallExpr) (s : State),
      (∀ CI ∈ L, CI.calleeDecl.isSome = true ∧ (lookupCaller s CI).isSome = true) →
      ValidDeclsDefined Ctx s →
      s.TransformationCounter ≤ s.ValidInstanceNum →
      doAnalysisLoop Ctx L s = Except.ok { s with
        ValidInstanceNum :=
          s.ValidInstanceNum + (L.filter (isValidInstance Ctx s.ValidFunctionDecls)).length }) := by
  refine ⟨doAnalysisStep_selection Ctx, selectionWrites_le_one Ctx, ?_, ?_⟩
  · intro k q M hk1 hk2
    obtain ⟨⟨A, Mp, N, V, F0, hfr⟩, hrec, hmem⟩ := collected_spec Ctx k q M
    have hk : (collected Ctx k q M).TransformationCounter = k := by rw [hfr]; rfl
    have hn : (collected Ctx k q M).ValidInstanceNum = 0 := by rw [hfr]; rfl
    have hdefd : ValidDeclsDefined Ctx (collected Ctx k q M) := by
      intro c hc
      obtain ⟨FD, h1, h2, h3, _⟩ := (hmem c).1 hc
      exact ⟨FD, h1, h2, h3⟩
    refine ⟨selectionWrites_one Ctx _ _ hrec hdefd (by omega) ?_, ?_⟩
    · rw [hk, hn, Nat.zero_add]
      exact hk2
    · obtain ⟨F, C, E, h1, h2, _⟩ := doAnalysis_collected Ctx k q M
      exact ⟨_, h1, rfl, (h2 hk1 hk2).1⟩
  · intro L s hrec hdefd hle
    obtain ⟨F, C, E, h1, _, h3⟩ := doAnalysisLoop_spec Ctx L s hrec hdefd
    obtain ⟨rfl, rfl, rfl⟩ := h3 (Or.inl hle)
    exact h1

/-- In `unitAdd` with target ordinal one the selection is written exactly once. -/
theorem C16_selection_written_at_most_once_witness :
    selectionWrites Example.unitAdd (collected Example.unitAdd 1 false 10).AllCallExprs
      (collected Example.unitAdd 1 false 10) = 1 :=
  ((C16_selection_written_at_most_once Example.unitAdd).2.2.1 1 false 10 (by decide)
    (by decide)).1


/-! ## Resolved callee -/

theorem getFirstDeclaration_canonical (Ctx : ASTContext) (FD : FunctionDecl) :
    (getFirstDeclaration Ctx FD).canonical = FD.canonical := by
  unfold getFirstDeclaration
  cases hf : Ctx.functionDecls.find? (fun d => d.canonical == FD.canonical) with
  | none => rfl
  | some F =>
    have := List.find?_some hf
    simpa using this

theorem mem_redecls_canonical (Ctx : ASTContext) (First RI : FunctionDecl)
    (h : RI ∈ redecls Ctx First) : RI.canonical = First.canonical := by
  unfold redecls at h
  cases hfl : Ctx.functionDecls.filter (fun d => d.canonical == First.canonical) with
  | nil =>
    rw [hfl] at h
    simp only [List.mem_singleton] at h
    rw [h]
  | cons A Later =>
    rw [hfl] at h
    have hmem : RI ∈ Ctx.functionDecls.filter (fun d => d.canonical == First.canonical) := by
      rw [hfl]
      simp only [List.mem_cons, List.mem_reverse] at h ⊢
      exact h
    have := (List.mem_filter.1 hmem).2
    simpa using this

/-- The declaration that `doAnalysis` resolves, when it is a definition. -/
theorem resolveCallee_spec (Ctx : ASTContext) (CalleeDecl : FunctionDecl)
    (hdef : (resolveCallee Ctx CalleeDecl).isThisDeclarationADefinition = true) :
    (resolveCallee Ctx CalleeDecl).getCanonicalDecl = CalleeDecl.getCanonicalDecl ∧
      (CalleeDecl.isThisDeclarationADefinition = true →
        resolveCallee Ctx CalleeDecl = CalleeDecl) ∧
      (CalleeDecl.isThisDeclarationADefinition = false →
        (redecls Ctx (getFirstDeclaration Ctx CalleeDecl)).find?
            (fun RI => RI.isThisDeclarationADefinition)
          = some (resolveCallee Ctx CalleeDecl)) := by
  unfold resolveCallee at hdef ⊢
  cases hcd : CalleeDecl.isThisDeclarationADefinition with
  | true => simp
  | false =>
    simp only [hcd, Bool.not_false, if_true] at hdef ⊢
    cases hfind : (redecls Ctx (getFirstDeclaration Ctx CalleeDecl)).find?
        (fun RI => RI.isThisDeclarationADefinition) with
    | none =>
      exfalso
      simp only [hfind] at hdef
      have hall := List.find?_eq_none.1 hfind
      unfold getFirstDeclaration at hdef hall
      cases hf : Ctx.functionDecls.find? (fun d => d.canonical == CalleeDecl.canonical) with
      | none =>
        rw [hf] at hdef
        simp only [Option.getD_none] at hdef
        rw [hcd] at hdef
        cases hdef
      | some F =>
        rw [hf] at hdef hall
        simp only [Option.getD_some] at hdef hall
        have hF := List.mem_of_find?_eq_some hf
        have hmem : F ∈ redecls Ctx F := by
          unfold redecls
          have hFf : F ∈ Ctx.functionDecls.filter (fun d => d.canonical == F.canonical) := by
            rw [List.mem_filter]
            exact ⟨hF, by simp⟩
          revert hFf
          cases Ctx.functionDecls.filter (fun d => d.canonical == F.canonical) with
          | nil => intro h; cases h
          | cons A Later =>
            intro h
            simp only [List.mem_cons, List.mem_reverse] at h ⊢
            exact h
        exact absurd hdef (hall F hmem)
    | some RI =>
      have hmem := List.mem_of_find?_eq_some hfind
      have := mem_redecls_canonical Ctx _ RI hmem
      refine ⟨?_, ?_, ?_⟩
      · simp only [FunctionDecl.getCanonicalDecl]
        rw [this, getFirstDeclaration_canonical]
      · intro h
        cases h
      · intro _
        rfl

/-- C17: for every target ordinal between one and the number of valid call sites,
`doAnalysis` completes (no assertion fails), the selected call is the valid call of
that ordinal, and the resolved callee `CurrentFD` is a definition with the same
canonical declaration as the directly referenced declaration: that declaration
itself when it has a body, otherwise the first declaration of the redeclaration
chain that has one. -/
theorem C17_resolved_callee_is_definition (Ctx : ASTContext) (k : Nat) (q : Bool) (M : Nat)
    (hk1 : 1 ≤ k) (hk2 : k ≤ (validCallExprs Ctx (collected Ctx k q M)).length) :
    ∃ (s1 : State) (CE : CallExpr) (Callee Def : FunctionDecl),
      doAnalysis Ctx (collected Ctx k q M) = Except.ok s1 ∧
      (validCallExprs Ctx (collected Ctx k q M))[k - 1]? = some CE ∧
      s1.TheCallExpr = some CE ∧
      getDirectCallee Ctx CE = some Callee ∧
      s1.CurrentFD = some Def ∧
      Def.isThisDeclarationADefinition = true ∧
      Def.getCanonicalDecl = Callee.getCanonicalDecl ∧
      (Callee.isThisDeclarationADefinition = true → Def = Callee) ∧
      (Callee.isThisDeclarationADefinition = false →
        (redecls Ctx (getFirstDeclaration Ctx Callee)).find?
            (fun RI => RI.isThisDeclarationADefinition) = some Def) := by
  obtain ⟨F, C, E, h1, h2, _⟩ := doAnalysis_collected Ctx k q M
  obtain ⟨hE, _, _, hF, hFdef⟩ := h2 hk1 hk2
  have hlt : k - 1 < (validCallExprs Ctx (collected Ctx k q M)).length := by omega
  rw [List.getElem?_eq_getElem hlt] at hE
  subst hE
  simp only [Option.some_bind] at hF
  cases hg : getDirectCallee Ctx ((validCallExprs Ctx (collected Ctx k q M))[k - 1]) with
  | none =>
    rw [hg] at hF
    subst hF
    simp at hFdef
  | some Callee =>
    rw [hg] at hF
    subst hF
    simp only [Option.map_some', Option.some.injEq] at hFdef
    obtain ⟨hc, hself, hchain⟩ := resolveCallee_spec Ctx Callee hFdef
    exact ⟨_, _, Callee, resolveCallee Ctx Callee, h1, List.getElem?_eq_getElem hlt, rfl, hg,
      rfl, hFdef, hc, hself, hchain⟩

/-- In `unitProto` the call refers to the prototype of `foo` and the resolved
callee is the definition of `foo`. -/
theorem C17_resolved_callee_is_definition_witness :
    ∃ (s1 : State) (CE : CallExpr) (Callee Def : FunctionDecl),
      doAnalysis Example.unitProto (collected Example.unitProto 1 false 10) = Except.ok s1 ∧
      (validCallExprs Example.unitProto (collected Example.unitProto 1 false 10))[1 - 1]?
        = some CE ∧
      s1.TheCallExpr = some CE ∧
      getDirectCallee Example.unitProto CE = some Callee ∧
      s1.CurrentFD = some Def ∧
      Def.isThisDeclarationADefinition = true ∧
      Def.getCanonicalDecl = Callee.getCanonicalDecl ∧
      (Callee.isThisDeclarationADefinition = true → Def = Callee) ∧
      (Callee.isThisDeclarationADefinition = false →
        (redecls Example.unitProto (getFirstDeclaration Example.unitProto Callee)).find?
            (fun RI => RI.isThisDeclarationADefinition) = some Def) :=
  C17_resolved_callee_is_definition Example.unitProto 1 false 10 (by decide) (by decide)


/-! ## The statement locator and the parameter strings on concrete units -/

/-- C11: in `void m(int c,int x){switch(x){case 1:case sizeof(f(x)):x=0;}}` the
selected call `f(x)` lies in `case sizeof(f(x)):x=0;`, the non-compound
sub-statement of `case 1:`, with no compound block in between; the locator
records no statement at all, and the pass stops at the assertion on `TheStmt`. -/
theorem C11_call_in_label_of_branch_not_recorded :
    (∃ s1, doAnalysis (Example.unitCaller Example.bodyCases Example.textCases)
          (collected (Example.unitCaller Example.bodyCases Example.textCases) 1 false 10)
        = Except.ok s1 ∧
      s1.TheCallExpr = some Example.fCall ∧
      s1.TheCaller = some (Example.caller Example.bodyCases Example.textCases) ∧
      (StmtVisitor.TraverseDecl s1.TheCaller s1).TheStmt = none) ∧
    run (Example.unitCaller Example.bodyCases Example.textCases) 1 false 10
      = Except.error (Abort.TransAssert "NULL TheStmt!") :=
  ⟨⟨_, rfl, rfl, rfl, rfl⟩, rfl⟩

/-- C18: in `void m(int c,int x){switch(x){case sizeof(f(x)):x=0;}}` the call `f(x)`
is a valid call site and is selected, the locator records no statement, and the
pass stops at the assertion on `TheStmt`. -/
theorem C18_call_in_case_label_not_located :
    (∃ s1, doAnalysis (Example.unitCaller Example.bodyCase Example.textCase)
          (collected (Example.unitCaller Example.bodyCase Example.textCase) 1 false 10)
        = Except.ok s1 ∧
      s1.ValidInstanceNum = 1 ∧
      s1.TheCallExpr = some Example.fCall ∧
      s1.TheCaller = some (Example.caller Example.bodyCase Example.textCase) ∧
      (StmtVisitor.TraverseDecl s1.TheCaller s1).TheStmt = none) ∧
    run (Example.unitCaller Example.bodyCase Example.textCase) 1 false 10
      = Except.error (Abort.TransAssert "NULL TheStmt!") :=
  ⟨⟨_, rfl, rfl, rfl, rfl, rfl⟩, rfl⟩

set_option maxHeartbeats 4000000 in
/-- C19: in `void m(int c,int x){if(c)while(x){f(x);}}` the recorded statement is
`f(x);`, an immediate child of the compound block `{f(x);}`, and the recorded flag
is true. -/
theorem C19_flag_true_for_child_of_compound :
    ∃ s, run (Example.unitCaller Example.bodyLoop Example.textLoop) 1 false 10 = Except.ok s ∧
      s.TheStmt = some Example.fStmt ∧ s.NeedParen = true ∧
      s.Edits = [Edit.addLocalVarToFunc
          ['i', 'n', 't', ' ', '_', '_', 't', 'r', 'a', 'n', 's', '_', 't', 'm', 'p', '_', '1',
            ';']
          (some (Example.caller Example.bodyLoop Example.textLoop)),
        Edit.addStringBeforeStmt (some Example.fStmt)
          ['{', 'i', 'n', 't', ' ', 'a', ' ', '=', ' ', 'x', ';', '\n',
            '_', '_', 't', 'r', 'a', 'n', 's', '_', 't', 'm', 'p', '_', '1', ' ', '=', ' ',
            ' ', 'a', ';', '}'] true,
        Edit.replaceExprNotInclude (some Example.fCall)
          ['_', '_', 't', 'r', 'a', 'n', 's', '_', 't', 'm', 'p', '_', '1']] :=
  ⟨_, rfl, rfl, rfl, rfl⟩

/-- C20: in `unitProto` the copied body is that of the definition of `foo`, which
uses its parameter `n`, while the only parameter local generated is `int m = 1;`,
from the parameter list of the prototype that the call refers to. -/
theorem C20_param_locals_from_prototype :
    ∃ s, run Example.unitProto 1 false 10 = Except.ok s ∧
      s.CurrentFD = some Example.fooDef ∧
      s.TheCallExpr.bind (getDirectCallee Example.unitProto) = some Example.fooProto ∧
      s.ParmStrings = [['i', 'n', 't', ' ', 'm', ' ', '=', ' ', '1', ';', '\n']] ∧
      s.Edits = [Edit.addLocalVarToFunc
          ['i', 'n', 't', ' ', '_', '_', 't', 'r', 'a', 'n', 's', '_', 't', 'm', 'p', '_', '1',
            ';']
          (some Example.protoMain),
        Edit.addStringBeforeStmt (some Example.fooUse)
          ['{', 'i', 'n', 't', ' ', 'm', ' ', '=', ' ', '1', ';', '\n',
            '_', '_', 't', 'r', 'a', 'n', 's', '_', 't', 'm', 'p', '_', '1', ' ', '=', ' ',
            ' ', 'n', ';', '}'] false,
        Edit.replaceExprNotInclude (some Example.fooCall)
          ['_', '_', 't', 'r', 'a', 'n', 's', '_', 't', 'm', 'p', '_', '1']] :=
  ⟨_, rfl, rfl, rfl, rfl, rfl⟩


/-! ## The statement locator -/

theorem andThen_true (s : State) (f : State → State × Bool) : andThen (s, true) f = f s := rfl

theorem andThen_false (s : State) (f : State → State × Bool) :
    andThen (s, false) f = (s, false) := rfl

theorem StmtVisitor_VisitCallExpr_eq (p : Nat) (CallE : CallExpr) (s : State)
    (hs : Selected p s) :
    StmtVisitor.VisitCallExpr CallE s
      = if CallE.ptr = p then (recorded s, false) else (s, true) := by
  obtain ⟨The, h1, h2⟩ := hs
  unfold StmtVisitor.VisitCallExpr
  split
  · rename_i hn
    rw [hn] at h1
    cases h1
  · rename_i The2 hsome
    rw [hsome] at h1
    cases h1
    by_cases h : CallE.ptr = p
    · have hb : (The.ptr == CallE.ptr) = true := by simp [h, h2]
      rw [if_pos hb, if_pos h]
      rfl
    · have hb : (The.ptr == CallE.ptr) = false := by
        rw [h2]
        simpa using fun e : p = CallE.ptr => h e.symm
      rw [if_neg (by simp [hb]), if_neg h]

mutual
/-- The traversal of an expression by the locator: nothing happens when the
selected call is not in it, otherwise the current statement and flag are recorded
and the traversal stops. -/
theorem StmtVisitor_TraverseExpr_eq (p : Nat) :
    ∀ (E : Expr) (s : State), Selected p s →
      StmtVisitor.TraverseExpr E s
        = if countCallE p E = 0 then (s, true) else (recorded s, false)
  | Expr.FloatingLiteral _, s, _ => by simp [StmtVisitor.TraverseExpr, countCallE]
  | Expr.StringLiteral _, s, _ => by simp [StmtVisitor.TraverseExpr, countCallE]
  | Expr.IntegerLiteral _, s, _ => by simp [StmtVisitor.TraverseExpr, countCallE]
  | Expr.GNUNullExpr, s, _ => by simp [StmtVisitor.TraverseExpr, countCallE]
  | Expr.CharacterLiteral _, s, _ => by simp [StmtVisitor.TraverseExpr, countCallE]
  | Expr.ParenExpr sub, s, hs => by
    simp only [StmtVisitor.TraverseExpr, countCallE, StmtVisitor_TraverseExpr_eq p sub s hs]
  | Expr.ImplicitCastExpr sub, s, hs => by
    simp only [StmtVisitor.TraverseExpr, countCallE, StmtVisitor_TraverseExpr_eq p sub s hs]
  | Expr.CStyleCastExpr _ sub, s, hs => by
    simp only [StmtVisitor.TraverseExpr, countCallE, StmtVisitor_TraverseExpr_eq p sub s hs]
  | Expr.CXXStaticCastExpr _ sub, s, hs => by
    simp only [StmtVisitor.TraverseExpr, countCallE, StmtVisitor_TraverseExpr_eq p sub s hs]
  | Expr.MemberExpr base _, s, hs => by
    simp only [StmtVisitor.TraverseExpr, countCallE, StmtVisitor_TraverseExpr_eq p base s hs]
  | Expr.ArraySubscriptExpr base idx, s, hs => by
    simp only [StmtVisitor.TraverseExpr, countCallE, StmtVisitor_TraverseExpr_eq p base s hs]
    by_cases h : countCallE p base = 0
    · simp [h, andThen_true, StmtVisitor_TraverseExpr_eq p idx s hs]
    · simp [h, andThen_false]
  | Expr.DeclRefExpr _ _, s, _ => by simp [StmtVisitor.TraverseExpr, countCallE]
  | Expr.UnaryOperator sub, s, hs => by
    simp only [StmtVisitor.TraverseExpr, countCallE, StmtVisitor_TraverseExpr_eq p sub s hs]
  | Expr.BinaryOperator lhs rhs, s, hs => by
    simp only [StmtVisitor.TraverseExpr, countCallE, StmtVisitor_TraverseExpr_eq p lhs s hs]
    by_cases h : countCallE p lhs = 0
    · simp [h, andThen_true, StmtVisitor_TraverseExpr_eq p rhs s hs]
    · simp [h, andThen_false]
  | Expr.ConditionalOperator cond lhs rhs, s, hs => by
    simp only [StmtVisitor.TraverseExpr, countCallE, StmtVisitor_TraverseExpr_eq p cond s hs]
    by_cases h : countCallE p cond = 0
    · simp only [h, if_true, andThen_true, StmtVisitor_TraverseExpr_eq p lhs s hs]
      by_cases h2 : countCallE p lhs = 0
      · simp [h2, andThen_true, StmtVisitor_TraverseExpr_eq p rhs s hs]
      · simp [h2, andThen_false]
    · simp [h, andThen_false]
  | Expr.CallExpr ptr calleeDecl type fn args, s, hs => by
    simp only [StmtVisitor.TraverseExpr, countCallE,
      StmtVisitor_VisitCallExpr_eq p ⟨ptr, calleeDecl, type, fn, args⟩ s hs]
    by_cases h : ptr = p
    · simp [h, andThen_false]
    · simp only [h, if_false, andThen_true, StmtVisitor_TraverseExpr_eq p fn s hs, Nat.zero_add]
      by_cases h2 : countCallE p fn = 0
      · simp [h2, andThen_true, StmtVisitor_TraverseExprs_eq p args s hs]
      · simp [h2, andThen_false]
  | Expr.OtherExpr children, s, hs => by
    simp only [StmtVisitor.TraverseExpr, countCallE,
      StmtVisitor_TraverseExprs_eq p children s hs]
theorem StmtVisitor_TraverseExprs_eq (p : Nat) :
    ∀ (Es : List Expr) (s : State), Selected p s →
      StmtVisitor.TraverseExprs Es s
        = if countCallEs p Es = 0 then (s, true) else (recorded s, false)
  | [], s, _ => by simp [StmtVisitor.TraverseExprs, countCallEs]
  | E :: rest, s, hs => by
    simp only [StmtVisitor.TraverseExprs, countCallEs, StmtVisitor_TraverseExpr_eq p E s hs]
    by_cases h : countCallE p E = 0
    · simp [h, andThen_true, StmtVisitor_TraverseExprs_eq p rest s hs]
    · simp [h, andThen_false]
end

theorem StmtVisitor_TraverseOptExpr_eq (p : Nat) (E : Option Expr) (s : State)
    (hs : Selected p s) :
    StmtVisitor.TraverseOptExpr E s
      = if countCallOptE p E = 0 then (s, true) else (recorded s, false) := by
  cases E with
  | none => simp [StmtVisitor.TraverseOptExpr, countCallOptE]
  | some E =>
    simp only [StmtVisitor.TraverseOptExpr, countCallOptE, StmtVisitor_TraverseExpr_eq p E s hs]

theorem StmtVisitor_TraverseVarDecls_eq (p : Nat) :
    ∀ (Ds : List VarDecl) (s : State), Selected p s →
      StmtVisitor.TraverseVarDecls Ds s
        = if countCallDecls p Ds = 0 then (s, true) else (recorded s, false)
  | [], s, _ => by simp [StmtVisitor.TraverseVarDecls, countCallDecls]
  | D :: rest, s, hs => by
    simp only [StmtVisitor.TraverseVarDecls, countCallDecls,
      StmtVisitor_TraverseOptExpr_eq p D.init s hs]
    by_cases h : countCallOptE p D.init = 0
    · simp [h, andThen_true, StmtVisitor_TraverseVarDecls_eq p rest s hs]
    · simp [h, andThen_false]


theorem VisitorFrame.refl (s : State) : VisitorFrame s s := ⟨s.CurrentStmt, s.VisitorNeedParen, rfl⟩

theorem VisitorFrame.trans {s t u : State} (h1 : VisitorFrame s t) (h2 : VisitorFrame t u) :
    VisitorFrame s u := by
  obtain ⟨C1, b1, rfl⟩ := h1
  obtain ⟨C2, b2, rfl⟩ := h2
  exact ⟨C2, b2, rfl⟩

theorem VisitorFrame.selected {p : Nat} {s t : State} (h : VisitorFrame s t)
    (hs : Selected p s) : Selected p t := by
  obtain ⟨C, b, rfl⟩ := h
  exact hs

theorem VisitorFrame.theStmt {s t : State} (h : VisitorFrame s t) :
    t.TheStmt = s.TheStmt ∧ t.NeedParen = s.NeedParen := by
  obtain ⟨C, b, rfl⟩ := h
  exact ⟨rfl, rfl⟩

theorem VisitorFrame.setCurrent (s : State) (C : Option Stmt) :
    VisitorFrame s { s with CurrentStmt := C } := ⟨C, s.VisitorNeedParen, rfl⟩

theorem VisitorFrame.setFlag (s : State) (b : Bool) :
    VisitorFrame s { s with VisitorNeedParen := b } := ⟨s.CurrentStmt, b, rfl⟩

/-- The visit of a branch leaves all but the visitor's members as the traversal of
the branch does. -/
theorem frame_visitNonCompoundStmt (p : Nat) (S : Stmt)
    (hS : ∀ s, Selected p s → VisitorFrame s (StmtVisitor.TraverseStmt S s).1)
    (s : State) (hs : Selected p s) :
    VisitorFrame s (StmtVisitor.visitNonCompoundStmt S (StmtVisitor.TraverseStmt S) s) := by
  have hgen : VisitorFrame s
      { (StmtVisitor.TraverseStmt S
          { { s with CurrentStmt := some S } with VisitorNeedParen := true }).1 with
        VisitorNeedParen := false } := by
    have h1 : VisitorFrame s { { s with CurrentStmt := some S } with VisitorNeedParen := true } :=
      ⟨some S, true, rfl⟩
    exact (h1.trans (hS _ (h1.selected hs))).trans (VisitorFrame.setFlag _ false)
  cases S <;> first | exact hgen | exact hS s hs

mutual
/-- The traversal of a statement without the selected call changes the visitor's
members only. -/
theorem frame_TraverseStmt (p : Nat) :
    ∀ (S : Stmt) (s : State), Selected p s → countCallS p S = 0 →
      VisitorFrame s (StmtVisitor.TraverseStmt S s).1
  | Stmt.ExprStmt e, s, hs, h => by
    simp only [countCallS] at h
    simp only [StmtVisitor.TraverseStmt, StmtVisitor_TraverseExpr_eq p e s hs, h, if_true]
    exact VisitorFrame.refl s
  | Stmt.NullStmt, s, _, _ => VisitorFrame.refl s
  | Stmt.BreakStmt, s, _, _ => VisitorFrame.refl s
  | Stmt.ContinueStmt, s, _, _ => VisitorFrame.refl s
  | Stmt.GotoStmt _, s, _, _ => VisitorFrame.refl s
  | Stmt.IndirectGotoStmt target, s, hs, h => by
    simp only [countCallS] at h
    simp only [StmtVisitor.TraverseStmt, StmtVisitor_TraverseExpr_eq p target s hs, h, if_true]
    exact VisitorFrame.refl s
  | Stmt.CompoundStmt body, s, hs, h => by
    simp only [countCallS] at h
    simp only [StmtVisitor.TraverseStmt]
    exact frame_VisitCompoundStmt p body s hs h
  | Stmt.DeclStmt decls, s, hs, h => by
    simp only [countCallS] at h
    simp only [StmtVisitor.TraverseStmt, StmtVisitor_TraverseVarDecls_eq p decls s hs, h,
      if_true]
    exact VisitorFrame.refl s
  | Stmt.DoStmt body cond, s, hs, h => by
    simp only [countCallS] at h
    have h1 : countCallE p cond = 0 := by omega
    have h2 : countCallS p body = 0 := by omega
    simp only [StmtVisitor.TraverseStmt, StmtVisitor_TraverseExpr_eq p cond s hs, h1, if_true]
    exact frame_visitNonCompoundStmt p body
      (fun s2 hs2 => frame_TraverseStmt p body s2 hs2 h2) s hs
  | Stmt.ForStmt none cond inc body, s, hs, h => by
    simp only [countCallS, countCallOptS] at h
    have h2 : countCallOptE p cond = 0 := by omega
    have h3 : countCallOptE p inc = 0 := by omega
    have h4 : countCallS p body = 0 := by omega
    simp only [StmtVisitor.TraverseStmt, StmtVisitor_TraverseOptExpr_eq p cond _ hs, h2,
      if_true, StmtVisitor_TraverseOptExpr_eq p inc _ hs, h3]
    exact frame_visitNonCompoundStmt p body
      (fun s2 hs2 => frame_TraverseStmt p body s2 hs2 h4) _ hs
  | Stmt.ForStmt (some Init) cond inc body, s, hs, h => by
    simp only [countCallS, countCallOptS] at h
    have h1 : countCallS p Init = 0 := by omega
    have h2 : countCallOptE p cond = 0 := by omega
    have h3 : countCallOptE p inc = 0 := by omega
    have h4 : countCallS p body = 0 := by omega
    have hinit := frame_TraverseStmt p Init s hs h1
    have hs1 := hinit.selected hs
    simp only [StmtVisitor.TraverseStmt, StmtVisitor_TraverseOptExpr_eq p cond _ hs1, h2,
      if_true, StmtVisitor_TraverseOptExpr_eq p inc _ hs1, h3]
    exact hinit.trans (frame_visitNonCompoundStmt p body
      (fun s2 hs2 => frame_TraverseStmt p body s2 hs2 h4) _ hs1)
  | Stmt.IfStmt cond thenB none, s, hs, h => by
    simp only [countCallS, countCallOptS] at h
    have h1 : countCallE p cond = 0 := by omega
    have h2 : countCallS p thenB = 0 := by omega
    simp only [StmtVisitor.TraverseStmt, StmtVisitor_TraverseExpr_eq p cond s hs, h1, if_true]
    exact frame_visitNonCompoundStmt p thenB
      (fun s2 hs2 => frame_TraverseStmt p thenB s2 hs2 h2) s hs
  | Stmt.IfStmt cond thenB (some ElseB), s, hs, h => by
    simp only [countCallS, countCallOptS] at h
    have h1 : countCallE p cond = 0 := by omega
    have h2 : countCallS p thenB = 0 := by omega
    have h3 : countCallS p ElseB = 0 := by omega
    simp only [StmtVisitor.TraverseStmt, StmtVisitor_TraverseExpr_eq p cond s hs, h1, if_true]
    have hthen := frame_visitNonCompoundStmt p thenB
      (fun s2 hs2 => frame_TraverseStmt p thenB s2 hs2 h2) s hs
    exact hthen.trans (frame_visitNonCompoundStmt p ElseB
      (fun s2 hs2 => frame_TraverseStmt p ElseB s2 hs2 h3) _ (hthen.selected hs))
  | Stmt.ReturnStmt _ retValue _, s, hs, h => by
    simp only [countCallS] at h
    simp only [StmtVisitor.TraverseStmt, StmtVisitor_TraverseOptExpr_eq p retValue s hs, h,
      if_true]
    exact VisitorFrame.refl s
  | Stmt.CaseStmt lhs sub, s, hs, h => by
    simp only [countCallS] at h
    have h2 : countCallS p sub = 0 := by omega
    simp only [StmtVisitor.TraverseStmt]
    exact frame_visitNonCompoundStmt p sub
      (fun s2 hs2 => frame_TraverseStmt p sub s2 hs2 h2) s hs
  | Stmt.DefaultStmt sub, s, hs, h => by
    simp only [countCallS] at h
    simp only [StmtVisitor.TraverseStmt]
    exact frame_visitNonCompoundStmt p sub
      (fun s2 hs2 => frame_TraverseStmt p sub s2 hs2 h) s hs
  | Stmt.SwitchStmt cond body, s, hs, h => by
    simp only [countCallS] at h
    have h1 : countCallE p cond = 0 := by omega
    have h2 : countCallS p body = 0 := by omega
    simp only [StmtVisitor.TraverseStmt, StmtVisitor_TraverseExpr_eq p cond s hs, h1, if_true,
      andThen_true]
    exact frame_TraverseStmt p body s hs h2
  | Stmt.WhileStmt cond body, s, hs, h => by
    simp only [countCallS] at h
    have h1 : countCallE p cond = 0 := by omega
    have h2 : countCallS p body = 0 := by omega
    simp only [StmtVisitor.TraverseStmt, StmtVisitor_TraverseExpr_eq p cond s hs, h1, if_true]
    exact frame_visitNonCompoundStmt p body
      (fun s2 hs2 => frame_TraverseStmt p body s2 hs2 h2) s hs
  | Stmt.LabelStmt _ sub, s, hs, h => by
    simp only [countCallS] at h
    simp only [StmtVisitor.TraverseStmt]
    exact frame_TraverseStmt p sub s hs h
theorem frame_VisitCompoundStmt (p : Nat) :
    ∀ (body : List Stmt) (s : State), Selected p s → countCallSs p body = 0 →
      VisitorFrame s (StmtVisitor.VisitCompoundStmt body s)
  | [], s, _, _ => VisitorFrame.refl s
  | I :: rest, s, hs, h => by
    simp only [countCallSs] at h
    have h1 : countCallS p I = 0 := by omega
    have h2 : countCallSs p rest = 0 := by omega
    simp only [StmtVisitor.VisitCompoundStmt]
    have hI := (VisitorFrame.setCurrent s (some I)).trans
      (frame_TraverseStmt p I _ ((VisitorFrame.setCurrent s (some I)).selected hs) h1)
    exact hI.trans (frame_VisitCompoundStmt p rest _ (hI.selected hs) h2)
end


theorem Selected.recorded {p : Nat} {s : State} (hs : Selected p s) :
    Selected p (recorded s) := hs

theorem simple_TraverseStmt (p : Nat) (I : Stmt) (s : State) (hs : Selected p s)
    (hI : isSimpleStmt I = true) :
    (StmtVisitor.TraverseStmt I s).1 = if countCallS p I = 0 then s else recorded s := by
  cases I with
  | ExprStmt e =>
    simp only [StmtVisitor.TraverseStmt, countCallS, StmtVisitor_TraverseExpr_eq p e s hs]
    split <;> rfl
  | NullStmt => simp [StmtVisitor.TraverseStmt, countCallS]
  | DeclStmt decls =>
    simp only [StmtVisitor.TraverseStmt, countCallS, StmtVisitor_TraverseVarDecls_eq p decls s hs]
    split <;> rfl
  | _ => simp [isSimpleStmt] at hI

/-- The traversal of a statement that has the selected call, once, outside its
compound blocks, branches and case labels records the statement and flag that are
current when the traversal starts. -/
theorem direct_TraverseStmt (p : Nat) :
    ∀ (S : Stmt) (s : State), Selected p s → directStmt p S = true → countCallS p S = 1 →
      VisitorFrame (recorded s) (StmtVisitor.TraverseStmt S s).1
  | Stmt.ExprStmt e, s, hs, hd, _ => by
    simp only [directStmt, decide_eq_true_eq] at hd
    have h0 : ¬ countCallE p e = 0 := by omega
    simp only [StmtVisitor.TraverseStmt, StmtVisitor_TraverseExpr_eq p e s hs, h0, if_false]
    exact VisitorFrame.refl _
  | Stmt.NullStmt, s, _, hd, _ => by simp [directStmt] at hd
  | Stmt.BreakStmt, s, _, hd, _ => by simp [directStmt] at hd
  | Stmt.ContinueStmt, s, _, hd, _ => by simp [directStmt] at hd
  | Stmt.GotoStmt _, s, _, hd, _ => by simp [directStmt] at hd
  | Stmt.IndirectGotoStmt target, s, hs, hd, _ => by
    simp only [directStmt, decide_eq_true_eq] at hd
    have h0 : ¬ countCallE p target = 0 := by omega
    simp only [StmtVisitor.TraverseStmt, StmtVisitor_TraverseExpr_eq p target s hs, h0,
      if_false]
    exact VisitorFrame.refl _
  | Stmt.CompoundStmt _, s, _, hd, _ => by simp [directStmt] at hd
  | Stmt.DeclStmt decls, s, hs, hd, _ => by
    simp only [directStmt, decide_eq_true_eq] at hd
    have h0 : ¬ countCallDecls p decls = 0 := by omega
    simp only [StmtVisitor.TraverseStmt, StmtVisitor_TraverseVarDecls_eq p decls s hs, h0,
      if_false]
    exact VisitorFrame.refl _
  | Stmt.DoStmt body cond, s, hs, hd, hc => by
    simp only [directStmt, decide_eq_true_eq] at hd
    simp only [countCallS] at hc
    have h0 : ¬ countCallE p cond = 0 := by omega
    have h2 : countCallS p body = 0 := by omega
    simp only [StmtVisitor.TraverseStmt, StmtVisitor_TraverseExpr_eq p cond s hs, h0, if_false]
    exact frame_visitNonCompoundStmt p body
      (fun s2 hs2 => frame_TraverseStmt p body s2 hs2 h2) _ hs.recorded
  | Stmt.ForStmt none cond inc body, s, hs, hd, hc => by
    simp only [directStmt, decide_eq_true_eq] at hd
    simp only [countCallS, countCallOptS] at hc
    have h4 : countCallS p body = 0 := by omega
    simp only [StmtVisitor.TraverseStmt, StmtVisitor_TraverseOptExpr_eq p cond s hs]
    by_cases h2 : countCallOptE p cond = 0
    · have h3 : ¬ countCallOptE p inc = 0 := by omega
      simp only [h2, if_true, StmtVisitor_TraverseOptExpr_eq p inc s hs, h3, if_false]
      exact frame_visitNonCompoundStmt p body
        (fun s2 hs2 => frame_TraverseStmt p body s2 hs2 h4) _ hs.recorded
    · have h3 : countCallOptE p inc = 0 := by omega
      simp only [h2, if_false, StmtVisitor_TraverseOptExpr_eq p inc _ hs.recorded, h3, if_true]
      exact frame_visitNonCompoundStmt p body
        (fun s2 hs2 => frame_TraverseStmt p body s2 hs2 h4) _ hs.recorded
  | Stmt.ForStmt (some Init) cond inc body, s, hs, hd, hc => by
    simp only [directStmt, Bool.and_eq_true, decide_eq_true_eq] at hd
    simp only [countCallS, countCallOptS] at hc
    have h4 : countCallS p body = 0 := by omega
    simp only [StmtVisitor.TraverseStmt, simple_TraverseStmt p Init s hs hd.1]
    by_cases h1 : countCallS p Init = 0
    · simp only [h1, if_true, StmtVisitor_TraverseOptExpr_eq p cond s hs]
      by_cases h2 : countCallOptE p cond = 0
      · have h3 : ¬ countCallOptE p inc = 0 := by omega
        simp only [h2, if_true, StmtVisitor_TraverseOptExpr_eq p inc s hs, h3, if_false]
        exact frame_visitNonCompoundStmt p body
          (fun s2 hs2 => frame_TraverseStmt p body s2 hs2 h4) _ hs.recorded
      · have h3 : countCallOptE p inc = 0 := by omega
        simp only [h2, if_false, StmtVisitor_TraverseOptExpr_eq p inc _ hs.recorded, h3,
          if_true]
        exact frame_visitNonCompoundStmt p body
          (fun s2 hs2 => frame_TraverseStmt p body s2 hs2 h4) _ hs.recorded
    · have h2 : countCallOptE p cond = 0 := by omega
      have h3 : countCallOptE p inc = 0 := by omega
      simp only [h1, if_false, StmtVisitor_TraverseOptExpr_eq p cond _ hs.recorded, h2,
        if_true, StmtVisitor_TraverseOptExpr_eq p inc _ hs.recorded, h3]
      exact frame_visitNonCompoundStmt p body
        (fun s2 hs2 => frame_TraverseStmt p body s2 hs2 h4) _ hs.recorded
  | Stmt.IfStmt cond thenB none, s, hs, hd, hc => by
    simp only [directStmt, decide_eq_true_eq] at hd
    simp only [countCallS, countCallOptS] at hc
    have h0 : ¬ countCallE p cond = 0 := by omega
    have h2 : countCallS p thenB = 0 := by omega
    simp only [StmtVisitor.TraverseStmt, StmtVisitor_TraverseExpr_eq p cond s hs, h0, if_false]
    exact frame_visitNonCompoundStmt p thenB
      (fun s2 hs2 => frame_TraverseStmt p thenB s2 hs2 h2) _ hs.recorded
  | Stmt.IfStmt cond thenB (some ElseB), s, hs, hd, hc => by
    simp only [directStmt, decide_eq_true_eq] at hd
    simp only [countCallS, countCallOptS] at hc
    have h0 : ¬ countCallE p cond = 0 := by omega
    have h2 : countCallS p thenB = 0 := by omega
    have h3 : countCallS p ElseB = 0 := by omega
    simp only [StmtVisitor.TraverseStmt, StmtVisitor_TraverseExpr_eq p cond s hs, h0, if_false]
    have hthen := frame_visitNonCompoundStmt p thenB
      (fun s2 hs2 => frame_TraverseStmt p thenB s2 hs2 h2) _ hs.recorded
    exact hthen.trans (frame_visitNonCompoundStmt p ElseB
      (fun s2 hs2 => frame_TraverseStmt p ElseB s2 hs2 h3) _ (hthen.selected hs.recorded))
  | Stmt.ReturnStmt _ retValue _, s, hs, hd, _ => by
    simp only [directStmt, decide_eq_true_eq] at hd
    have h0 : ¬ countCallOptE p retValue = 0 := by omega
    simp only [StmtVisitor.TraverseStmt, StmtVisitor_TraverseOptExpr_eq p retValue s hs, h0,
      if_false]
    exact VisitorFrame.refl _
  | Stmt.CaseStmt _ _, s, _, hd, _ => by simp [directStmt] at hd
  | Stmt.DefaultStmt _, s, _, hd, _ => by simp [directStmt] at hd
  | Stmt.SwitchStmt cond body, s, hs, hd, hc => by
    simp only [directStmt, Bool.or_eq_true, decide_eq_true_eq] at hd
    simp only [countCallS] at hc
    simp only [StmtVisitor.TraverseStmt, StmtVisitor_TraverseExpr_eq p cond s hs]
    by_cases h1 : countCallE p cond = 0
    · simp only [h1, if_true, andThen_true]
      rcases hd with hd | hd
      · omega
      · exact direct_TraverseStmt p body s hs hd (by omega)
    · simp only [h1, if_false, andThen_false]
      exact VisitorFrame.refl _
  | Stmt.WhileStmt cond body, s, hs, hd, hc => by
    simp only [directStmt, decide_eq_true_eq] at hd
    simp only [countCallS] at hc
    have h0 : ¬ countCallE p cond = 0 := by omega
    have h2 : countCallS p body = 0 := by omega
    simp only [StmtVisitor.TraverseStmt, StmtVisitor_TraverseExpr_eq p cond s hs, h0, if_false]
    exact frame_visitNonCompoundStmt p body
      (fun s2 hs2 => frame_TraverseStmt p body s2 hs2 h2) _ hs.recorded
  | Stmt.LabelStmt _ sub, s, hs, hd, hc => by
    simp only [directStmt] at hd
    simp only [countCallS] at hc
    simp only [StmtVisitor.TraverseStmt]
    exact direct_TraverseStmt p sub s hs hd hc

theorem directStmt_count (p : Nat) :
    ∀ S : Stmt, directStmt p S = true → 1 ≤ countCallS p S
  | Stmt.ExprStmt e, hd => by
    simp only [directStmt, decide_eq_true_eq] at hd
    simpa only [countCallS] using hd
  | Stmt.NullStmt, hd => by simp [directStmt] at hd
  | Stmt.BreakStmt, hd => by simp [directStmt] at hd
  | Stmt.ContinueStmt, hd => by simp [directStmt] at hd
  | Stmt.GotoStmt _, hd => by simp [directStmt] at hd
  | Stmt.IndirectGotoStmt target, hd => by
    simp only [directStmt, decide_eq_true_eq] at hd
    simpa only [countCallS] using hd
  | Stmt.CompoundStmt _, hd => by simp [directStmt] at hd
  | Stmt.DeclStmt decls, hd => by
    simp only [directStmt, decide_eq_true_eq] at hd
    simpa only [countCallS] using hd
  | Stmt.DoStmt body cond, hd => by
    simp only [directStmt, decide_eq_true_eq] at hd
    simp only [countCallS]
    omega
  | Stmt.ForStmt none cond inc body, hd => by
    simp only [directStmt, decide_eq_true_eq] at hd
    simp only [countCallS, countCallOptS]
    omega
  | Stmt.ForStmt (some Init) cond inc body, hd => by
    simp only [directStmt, Bool.and_eq_true, decide_eq_true_eq] at hd
    simp only [countCallS, countCallOptS]
    omega
  | Stmt.IfStmt cond thenB elseB, hd => by
    simp only [directStmt, decide_eq_true_eq] at hd
    simp only [countCallS]
    omega
  | Stmt.ReturnStmt _ retValue _, hd => by
    simp only [directStmt, decide_eq_true_eq] at hd
    simpa only [countCallS] using hd
  | Stmt.CaseStmt _ _, hd => by simp [directStmt] at hd
  | Stmt.DefaultStmt _, hd => by simp [directStmt] at hd
  | Stmt.SwitchStmt cond body, hd => by
    simp only [directStmt, Bool.or_eq_true, decide_eq_true_eq] at hd
    simp only [countCallS]
    rcases hd with hd | hd
    · omega
    · have := directStmt_count p body hd
      omega
  | Stmt.WhileStmt cond body, hd => by
    simp only [directStmt, decide_eq_true_eq] at hd
    simp only [countCallS]
    omega
  | Stmt.LabelStmt _ sub, hd => by
    simp only [directStmt] at hd
    simp only [countCallS]
    exact directStmt_count p sub hd


theorem Found.frame {T : Stmt} {b : Bool} {t u : State} (h : Found T b t)
    (hf : VisitorFrame t u) : Found T b u := by
  obtain ⟨h1, h2⟩ := hf.theStmt
  exact ⟨h1.trans h.1, fun hb => h2.trans (h.2 hb)⟩

theorem countCallS_le_of_mem (p : Nat) :
    ∀ (body : List Stmt) (I : Stmt), I ∈ body → countCallS p I ≤ countCallSs p body
  | [], _, h => by cases h
  | H :: rest, I, h => by
    simp only [countCallSs]
    rcases List.mem_cons.1 h with rfl | h
    · omega
    · have := countCallS_le_of_mem p rest I h
      omega

theorem Locates.count {p : Nat} {S Cand T : Stmt} {b b2 : Bool}
    (h : Locates p S Cand b T b2) : 1 ≤ countCallS p S := by
  induction h with
  | direct S Cand b hd => exact directStmt_count p S hd
  | child body I Cand b T b2 hmem _ ih =>
    have := countCallS_le_of_mem p body I hmem
    simp only [countCallS]
    omega
  | thenBranch cond thenB elseB Cand b T b2 _ ih => simp only [countCallS]; omega
  | elseBranch cond thenB ElseB Cand b T b2 _ ih =>
    simp only [countCallS, countCallOptS]; omega
  | forBody init cond inc body Cand b T b2 _ ih => simp only [countCallS]; omega
  | whileBody cond body Cand b T b2 _ ih => simp only [countCallS]; omega
  | doBody body cond Cand b T b2 _ ih => simp only [countCallS]; omega
  | caseSub lhs sub Cand b T b2 _ ih => simp only [countCallS]; omega
  | defaultSub sub Cand b T b2 _ ih => simp only [countCallS]; omega
  | switchBody cond body Cand b T b2 _ ih => simp only [countCallS]; omega
  | labelSub name sub Cand b T b2 _ ih => simp only [countCallS]; omega

/-- The visit of a branch in which the call is located. -/
theorem found_visitNonCompoundStmt (p : Nat) (B T : Stmt) (b2 : Bool)
    (hB : ∀ s, Selected p s →
      (isCompoundStmt B = false →
        s.CurrentStmt = some B ∧ (true = true → s.VisitorNeedParen = true)) →
      Found T b2 (StmtVisitor.TraverseStmt B s).1 ∧
        Selected p (StmtVisitor.TraverseStmt B s).1)
    (s : State) (hs : Selected p s) :
    Found T b2 (StmtVisitor.visitNonCompoundStmt B (StmtVisitor.TraverseStmt B) s) ∧
      Selected p (StmtVisitor.visitNonCompoundStmt B (StmtVisitor.TraverseStmt B) s) := by
  have hgen : Found T b2
      { (StmtVisitor.TraverseStmt B
          { { s with CurrentStmt := some B } with VisitorNeedParen := true }).1 with
        VisitorNeedParen := false } ∧ Selected p
      { (StmtVisitor.TraverseStmt B
          { { s with CurrentStmt := some B } with VisitorNeedParen := true }).1 with
        VisitorNeedParen := false } := by
    have h := hB { { s with CurrentStmt := some B } with VisitorNeedParen := true } hs
      (fun _ => ⟨rfl, fun _ => rfl⟩)
    exact ⟨h.1.frame (VisitorFrame.setFlag _ false),
      (VisitorFrame.setFlag _ false).selected h.2⟩
  cases B <;> first | exact hgen | exact hB s hs (fun h => by simp [isCompoundStmt] at h)

/-- The loop over a block one statement of which has the call. -/
theorem found_VisitCompoundStmt (p : Nat) (I T : Stmt) (b2 : Bool) (hI : 1 ≤ countCallS p I)
    (hTr : ∀ s, Selected p s →
      (isCompoundStmt I = false →
        s.CurrentStmt = some I ∧ (false = true → s.VisitorNeedParen = true)) →
      Found T b2 (StmtVisitor.TraverseStmt I s).1 ∧
        Selected p (StmtVisitor.TraverseStmt I s).1) :
    ∀ (body : List Stmt) (s : State), I ∈ body → countCallSs p body = 1 → Selected p s →
      Found T b2 (StmtVisitor.VisitCompoundStmt body s) ∧
        Selected p (StmtVisitor.VisitCompoundStmt body s)
  | [], _, h, _, _ => by cases h
  | H :: rest, s, hmem, hc, hs => by
    simp only [countCallSs] at hc
    simp only [StmtVisitor.VisitCompoundStmt]
    have hs1 : Selected p { s with CurrentStmt := some H } :=
      (VisitorFrame.setCurrent s (some H)).selected hs
    by_cases hH : countCallS p H = 0
    · have hIrest : I ∈ rest := by
        rcases List.mem_cons.1 hmem with rfl | h
        · omega
        · exact h
      have hfr := frame_TraverseStmt p H _ hs1 hH
      exact found_VisitCompoundStmt p I T b2 hI hTr rest _ hIrest (by omega)
        (hfr.selected hs1)
    · have hrest : countCallSs p rest = 0 := by omega
      have hIH : I = H := by
        rcases List.mem_cons.1 hmem with h | h
        · exact h
        · have := countCallS_le_of_mem p rest I h
          omega
      subst hIH
      have hfound := hTr { s with CurrentStmt := some I } hs1
        (fun _ => ⟨rfl, fun h => by cases h⟩)
      have hfr := frame_VisitCompoundStmt p rest _ hfound.2 hrest
      exact ⟨hfound.1.frame hfr, hfr.selected hfound.2⟩


theorem directStmt_not_compound (p : Nat) (S : Stmt) (h : directStmt p S = true) :
    isCompoundStmt S = false := by
  cases S <;> first | rfl | (simp [directStmt] at h)

/-- The locator records the smallest enclosing statement of the selected call, and
the flag true when that statement is a non-compound branch, provided the call node
occurs once in the statement traversed and outside the case labels. -/
theorem Locates.traverse {p : Nat} {S Cand T : Stmt} {b b2 : Bool}
    (h : Locates p S Cand b T b2) :
    countCallS p S = 1 → ∀ s : State, Selected p s →
      (isCompoundStmt S = false →
        s.CurrentStmt = some Cand ∧ (b = true → s.VisitorNeedParen = true)) →
      Found T b2 (StmtVisitor.TraverseStmt S s).1 ∧
        Selected p (StmtVisitor.TraverseStmt S s).1 := by
  induction h with
  | direct S Cand b hd =>
    intro hc s hs hpre
    have hfr := direct_TraverseStmt p S s hs hd hc
    obtain ⟨hcur, hflag⟩ := hpre (directStmt_not_compound p S hd)
    have hrec : Found Cand b (recorded s) := ⟨hcur, fun hb => hflag hb⟩
    exact ⟨hrec.frame hfr, hfr.selected hs.recorded⟩
  | child body I Cand b T b2 hmem hI ih =>
    intro hc s hs _
    simp only [countCallS] at hc
    have hle := countCallS_le_of_mem p body I hmem
    have hge := hI.count
    simp only [StmtVisitor.TraverseStmt]
    exact found_VisitCompoundStmt p I T b2 hge
      (fun s2 hs2 hpre2 => ih (by omega) s2 hs2 hpre2) body s hmem hc hs
  | thenBranch cond thenB elseB Cand b T b2 hB ih =>
    intro hc s hs _
    have hge := hB.count
    cases elseB with
    | none =>
      simp only [countCallS, countCallOptS] at hc
      have h0 : countCallE p cond = 0 := by omega
      simp only [StmtVisitor.TraverseStmt, StmtVisitor_TraverseExpr_eq p cond s hs, h0, if_true]
      exact found_visitNonCompoundStmt p thenB T b2
        (fun s2 hs2 hpre2 => ih (by omega) s2 hs2 hpre2) s hs
    | some ElseB =>
      simp only [countCallS, countCallOptS] at hc
      have h0 : countCallE p cond = 0 := by omega
      have h3 : countCallS p ElseB = 0 := by omega
      simp only [StmtVisitor.TraverseStmt, StmtVisitor_TraverseExpr_eq p cond s hs, h0, if_true]
      have hthen := found_visitNonCompoundStmt p thenB T b2
        (fun s2 hs2 hpre2 => ih (by omega) s2 hs2 hpre2) s hs
      have hfr := frame_visitNonCompoundStmt p ElseB
        (fun s2 hs2 => frame_TraverseStmt p ElseB s2 hs2 h3) _ hthen.2
      exact ⟨hthen.1.frame hfr, hfr.selected hthen.2⟩
  | elseBranch cond thenB ElseB Cand b T b2 hB ih =>
    intro hc s hs _
    have hge := hB.count
    simp only [countCallS, countCallOptS] at hc
    have h0 : countCallE p cond = 0 := by omega
    have h2 : countCallS p thenB = 0 := by omega
    simp only [StmtVisitor.TraverseStmt, StmtVisitor_TraverseExpr_eq p cond s hs, h0, if_true]
    have hfr := frame_visitNonCompoundStmt p thenB
      (fun s2 hs2 => frame_TraverseStmt p thenB s2 hs2 h2) s hs
    exact found_visitNonCompoundStmt p ElseB T b2
      (fun s2 hs2 hpre2 => ih (by omega) s2 hs2 hpre2) _ (hfr.selected hs)
  | forBody init cond inc body Cand b T b2 hB ih =>
    intro hc s hs _
    have hge := hB.count
    cases init with
    | none =>
      simp only [countCallS, countCallOptS] at hc
      have h2 : countCallOptE p cond = 0 := by omega
      have h3 : countCallOptE p inc = 0 := by omega
      simp only [StmtVisitor.TraverseStmt, StmtVisitor_TraverseOptExpr_eq p cond _ hs, h2,
        if_true, StmtVisitor_TraverseOptExpr_eq p inc _ hs, h3]
      exact found_visitNonCompoundStmt p body T b2
        (fun s2 hs2 hpre2 => ih (by omega) s2 hs2 hpre2) s hs
    | some Init =>
      simp only [countCallS, countCallOptS] at hc
      have h1 : countCallS p Init = 0 := by omega
      have h2 : countCallOptE p cond = 0 := by omega
      have h3 : countCallOptE p inc = 0 := by omega
      have hinit := frame_TraverseStmt p Init s hs h1
      have hs1 := hinit.selected hs
      simp only [StmtVisitor.TraverseStmt, StmtVisitor_TraverseOptExpr_eq p cond _ hs1, h2,
        if_true, StmtVisitor_TraverseOptExpr_eq p inc _ hs1, h3]
      exact found_visitNonCompoundStmt p body T b2
        (fun s2 hs2 hpre2 => ih (by omega) s2 hs2 hpre2) _ hs1
  | whileBody cond body Cand b T b2 hB ih =>
    intro hc s hs _
    have hge := hB.count
    simp only [countCallS] at hc
    have h0 : countCallE p cond = 0 := by omega
    simp only [StmtVisitor.TraverseStmt, StmtVisitor_TraverseExpr_eq p cond s hs, h0, if_true]
    exact found_visitNonCompoundStmt p body T b2
      (fun s2 hs2 hpre2 => ih (by omega) s2 hs2 hpre2) s hs
  | doBody body cond Cand b T b2 hB ih =>
    intro hc s hs _
    have hge := hB.count
    simp only [countCallS] at hc
    have h0 : countCallE p cond = 0 := by omega
    simp only [StmtVisitor.TraverseStmt, StmtVisitor_TraverseExpr_eq p cond s hs, h0, if_true]
    exact found_visitNonCompoundStmt p body T b2
      (fun s2 hs2 hpre2 => ih (by omega) s2 hs2 hpre2) s hs
  | caseSub lhs sub Cand b T b2 hB ih =>
    intro hc s hs _
    have hge := hB.count
    simp only [countCallS] at hc
    simp only [StmtVisitor.TraverseStmt]
    exact found_visitNonCompoundStmt p sub T b2
      (fun s2 hs2 hpre2 => ih (by omega) s2 hs2 hpre2) s hs
  | defaultSub sub Cand b T b2 hB ih =>
    intro hc s hs _
    simp only [countCallS] at hc
    simp only [StmtVisitor.TraverseStmt]
    exact found_visitNonCompoundStmt p sub T b2
      (fun s2 hs2 hpre2 => ih hc s2 hs2 hpre2) s hs
  | switchBody cond body Cand b T b2 hB ih =>
    intro hc s hs hpre
    have hge := hB.count
    simp only [countCallS] at hc
    have h0 : countCallE p cond = 0 := by omega
    simp only [StmtVisitor.TraverseStmt, StmtVisitor_TraverseExpr_eq p cond s hs, h0, if_true,
      andThen_true]
    exact ih (by omega) s hs (fun _ => hpre rfl)
  | labelSub name sub Cand b T b2 hB ih =>
    intro hc s hs hpre
    simp only [countCallS] at hc
    simp only [StmtVisitor.TraverseStmt]
    exact ih hc s hs (fun _ => hpre rfl)

/-- The locator on the body of the caller: when the selected call node occurs once
in the body and its smallest enclosing statement is `T`, the locator records `T`,
and the flag true when `T` is a non-compound branch. -/
theorem locator_records_smallest_enclosing (p : Nat) (Caller : FunctionDecl)
    (Body : List Stmt) (Cand T : Stmt) (b b2 : Bool) (s : State)
    (hbody : Caller.body = some (Stmt.CompoundStmt Body)) (hs : Selected p s)
    (hc : countCallS p (Stmt.CompoundStmt Body) = 1)
    (hloc : Locates p (Stmt.CompoundStmt Body) Cand b T b2) :
    (StmtVisitor.TraverseDecl (some Caller) s).TheStmt = some T ∧
      (b2 = true → (StmtVisitor.TraverseDecl (some Caller) s).NeedParen = true) := by
  have h := hloc.traverse hc s hs (fun h => by simp [isCompoundStmt] at h)
  simp only [StmtVisitor.TraverseDecl, hbody]
  exact h.1


theorem countLabelS_simple (p : Nat) (I : Stmt) (h : isSimpleStmt I = true) :
    countLabelS p I = 0 := by
  cases I <;> first | rfl | (simp [isSimpleStmt] at h)

mutual
/-- Every call that is in a statement and outside its case labels has a smallest
enclosing statement. -/
theorem locates_total (p : Nat) :
    ∀ (S : Stmt), 1 ≤ countCallS p S → countLabelS p S = 0 → simpleInits S = true →
      ∀ (Cand : Stmt) (b : Bool), ∃ (T : Stmt) (b2 : Bool), Locates p S Cand b T b2
  | Stmt.ExprStmt e, hc, _, _, Cand, b =>
    ⟨Cand, b, Locates.direct _ _ _ (by simpa [directStmt, countCallS] using hc)⟩
  | Stmt.NullStmt, hc, _, _, _, _ => by simp [countCallS] at hc
  | Stmt.BreakStmt, hc, _, _, _, _ => by simp [countCallS] at hc
  | Stmt.ContinueStmt, hc, _, _, _, _ => by simp [countCallS] at hc
  | Stmt.GotoStmt _, hc, _, _, _, _ => by simp [countCallS] at hc
  | Stmt.IndirectGotoStmt target, hc, _, _, Cand, b =>
    ⟨Cand, b, Locates.direct _ _ _ (by simpa [directStmt, countCallS] using hc)⟩
  | Stmt.CompoundStmt body, hc, hl, hw, Cand, b => by
    simp only [countCallS] at hc
    simp only [countLabelS] at hl
    simp only [simpleInits] at hw
    obtain ⟨I, hI, T, b2, hloc⟩ := locates_total_list p body hc hl hw
    exact ⟨T, b2, Locates.child body I Cand b T b2 hI hloc⟩
  | Stmt.DeclStmt decls, hc, _, _, Cand, b =>
    ⟨Cand, b, Locates.direct _ _ _ (by simpa [directStmt, countCallS] using hc)⟩
  | Stmt.DoStmt body cond, hc, hl, hw, Cand, b => by
    simp only [countCallS] at hc
    simp only [countLabelS] at hl
    simp only [simpleInits] at hw
    by_cases h0 : countCallE p cond = 0
    · obtain ⟨T, b2, hloc⟩ := locates_total p body (by omega) hl hw body true
      exact ⟨T, b2, Locates.doBody body cond Cand b T b2 hloc⟩
    · exact ⟨Cand, b, Locates.direct _ _ _ (by simp only [directStmt, decide_eq_true_eq]; omega)⟩
  | Stmt.ForStmt none cond inc body, hc, hl, hw, Cand, b => by
    simp only [countCallS, countCallOptS] at hc
    simp only [countLabelS, countLabelOptS] at hl
    simp only [simpleInits] at hw
    by_cases h0 : countCallOptE p cond + countCallOptE p inc = 0
    · obtain ⟨T, b2, hloc⟩ := locates_total p body (by omega) (by omega) hw body true
      exact ⟨T, b2, Locates.forBody none cond inc body Cand b T b2 hloc⟩
    · exact ⟨Cand, b, Locates.direct _ _ _ (by simp only [directStmt, decide_eq_true_eq]; omega)⟩
  | Stmt.ForStmt (some Init) cond inc body, hc, hl, hw, Cand, b => by
    simp only [countCallS, countCallOptS] at hc
    simp only [countLabelS, countLabelOptS] at hl
    simp only [simpleInits, Bool.and_eq_true] at hw
    by_cases h0 : countCallS p Init + countCallOptE p cond + countCallOptE p inc = 0
    · obtain ⟨T, b2, hloc⟩ := locates_total p body (by omega) (by omega) hw.2 body true
      exact ⟨T, b2, Locates.forBody (some Init) cond inc body Cand b T b2 hloc⟩
    · exact ⟨Cand, b, Locates.direct _ _ _
        (by simp only [directStmt, hw.1, Bool.true_and, decide_eq_true_eq]; omega)⟩
  | Stmt.IfStmt cond thenB none, hc, hl, hw, Cand, b => by
    simp only [countCallS, countCallOptS] at hc
    simp only [countLabelS, countLabelOptS] at hl
    simp only [simpleInits] at hw
    by_cases h0 : countCallE p cond = 0
    · obtain ⟨T, b2, hloc⟩ := locates_total p thenB (by omega) (by omega) hw thenB true
      exact ⟨T, b2, Locates.thenBranch cond thenB none Cand b T b2 hloc⟩
    · exact ⟨Cand, b, Locates.direct _ _ _ (by simp only [directStmt, decide_eq_true_eq]; omega)⟩
  | Stmt.IfStmt cond thenB (some ElseB), hc, hl, hw, Cand, b => by
    simp only [countCallS, countCallOptS] at hc
    simp only [countLabelS, countLabelOptS] at hl
    simp only [simpleInits, Bool.and_eq_true] at hw
    by_cases h0 : countCallE p cond = 0
    · by_cases h1 : countCallS p thenB = 0
      · obtain ⟨T, b2, hloc⟩ := locates_total p ElseB (by omega) (by omega) hw.2 ElseB true
        exact ⟨T, b2, Locates.elseBranch cond thenB ElseB Cand b T b2 hloc⟩
      · obtain ⟨T, b2, hloc⟩ := locates_total p thenB (by omega) (by omega) hw.1 thenB true
        exact ⟨T, b2, Locates.thenBranch cond thenB (some ElseB) Cand b T b2 hloc⟩
    · exact ⟨Cand, b, Locates.direct _ _ _ (by simp only [directStmt, decide_eq_true_eq]; omega)⟩
  | Stmt.ReturnStmt _ retValue _, hc, _, _, Cand, b =>
    ⟨Cand, b, Locates.direct _ _ _ (by simpa [directStmt, countCallS] using hc)⟩
  | Stmt.CaseStmt lhs sub, hc, hl, hw, Cand, b => by
    simp only [countCallS] at hc
    simp only [countLabelS] at hl
    simp only [simpleInits] at hw
    obtain ⟨T, b2, hloc⟩ := locates_total p sub (by omega) (by omega) hw sub true
    exact ⟨T, b2, Locates.caseSub lhs sub Cand b T b2 hloc⟩
  | Stmt.DefaultStmt sub, hc, hl, hw, Cand, b => by
    simp only [countCallS] at hc
    simp only [countLabelS] at hl
    simp only [simpleInits] at hw
    obtain ⟨T, b2, hloc⟩ := locates_total p sub hc hl hw sub true
    exact ⟨T, b2, Locates.defaultSub sub Cand b T b2 hloc⟩
  | Stmt.SwitchStmt cond body, hc, hl, hw, Cand, b => by
    simp only [countCallS] at hc
    simp only [countLabelS] at hl
    simp only [simpleInits] at hw
    by_cases h0 : countCallE p cond = 0
    · obtain ⟨T, b2, hloc⟩ := locates_total p body (by omega) hl hw Cand b
      exact ⟨T, b2, Locates.switchBody cond body Cand b T b2 hloc⟩
    · exact ⟨Cand, b, Locates.direct _ _ _
        (by simp only [directStmt, Bool.or_eq_true, decide_eq_true_eq]; left; omega)⟩
  | Stmt.WhileStmt cond body, hc, hl, hw, Cand, b => by
    simp only [countCallS] at hc
    simp only [countLabelS] at hl
    simp only [simpleInits] at hw
    by_cases h0 : countCallE p cond = 0
    · obtain ⟨T, b2, hloc⟩ := locates_total p body (by omega) hl hw body true
      exact ⟨T, b2, Locates.whileBody cond body Cand b T b2 hloc⟩
    · exact ⟨Cand, b, Locates.direct _ _ _ (by simp only [directStmt, decide_eq_true_eq]; omega)⟩
  | Stmt.LabelStmt name sub, hc, hl, hw, Cand, b => by
    simp only [countCallS] at hc
    simp only [countLabelS] at hl
    simp only [simpleInits] at hw
    obtain ⟨T, b2, hloc⟩ := locates_total p sub hc hl hw Cand b
    exact ⟨T, b2, Locates.labelSub name sub Cand b T b2 hloc⟩
theorem locates_total_list (p : Nat) :
    ∀ (body : List Stmt), 1 ≤ countCallSs p body → countLabelSs p body = 0 →
      simpleInitsList body = true →
      ∃ I ∈ body, ∃ (T : Stmt) (b2 : Bool), Locates p I I false T b2
  | [], hc, _, _ => by simp [countCallSs] at hc
  | H :: rest, hc, hl, hw => by
    simp only [countCallSs] at hc
    simp only [countLabelSs] at hl
    simp only [simpleInitsList, Bool.and_eq_true] at hw
    by_cases h0 : countCallS p H = 0
    · obtain ⟨I, hI, T, b2, hloc⟩ := locates_total_list p rest (by omega) (by omega) hw.2
      exact ⟨I, List.mem_cons_of_mem _ hI, T, b2, hloc⟩
    · obtain ⟨T, b2, hloc⟩ := locates_total p H (by omega) (by omega) hw.1 H false
      exact ⟨H, List.mem_cons_self _ _, T, b2, hloc⟩
end

/-- The locator records a statement for every selected call whose node occurs once
in the body of the caller and not in a case label. -/
theorem locator_records_when_not_in_label (p : Nat) (Caller : FunctionDecl)
    (Body : List Stmt) (s : State)
    (hbody : Caller.body = some (Stmt.CompoundStmt Body)) (hs : Selected p s)
    (hc : countCallS p (Stmt.CompoundStmt Body) = 1)
    (hl : countLabelS p (Stmt.CompoundStmt Body) = 0)
    (hw : simpleInits (Stmt.CompoundStmt Body) = true) :
    ∃ (T : Stmt) (b2 : Bool),
      Locates p (Stmt.CompoundStmt Body) (Stmt.CompoundStmt Body) false T b2 ∧
      (StmtVisitor.TraverseDecl (some Caller) s).TheStmt = some T ∧
      (b2 = true → (StmtVisitor.TraverseDecl (some Caller) s).NeedParen = true) := by
  obtain ⟨T, b2, hloc⟩ := locates_total p _ (by omega) hl hw (Stmt.CompoundStmt Body) false
  exact ⟨T, b2, hloc,
    locator_records_smallest_enclosing p Caller Body _ T false b2 s hbody hs hc hloc⟩

/-- In `void m(int c,int x){if(c)f(x);}` the call lies in the non-compound
then-branch `f(x);`: the locator records that statement and the flag true. -/
theorem locator_records_then_branch :
    (StmtVisitor.TraverseDecl (some (Example.caller Example.bodyIf Example.textIf))
        { State.initial 1 false 10 with TheCallExpr := some Example.fCall }).TheStmt
      = some Example.fStmt ∧
    (StmtVisitor.TraverseDecl (some (Example.caller Example.bodyIf Example.textIf))
        { State.initial 1 false 10 with TheCallExpr := some Example.fCall }).NeedParen
      = true := by
  have h := locator_records_smallest_enclosing 400
    (Example.caller Example.bodyIf Example.textIf) Example.bodyIf
    (Stmt.CompoundStmt Example.bodyIf) Example.fStmt false true
    { State.initial 1 false 10 with TheCallExpr := some Example.fCall } rfl
    ⟨Example.fCall, rfl, rfl⟩ (by decide)
    (Locates.child _ _ _ _ _ _ (List.mem_cons_self _ _)
      (Locates.thenBranch _ _ _ _ _ _ _ (Locates.direct _ _ _ (by decide))))
  exact ⟨h.1, h.2 rfl⟩

end SimpleInliner
